import Mathlib

/-!
# audio-for-neighbours: signal coordinator and presence debounce tracker

A shallow embedding of `cmd/audio-for-neighbours` (`time_utils.go`,
`presence.go`, `app.go` and the part of `audio.go` the coordinator calls).

Conventions of the embedding.

* Every Go method is one sequential state transformer: the mutexes only
  delimit critical sections and are not represented.
* A Go `map[string]V` is an association list with pairwise distinct keys;
  assignment replaces in place or appends, so a `range` loop visits the entries
  in insertion order (Go leaves the order unspecified).
* A `*time.Timer` is a natural number, fresh at every `time.AfterFunc`; the
  timers the runtime still has to fire are kept in an `armed` list, and a
  firing is an explicit step of the environment.
* The buffered channel `events` is the list of the queued events, oldest
  first; a receive by `runPresenceEvents` is an explicit step as well.
* `strings.TrimSpace` and `strings.ToLower` belong to the Go standard library:
  the tracker takes them as a parameter `GoStrings`.
* Calls to the player and to the notifier are appended to a trace of effects.
  Diagnostic `log.Printf` lines are not represented.
-/

namespace AudioForNeighbours

/-! ## Go maps -/

/-- Lookup `m[k]` with the `ok` flag: `none` when the key is absent. -/
def mapGet {V : Type} : List (String × V) → String → Option V
  | [], _ => none
  | (k', v) :: rest, k => if k' = k then some v else mapGet rest k

/-- Assignment `m[k] = v`. -/
def mapSet {V : Type} : List (String × V) → String → V → List (String × V)
  | [], k, v => [(k, v)]
  | (k', v') :: rest, k, v =>
    if k' = k then (k, v) :: rest else (k', v') :: mapSet rest k v

/-- Removal `delete(m, k)`. -/
def mapDelete {V : Type} : List (String × V) → String → List (String × V)
  | [], _ => []
  | (k', v) :: rest, k => if k' = k then mapDelete rest k else (k', v) :: mapDelete rest k

/-- Keys of a map, in iteration order. -/
def mapKeys {V : Type} (m : List (String × V)) : List String :=
  m.map Prod.fst

/-! ## Standard-library strings -/

/-- The two functions of package `strings` used by the presence tracker. -/
structure GoStrings where
  TrimSpace : String → String
  ToLower : String → String

/-- White space of the ASCII range, as `unicode.IsSpace` sees it. -/
def asciiIsSpace (c : Char) : Bool :=
  c = ' ' || c = '\t' || c = '\n' || c = '\r' || c.toNat = 11 || c.toNat = 12

/-- An instance of `GoStrings` that agrees with Go on ASCII text. -/
def asciiStrings : GoStrings where
  TrimSpace := fun s =>
    String.mk ((s.data.dropWhile asciiIsSpace).reverse.dropWhile asciiIsSpace).reverse
  ToLower := fun s => String.mk (s.data.map Char.toLower)

/-- Lexicographic order on code points, the order of Go string comparison. -/
def charsLe : List Char → List Char → Bool
  | [], _ => true
  | _ :: _, [] => false
  | a :: as, b :: bs =>
    if a.toNat < b.toNat then true
    else if b.toNat < a.toNat then false
    else charsLe as bs

/-- Go `a <= b` on strings. -/
def stringLe (a b : String) : Bool :=
  charsLe a.data b.data

/-- Insertion of one string into an ascending list. -/
def insertSorted (x : String) : List String → List String
  | [] => [x]
  | y :: ys => if stringLe x y then x :: y :: ys else y :: insertSorted x ys

/-- Go `sort.Strings`. -/
def sortStrings : List String → List String
  | [] => []
  | x :: xs => insertSorted x (sortStrings xs)

/-- Go `strings.Join(xs, sep)`. -/
def stringsJoin (xs : List String) (sep : String) : String :=
  sep.intercalate xs

/-! ## time_utils.go -/

/-- A wall-clock instant: seconds of local time since an epoch at midnight. -/
structure Time where
  localSeconds : Int
deriving DecidableEq, Repr

/-- Go `t.Hour()`: the hour within the day, `0..23`. -/
def Time.Hour (t : Time) : Nat :=
  ((t.localSeconds / 3600) % 24).toNat

/-- Go `isQuietHours`. -/
def isQuietHours (t : Time) : Bool :=
  let hour := t.Hour
  if hour ≥ 22 || hour < 9 then true
  else hour ≥ 13 && hour < 15

/-! ## presence.go -/

/-- Go `presenceEvent`. -/
structure presenceEvent where
  Name : String
  Online : Bool
deriving DecidableEq, Repr

/-- Go `presenceTracker`. `events` is the buffered channel (capacity 32,
oldest first); `nextTimer` and `armed` are the timer runtime. -/
structure presenceTracker where
  delay : Int
  online : List (String × Bool)
  timers : List (String × Nat)
  names : List (String × String)
  events : List presenceEvent
  nextTimer : Nat
  armed : List Nat
deriving DecidableEq, Repr

/-- Capacity of the `events` channel. -/
def eventsCapacity : Nat := 32

/-- Go `newPresenceTracker`. -/
def newPresenceTracker (delay : Int) : presenceTracker where
  delay := delay
  online := []
  timers := []
  names := []
  events := []
  nextTimer := 0
  armed := []

namespace presenceTracker

/-- Go `emit`: a non-blocking send; the `default` branch does nothing. -/
def emit (p : presenceTracker) (evt : presenceEvent) : presenceTracker :=
  if p.events.length < eventsCapacity then { p with events := p.events ++ [evt] }
  else p

/-- Go `scheduleOfflineLocked`. -/
def scheduleOfflineLocked (p : presenceTracker) (key : String) : presenceTracker :=
  if p.delay ≤ 0 then
    let p := { p with online := mapSet p.online key false }
    let name := (mapGet p.names key).getD ""
    p.emit { Name := name, Online := false }
  else
    let timer := p.nextTimer
    { p with
      nextTimer := timer + 1
      armed := p.armed ++ [timer]
      timers := mapSet p.timers key timer }

/-- Go `fireOffline`: the body of the callback of an offline timer. -/
def fireOffline (p : presenceTracker) (key : String) (timer : Nat) : presenceTracker :=
  match mapGet p.timers key with
  | none => p
  | some current =>
    if current ≠ timer then p
    else
      let p := { p with timers := mapDelete p.timers key }
      if !(mapGet p.online key).getD false then p
      else
        let p := { p with online := mapSet p.online key false }
        let name := (mapGet p.names key).getD ""
        p.emit { Name := name, Online := false }

/-- First loop of `Update`: the map `now` built from the snapshot. -/
def seenNow (L : GoStrings) (online : List String) : List (String × String) :=
  online.foldl
    (fun now name =>
      let trimmed := L.TrimSpace name
      if trimmed = "" then now
      else mapSet now (L.ToLower trimmed) trimmed)
    []

/-- Body of the second loop of `Update`, for one entry of `now`. -/
def markSeen (acc : presenceTracker × List presenceEvent) (entry : String × String) :
    presenceTracker × List presenceEvent :=
  let key := entry.1
  let name := entry.2
  let p := acc.1
  let events := acc.2
  let p := { p with names := mapSet p.names key name }
  let p :=
    match mapGet p.timers key with
    | some t => { p with armed := p.armed.erase t, timers := mapDelete p.timers key }
    | none => p
  if !(mapGet p.online key).getD false then
    ({ p with online := mapSet p.online key true },
      events ++ [{ Name := name, Online := true }])
  else (p, events)

/-- Body of the third loop of `Update`, for one entry of `p.online`. The body
only ever writes the entry it is visiting, so the loop runs over the entries
the map had when the loop started. -/
def markAbsent (now : List (String × String)) (p : presenceTracker)
    (entry : String × Bool) : presenceTracker :=
  let key := entry.1
  let isOnline := entry.2
  if !isOnline then p
  else if (mapGet now key).isSome then p
  else if (mapGet p.timers key).isSome then p
  else p.scheduleOfflineLocked key

/-- Go `Update`: the new tracker and the returned events. -/
def Update (L : GoStrings) (p : presenceTracker) (online : List String) :
    presenceTracker × List presenceEvent :=
  let now := seenNow L online
  let acc := now.foldl markSeen (p, [])
  let p := acc.1.online.foldl (markAbsent now) acc.1
  (p, acc.2)

/-- Go `CurrentOnline`. -/
def CurrentOnline (p : presenceTracker) : List String :=
  let online := p.online.foldl
    (fun online entry =>
      if !entry.2 then online
      else
        let name := (mapGet p.names entry.1).getD ""
        let name := if name = "" then entry.1 else name
        online ++ [name])
    []
  sortStrings online

end presenceTracker

/-! ## audio.go -/

/-- Go `audioPlayer`, as far as the coordinator touches it: the `paused` flag
and the `Paused` flag of the `beep.Ctrl` of the item being played, if any. -/
structure audioPlayer where
  paused : Bool
  ctrl : Option Bool
deriving DecidableEq, Repr

/-- Go `newAudioPlayer`. -/
def newAudioPlayer : audioPlayer where
  paused := false
  ctrl := none

/-- Go `audioPlayer.setPaused`. -/
def audioPlayer.setPaused (p : audioPlayer) (paused : Bool) : audioPlayer :=
  let p := { p with paused := paused }
  match p.ctrl with
  | none => p
  | some _ => { p with ctrl := some paused }

/-! ## app.go -/

/-- Bytes of a captured image. -/
abbrev Image := List Nat

/-- Calls the coordinator makes on its collaborators. -/
inductive Effect where
  | setPaused (paused : Bool)
  | notify (msg : String)
  | send (msg : String)
  | sendPhoto (filename : String) (image : Image)
deriving DecidableEq, Repr

/-- Go `app`. `notifier` and `snapshot` say whether the pointer is non-nil;
`motionTimer` and `motionSnapCancel` hold a handle or `none` for nil.
`nextTimer`/`armed` are the timer runtime, `nextCtx`/`loops` the contexts of
the snapshot loops still running, `trace` the effects so far. -/
structure app where
  player : audioPlayer
  notifier : Bool
  snapshot : Bool
  presence : presenceTracker
  paused : Bool
  pausedBySchedule : Bool
  pausedByMotion : Bool
  pausedByManual : Bool
  pausedByPresence : Bool
  forcePlay : Bool
  lastMotion : Bool
  motionTimer : Option Nat
  currentFile : String
  onlineTargets : List String
  motionSnapCancel : Option Nat
  nextTimer : Nat
  armed : List Nat
  nextCtx : Nat
  loops : List Nat
  trace : List Effect
deriving DecidableEq, Repr

/-- Go `newApp`; `presenceClearDelay` is `appConfig.PresenceClearDelay`. -/
def newApp (player : audioPlayer) (notifier : Bool) (presenceClearDelay : Int) : app where
  player := player
  notifier := notifier
  snapshot := false
  presence := newPresenceTracker presenceClearDelay
  paused := false
  pausedBySchedule := false
  pausedByMotion := false
  pausedByManual := false
  pausedByPresence := false
  forcePlay := false
  lastMotion := false
  motionTimer := none
  currentFile := ""
  onlineTargets := []
  motionSnapCancel := none
  nextTimer := 0
  armed := []
  nextCtx := 0
  loops := []
  trace := []

/-- Go `stringSlicesEqual`. -/
def stringSlicesEqual (a b : List String) : Bool :=
  if a.length ≠ b.length then false
  else (a.zip b).all (fun xy => decide (xy.1 = xy.2))

namespace app

/-- Go `setSnapshotter` with a non-nil snapshotter. -/
def setSnapshotter (a : app) : app :=
  { a with snapshot := true }

/-- Go `notify`: the call is recorded, and the send when a notifier exists. -/
def notify (a : app) (msg : String) : app :=
  let a := { a with trace := a.trace ++ [Effect.notify msg] }
  if a.notifier = false then a
  else { a with trace := a.trace ++ [Effect.send msg] }

/-- Go `pauseReasonsLocked`. -/
def pauseReasonsLocked (a : app) : List String :=
  let reasons : List String := []
  let reasons := if a.pausedBySchedule then reasons ++ ["quiet hours"] else reasons
  let reasons := if a.pausedByMotion then reasons ++ ["motion"] else reasons
  let reasons :=
    if a.pausedByPresence then
      if a.onlineTargets.length > 0 then
        reasons ++ ["presence:" ++ stringsJoin a.onlineTargets ", "]
      else reasons ++ ["presence"]
    else reasons
  let reasons := if a.forcePlay then reasons ++ ["forced play"] else reasons
  let reasons := if a.pausedByManual then reasons ++ ["manual"] else reasons
  if reasons.length = 0 then reasons ++ ["none"] else reasons

/-- The decision `shouldPause` computed at the head of `applyState`. -/
def shouldPause (a : app) : Bool :=
  let shouldPause := a.pausedBySchedule || a.pausedByMotion || a.pausedByPresence
  let shouldPause := if a.forcePlay then false else shouldPause
  if a.pausedByManual then true else shouldPause

/-- Go `applyState`. -/
def applyState (a : app) (trigger : String) : app :=
  let shouldPause := a.shouldPause
  let wasPaused := a.paused
  if shouldPause = wasPaused then a
  else
    let a := { a with paused := shouldPause }
    let reasons := a.pauseReasonsLocked
    let currentFile := a.currentFile
    let a := { a with
      player := a.player.setPaused shouldPause
      trace := a.trace ++ [Effect.setPaused shouldPause] }
    if shouldPause then
      a.notify ("Playback paused (" ++ trigger ++ "). Reasons: " ++
        stringsJoin reasons ", " ++ ". Current: " ++ currentFile)
    else
      a.notify ("Playback resumed (" ++ trigger ++ "). Current: " ++ currentFile)

/-- Go `setSchedulePause`. -/
def setSchedulePause (a : app) (paused : Bool) (trigger : String) : app :=
  applyState { a with pausedBySchedule := paused } trigger

/-- Go `setMotionPause`. -/
def setMotionPause (a : app) (paused : Bool) (trigger : String) : app :=
  let a := { a with pausedByMotion := paused }
  let a :=
    if paused then
      match a.motionTimer with
      | some t => { a with armed := a.armed.erase t, motionTimer := none }
      | none => a
    else a
  applyState a trigger

/-- Go `setPresencePause`. -/
def setPresencePause (a : app) (paused : Bool) (trigger : String) : app :=
  applyState { a with pausedByPresence := paused } trigger

/-- Go `setManualPause`. -/
def setManualPause (a : app) (paused : Bool) (trigger : String) : app :=
  applyState { a with pausedByManual := paused } trigger

/-- Go `setForcePlay`. -/
def setForcePlay (a : app) (enabled : Bool) (trigger : String) : app :=
  applyState { a with forcePlay := enabled } trigger

/-- Go `startMotionSnapshots`; the spawned loop is recorded in `loops`. -/
def startMotionSnapshots (a : app) : app :=
  if a.snapshot = false || a.notifier = false then a
  else
    match a.motionSnapCancel with
    | some _ => a
    | none =>
      let ctx := a.nextCtx
      { a with motionSnapCancel := some ctx, nextCtx := ctx + 1, loops := a.loops ++ [ctx] }

/-- Go `stopMotionSnapshots`; `cancel()` ends the loop of that context. -/
def stopMotionSnapshots (a : app) : app :=
  let cancel := a.motionSnapCancel
  let a := { a with motionSnapCancel := none }
  match cancel with
  | some ctx => { a with loops := a.loops.erase ctx }
  | none => a

/-- One tick of Go `motionSnapshotLoop` for the context `ctx`; `shot` is what
`getSnapshot` returns (an error text or an image). -/
def motionSnapshotTick (a : app) (ctx : Nat) (shot : Except String Image) : app :=
  if ctx ∈ a.loops then
    match shot with
    | Except.error _ => a
    | Except.ok image =>
      if a.notifier = false then a
      else { a with trace := a.trace ++ [Effect.sendPhoto "motion.jpg" image] }
  else a

/-- Go `startMotionResumeTimer`. -/
def startMotionResumeTimer (a : app) : app :=
  let a :=
    match a.motionTimer with
    | some t => { a with armed := a.armed.erase t }
    | none => a
  let timer := a.nextTimer
  { a with motionTimer := some timer, nextTimer := timer + 1, armed := a.armed ++ [timer] }

/-- The callback given to `time.AfterFunc` in `startMotionResumeTimer`. -/
def motionTimerCallback (a : app) : app :=
  a.setMotionPause false "motion cleared 5m"

/-- The runtime fires the armed timer `t`: it leaves the armed list and its
callback runs. A timer that is not armed does not fire. -/
def fireMotionTimer (a : app) (t : Nat) : app :=
  if t ∈ a.armed then motionTimerCallback { a with armed := a.armed.erase t }
  else a

/-- Go `handleMotionUpdate`. -/
def handleMotionUpdate (a : app) (detected : Bool) (names : List String) : app :=
  let a := { a with lastMotion := detected }
  if detected then
    let a := a.setMotionPause true ("motion detected (" ++ stringsJoin names ", " ++ ")")
    a.startMotionSnapshots
  else
    let a := a.stopMotionSnapshots
    a.startMotionResumeTimer

/-- Go `applyPresenceState`. -/
def applyPresenceState (a : app) : app :=
  let online := a.presence.CurrentOnline
  let changed := !stringSlicesEqual a.onlineTargets online
  let a := { a with onlineTargets := online }
  if !changed then a
  else if online.length > 0 then
    a.setPresencePause true ("presence detected (" ++ stringsJoin online ", " ++ ")")
  else a.setPresencePause false "presence cleared (debounced)"

/-- Go `handlePresenceEvent`. -/
def handlePresenceEvent (a : app) (evt : presenceEvent) : app :=
  let a :=
    if evt.Online then a.notify ("Presence online: " ++ evt.Name)
    else a.notify ("Presence offline: " ++ evt.Name)
  a.applyPresenceState

/-- Go `handlePresenceUpdate`. -/
def handlePresenceUpdate (L : GoStrings) (a : app) (online : List String) : app :=
  let r := a.presence.Update L online
  let a := { a with presence := r.1 }
  let a := r.2.foldl handlePresenceEvent a
  a.applyPresenceState

/-- One iteration of Go `runPresenceEvents`: receive from the channel. -/
def runPresenceEventsStep (a : app) : app :=
  match a.presence.events with
  | [] => a
  | evt :: rest =>
    handlePresenceEvent { a with presence := { a.presence with events := rest } } evt

/-- The callback of the offline timer `timer` of the tracker runs for `key`;
the timer has left the armed list. -/
def firePresenceTimer (a : app) (key : String) (timer : Nat) : app :=
  { a with
    presence :=
      presenceTracker.fireOffline
        { a.presence with armed := a.presence.armed.erase timer } key timer }

/-- One iteration of Go `runFileNotifications`: the player started `file`. -/
def runFileNotificationsStep (a : app) (file : String) : app :=
  notify { a with currentFile := file } ("Now playing: " ++ file)

/-- One evaluation of the schedule in Go `runScheduleLoop`. -/
def runScheduleLoopStep (a : app) (now : Time) : app :=
  a.setSchedulePause (isQuietHours now) "schedule check"

/-- Text of the `default` branch of `handleCommand`. -/
def helpText : String :=
  "Commands: /play (force on), /pause, /auto, /status, /snapshot, /enable, /disable"

/-- Go `handleCommand`: the new state and the reply. `shot` is what
`getSnapshot` returns when the command asks for a capture. -/
def handleCommand (a : app) (cmd : String) (shot : Except String Image) : app × String :=
  if cmd = "pause" ∨ cmd = "stop" ∨ cmd = "disable" then
    let a := a.setForcePlay false "telegram"
    let a := a.setManualPause true "telegram"
    (a, "Playback paused by manual command.")
  else if cmd = "play" ∨ cmd = "start" ∨ cmd = "enable" then
    let a := a.setManualPause false "telegram"
    let a := a.setForcePlay true "telegram"
    (a, "Playback forced on by manual command.")
  else if cmd = "auto" then
    let a := a.setForcePlay false "telegram"
    let a := a.setManualPause false "telegram"
    (a, "Playback returned to automatic control.")
  else if cmd = "status" then
    let paused := a.paused
    let reasons := a.pauseReasonsLocked
    let current := a.currentFile
    let forced := a.forcePlay
    let online := stringsJoin a.onlineTargets ", "
    (a, "Paused=" ++ toString paused ++ ", forced=" ++ toString forced ++
      ", reasons=" ++ stringsJoin reasons ", " ++ ", current=" ++ current ++
      ", online=" ++ online)
  else if cmd = "snapshot" then
    if a.snapshot = false || a.notifier = false then (a, "Snapshot not available.")
    else
      match shot with
      | Except.error err => (a, "Snapshot error: " ++ err)
      | Except.ok image =>
        ({ a with trace := a.trace ++ [Effect.sendPhoto "snapshot.jpg" image] },
          "Snapshot sent.")
  else (a, helpText)

end app

/-! ## Vocabulary of the specification -/

/-- The signal vector of the specification: the five independent signals. -/
structure SignalVector where
  schedule : Bool
  motion : Bool
  presence : Bool
  manual : Bool
  forcePlay : Bool
deriving DecidableEq, Repr

/-- The decision rule as the specification words it:
`manual ? true : (forcePlay ? false : (schedule || motion || presence))`. -/
def decisionRule (v : SignalVector) : Bool :=
  if v.manual then true
  else if v.forcePlay then false
  else v.schedule || v.motion || v.presence

/-- The signal vector held by a coordinator state. -/
def app.signals (a : app) : SignalVector where
  schedule := a.pausedBySchedule
  motion := a.pausedByMotion
  presence := a.pausedByPresence
  manual := a.pausedByManual
  forcePlay := a.forcePlay

/-- One call of one of the five setters, with its arguments. -/
inductive SetterCall where
  | setSchedulePause (paused : Bool) (trigger : String)
  | setMotionPause (paused : Bool) (trigger : String)
  | setPresencePause (paused : Bool) (trigger : String)
  | setManualPause (paused : Bool) (trigger : String)
  | setForcePlay (enabled : Bool) (trigger : String)
deriving DecidableEq, Repr

/-- Running a setter call on a coordinator state. -/
def app.call (a : app) : SetterCall → app
  | SetterCall.setSchedulePause paused trigger => a.setSchedulePause paused trigger
  | SetterCall.setMotionPause paused trigger => a.setMotionPause paused trigger
  | SetterCall.setPresencePause paused trigger => a.setPresencePause paused trigger
  | SetterCall.setManualPause paused trigger => a.setManualPause paused trigger
  | SetterCall.setForcePlay enabled trigger => a.setForcePlay enabled trigger

/-- The signal a setter call is specified to write: exactly one of the five. -/
def SetterCall.assign (c : SetterCall) (v : SignalVector) : SignalVector :=
  match c with
  | SetterCall.setSchedulePause paused _ => { v with schedule := paused }
  | SetterCall.setMotionPause paused _ => { v with motion := paused }
  | SetterCall.setPresencePause paused _ => { v with presence := paused }
  | SetterCall.setManualPause paused _ => { v with manual := paused }
  | SetterCall.setForcePlay enabled _ => { v with forcePlay := enabled }

/-- The value of the last `player.setPaused` call of a trace, `false` when
there is none. -/
def lastApplied (trace : List Effect) : Bool :=
  trace.foldl
    (fun acc e =>
      match e with
      | Effect.setPaused paused => paused
      | _ => acc)
    false

/-- The effects of one `a.notify msg` on a coordinator with or without a
notifier. -/
def notifyEffects (notifier : Bool) (msg : String) : List Effect :=
  if notifier then [Effect.notify msg, Effect.send msg] else [Effect.notify msg]

/-- The `player.setPaused` calls among a list of effects. -/
def playerCalls (es : List Effect) : List Bool :=
  es.filterMap
    (fun e =>
      match e with
      | Effect.setPaused paused => some paused
      | _ => none)

/-- The texts passed to `a.notify` among a list of effects. -/
def notifications (es : List Effect) : List String :=
  es.filterMap
    (fun e =>
      match e with
      | Effect.notify msg => some msg
      | _ => none)

/-- The motion-resume timer runtime is in order: nothing is armed, or the one
armed timer is the registered `motionTimer`. -/
def app.motionTimerOk (a : app) : Prop :=
  a.armed = [] ∨ ∃ t, a.motionTimer = some t ∧ a.armed = [t]

/-- One step of the environment of the tracker: an `Update` call, the run of
the callback of an offline timer, current or stale, or a receive from the
channel of `Events()` by `runPresenceEvents`. -/
inductive TrackerStep where
  | update (online : List String)
  | fire (key : String) (timer : Nat)
  | receive
deriving DecidableEq, Repr

/-- Running one step on a tracker. A timer whose callback runs has left the
armed list, by firing now or by an earlier `Stop` that came too late. A
receive takes the oldest queued event; on an empty queue it waits, and
nothing changes. -/
def presenceTracker.step (L : GoStrings) (p : presenceTracker) : TrackerStep → presenceTracker
  | TrackerStep.update online => (p.Update L online).1
  | TrackerStep.fire key timer =>
    presenceTracker.fireOffline { p with armed := p.armed.erase timer } key timer
  | TrackerStep.receive => { p with events := p.events.tail }

/-- Timer handles are fresh: every registered timer was created before
`nextTimer`. -/
def presenceTracker.timersFresh (p : presenceTracker) : Prop :=
  ∀ k t, mapGet p.timers k = some t → t < p.nextTimer

/-- The target `k` was seen under the name `n`: it is named `n`, online, and
has no offline timer. -/
def presenceTracker.seen (p : presenceTracker) (k n : String) : Prop :=
  mapGet p.names k = some n ∧ mapGet p.timers k = none ∧ mapGet p.online k = some true

/-- The target `k` is online, absent from `now` and not yet debounced. -/
def presenceTracker.pending (now : List (String × String)) (p : presenceTracker)
    (k : String) : Prop :=
  mapGet p.online k = some true ∧ mapGet now k = none ∧ mapGet p.timers k = none

/-- The step leaves the debounce of `key` by the timer `t` alone: it is an
`Update` whose snapshot does not contain `key`, the callback of a timer other
than `t` (of another target, or a stale one of `key`), or a receive. -/
def TrackerStep.spares (L : GoStrings) (key : String) (t : Nat) : TrackerStep → Prop
  | TrackerStep.update online => mapGet (presenceTracker.seenNow L online) key = none
  | TrackerStep.fire k tm => k ≠ key ∨ tm ≠ t
  | TrackerStep.receive => True

/-- The timer `t` of `key` is superseded: it was created earlier and is not
the timer registered for `key`. -/
def presenceTracker.superseded (p : presenceTracker) (key : String) (t : Nat) : Prop :=
  t < p.nextTimer ∧ mapGet p.timers key ≠ some t

/-- The target `key` is being debounced by the timer `t`: still online, with
`t` registered. -/
def presenceTracker.debouncing (p : presenceTracker) (key : String) (t : Nat) : Prop :=
  0 < p.delay ∧ p.timersFresh ∧ mapGet p.online key = some true ∧
    mapGet p.timers key = some t

/-- The entry of the reason list that stands for presence. -/
def app.presenceReason (a : app) : String :=
  if a.onlineTargets ≠ [] then "presence:" ++ stringsJoin a.onlineTargets ", "
  else "presence"

/-- The five reasons in their fixed order, each with the signal that selects
it. -/
def app.reasonTable (a : app) : List (Bool × String) :=
  [(a.pausedBySchedule, "quiet hours"), (a.pausedByMotion, "motion"),
    (a.pausedByPresence, a.presenceReason), (a.forcePlay, "forced play"),
    (a.pausedByManual, "manual")]

/-- The text `part` occurs in `text`. -/
def textContains (text part : String) : Prop :=
  part.data <:+: text.data

/-- The runtime fires the timer `t`: it leaves the armed list and its callback
is started, but has yet to take the lock; `motionTimerCallback` is the run of
that callback. -/
def app.motionTimerExpires (a : app) (t : Nat) : app :=
  { a with armed := a.armed.erase t }

/-- An automatic update of the coordinator: an entry point of the schedule, of
motion or of presence, with its arguments. -/
inductive AutoUpdate where
  | setSchedulePause (paused : Bool) (trigger : String)
  | handleMotionUpdate (detected : Bool) (names : List String)
  | setMotionPause (paused : Bool) (trigger : String)
  | fireMotionTimer (t : Nat)
  | motionTimerCallback
  | handlePresenceUpdate (online : List String)
  | handlePresenceEvent (evt : presenceEvent)
  | setPresencePause (paused : Bool) (trigger : String)
deriving DecidableEq, Repr

/-- Running an automatic update on a coordinator state. -/
def app.auto (L : GoStrings) (a : app) : AutoUpdate → app
  | AutoUpdate.setSchedulePause paused trigger => a.setSchedulePause paused trigger
  | AutoUpdate.handleMotionUpdate detected names => a.handleMotionUpdate detected names
  | AutoUpdate.setMotionPause paused trigger => a.setMotionPause paused trigger
  | AutoUpdate.fireMotionTimer t => a.fireMotionTimer t
  | AutoUpdate.motionTimerCallback => a.motionTimerCallback
  | AutoUpdate.handlePresenceUpdate online => a.handlePresenceUpdate L online
  | AutoUpdate.handlePresenceEvent evt => a.handlePresenceEvent evt
  | AutoUpdate.setPresencePause paused trigger => a.setPresencePause paused trigger

/-- From `a` to `b` the manual signals are kept, the trace only grows, and when
`a` is under manual pause the added effects hold no `player.setPaused false`,
none at all when `a` is paused already, and `b` is paused if `a` was. -/
def app.manualKept (a b : app) : Prop :=
  b.pausedByManual = a.pausedByManual ∧ b.forcePlay = a.forcePlay ∧
    (∃ suffix, b.trace = a.trace ++ suffix ∧
      (a.pausedByManual = true → false ∉ playerCalls suffix) ∧
      (a.pausedByManual = true → a.paused = true → playerCalls suffix = [])) ∧
    (a.pausedByManual = true → a.paused = true → b.paused = true)

/-- One step of the running program, as `main` wires it: a presence poll, the
receipt of a queued presence event, the callback of an offline timer, a motion
update, the firing of the resume timer or the late run of its callback, a
schedule check, an operator command, a file started by the player, a tick of
the snapshot loop, or the installation of the snapshotter. -/
inductive AppStep where
  | presenceUpdate (online : List String)
  | presenceEvent
  | presenceTimer (key : String) (timer : Nat)
  | motionUpdate (detected : Bool) (names : List String)
  | motionTimer (t : Nat)
  | motionCallback
  | scheduleCheck (now : Time)
  | command (cmd : String) (shot : Except String Image)
  | fileStarted (file : String)
  | snapshotTick (ctx : Nat) (shot : Except String Image)
  | setSnapshotter

/-- Running one step of the program on a coordinator state. -/
def app.run (L : GoStrings) (a : app) : AppStep → app
  | AppStep.presenceUpdate online => a.handlePresenceUpdate L online
  | AppStep.presenceEvent => a.runPresenceEventsStep
  | AppStep.presenceTimer key timer => a.firePresenceTimer key timer
  | AppStep.motionUpdate detected names => a.handleMotionUpdate detected names
  | AppStep.motionTimer t => a.fireMotionTimer t
  | AppStep.motionCallback => a.motionTimerCallback
  | AppStep.scheduleCheck now => a.runScheduleLoopStep now
  | AppStep.command cmd shot => (a.handleCommand cmd shot).1
  | AppStep.fileStarted file => a.runFileNotificationsStep file
  | AppStep.snapshotTick ctx shot => a.motionSnapshotTick ctx shot
  | AppStep.setSnapshotter => a.setSnapshotter

/-- The presence signal agrees with the cached list of online targets. -/
def app.presenceSynced (a : app) : Prop :=
  a.pausedByPresence = true ↔ a.onlineTargets ≠ []

/-- The targets whose online flag is true, in the order of the map. -/
def presenceTracker.onlineKeys (p : presenceTracker) : List String :=
  (p.online.filter (fun e => e.2)).map Prod.fst

/-- The display name of a target: the name recorded for its key, and the key
itself when none is recorded. -/
def presenceTracker.displayName (p : presenceTracker) (key : String) : String :=
  match mapGet p.names key with
  | some name => if name = "" then key else name
  | none => key

/-- The timer invariant of the tracker: the online map has distinct keys, and
every target with a registered offline timer is marked online. -/
def presenceTracker.timersOnline (p : presenceTracker) : Prop :=
  (mapKeys p.online).Nodup ∧ ∀ k t, mapGet p.timers k = some t → mapGet p.online k = some true

/-- The names of the tracker are in order: a recorded name is not empty and
its lower-cased form is the key it is recorded under, and every target marked
online has a recorded name. -/
def presenceTracker.named (L : GoStrings) (p : presenceTracker) : Prop :=
  (∀ k n, mapGet p.names k = some n → n ≠ "" ∧ L.ToLower n = k) ∧
    ∀ k, mapGet p.online k = some true → (mapGet p.names k).isSome

/-- The event `scheduleOfflineLocked` and `fireOffline` hand to `emit` for the
target `key`: offline, under the recorded name. -/
def presenceTracker.offlineEvent (p : presenceTracker) (key : String) : presenceEvent :=
  { Name := (mapGet p.names key).getD "", Online := false }

/-- The snapshot supervisor is in order: the running capture loops are exactly
the one whose cancellation handle is registered, if any. -/
def app.oneLoop (a : app) : Prop :=
  a.loops = a.motionSnapCancel.toList

/-! ## Theorems: the decision rule and the schedule -/

/-- C1: for each of the 32 signal vectors the decision `shouldPause` computed by
`applyState` is the rule of the specification (manual pause first, then force
play, then any of schedule, motion, presence), and it is the value `applyState`
leaves in the cached flag. -/
theorem shouldPause_eq_decisionRule (a : app) (trigger : String) :
    a.shouldPause =
        (if a.pausedByManual then true
         else if a.forcePlay then false
         else a.pausedBySchedule || a.pausedByMotion || a.pausedByPresence) ∧
      a.shouldPause = decisionRule a.signals ∧
      (a.applyState trigger).paused = decisionRule a.signals := by
  obtain ⟨player, notifier, snapshot, presence, paused, s, m, man, pr, f, rest⟩ := a
  cases paused <;> cases s <;> cases m <;> cases man <;> cases pr <;> cases f <;>
    cases notifier <;>
    simp [app.shouldPause, decisionRule, app.signals, app.applyState, app.notify]

/-- C2: `isQuietHours` is true exactly for the hours 22..23, 0..8 and 13..14,
false exactly for 9..12 and 15..21, and two instants with the same hour get the
same answer. -/
theorem isQuietHours_iff (t : Time) :
    t.Hour < 24 ∧
      (isQuietHours t = true ↔ (t.Hour ≥ 22 ∨ t.Hour < 9 ∨ (13 ≤ t.Hour ∧ t.Hour < 15))) ∧
      (isQuietHours t = false ↔
        ((9 ≤ t.Hour ∧ t.Hour ≤ 12) ∨ (15 ≤ t.Hour ∧ t.Hour ≤ 21))) ∧
      ∀ u : Time, u.Hour = t.Hour → isQuietHours u = isQuietHours t := by
  refine ⟨?_, ?_, ?_, ?_⟩
  · unfold Time.Hour
    have h : 0 ≤ (t.localSeconds / 3600) % 24 := Int.emod_nonneg _ (by norm_num)
    have h2 : (t.localSeconds / 3600) % 24 < 24 := Int.emod_lt_of_pos _ (by norm_num)
    omega
  · simp only [isQuietHours]
    split_ifs with h <;> simp at h ⊢ <;> omega
  · simp only [isQuietHours]
    split_ifs with h <;> simp at h ⊢ <;> omega
  · intro u hu
    simp only [isQuietHours, hu]

/-- C2, at two instants of the hour 13 and at one of the hour 15. -/
theorem isQuietHours_iff_witness :
    Time.Hour ⟨13 * 3600 + 59⟩ = Time.Hour ⟨13 * 3600⟩ ∧
      isQuietHours ⟨13 * 3600 + 59⟩ = isQuietHours ⟨13 * 3600⟩ ∧
      isQuietHours ⟨13 * 3600⟩ = true ∧ isQuietHours ⟨15 * 3600⟩ = false :=
  ⟨by decide, (isQuietHours_iff ⟨13 * 3600⟩).2.2.2 ⟨13 * 3600 + 59⟩ (by decide),
    by decide, by decide⟩

/-! ## Theorems: transitions of the coordinator -/

theorem applyState_same (a : app) (trigger : String) (h : a.shouldPause = a.paused) :
    a.applyState trigger = a := by
  simp [app.applyState, h]

theorem applyState_changed (a : app) (trigger : String) (h : a.shouldPause ≠ a.paused) :
    ∃ msg, a.applyState trigger =
      { a with
        paused := a.shouldPause
        player := a.player.setPaused a.shouldPause
        trace := a.trace ++ Effect.setPaused a.shouldPause :: notifyEffects a.notifier msg } := by
  unfold app.applyState
  simp only [h, if_false]
  cases hd : a.shouldPause <;> cases hn : a.notifier <;>
    simp [app.notify, notifyEffects, hn]

theorem applyState_signals (a : app) (trigger : String) :
    (a.applyState trigger).signals = a.signals := by
  by_cases h : a.shouldPause = a.paused
  · rw [applyState_same a trigger h]
  · obtain ⟨msg, hmsg⟩ := applyState_changed a trigger h
    rw [hmsg]
    rfl

theorem shouldPause_eq (a : app) : a.shouldPause = decisionRule a.signals := by
  simp [app.shouldPause, decisionRule, app.signals]

theorem applyState_paused (a : app) (trigger : String) :
    (a.applyState trigger).paused = a.shouldPause := by
  by_cases h : a.shouldPause = a.paused
  · rw [applyState_same a trigger h, h]
  · obtain ⟨msg, hmsg⟩ := applyState_changed a trigger h
    rw [hmsg]

theorem playerCalls_append (xs ys : List Effect) :
    playerCalls (xs ++ ys) = playerCalls xs ++ playerCalls ys := by
  simp [playerCalls, List.filterMap_append]

theorem notifications_append (xs ys : List Effect) :
    notifications (xs ++ ys) = notifications xs ++ notifications ys := by
  simp [notifications, List.filterMap_append]

theorem playerCalls_transition (xs : List Effect) (d n : Bool) (msg : String) :
    playerCalls (xs ++ Effect.setPaused d :: notifyEffects n msg) = playerCalls xs ++ [d] := by
  cases n <;> simp [playerCalls, notifyEffects, List.filterMap_append]

theorem notifications_transition (xs : List Effect) (d n : Bool) (msg : String) :
    notifications (xs ++ Effect.setPaused d :: notifyEffects n msg) =
      notifications xs ++ [msg] := by
  cases n <;> simp [notifications, notifyEffects, List.filterMap_append]

theorem lastApplied_append_setPaused (xs : List Effect) (d n : Bool) (msg : String) :
    lastApplied (xs ++ Effect.setPaused d :: notifyEffects n msg) = d := by
  cases n <;> simp [lastApplied, notifyEffects, List.foldl_append]

/-- The state a setter hands to `applyState`: the mutation done under the lock. -/
theorem call_eq_applyState (a : app) (c : SetterCall) :
    ∃ (b : app) (trigger : String), a.call c = b.applyState trigger ∧ b.signals = c.assign a.signals ∧
      b.paused = a.paused ∧ b.trace = a.trace ∧ b.player = a.player ∧
      b.notifier = a.notifier := by
  cases c with
  | setSchedulePause v t => exact ⟨_, t, rfl, rfl, rfl, rfl, rfl, rfl⟩
  | setPresencePause v t => exact ⟨_, t, rfl, rfl, rfl, rfl, rfl, rfl⟩
  | setManualPause v t => exact ⟨_, t, rfl, rfl, rfl, rfl, rfl, rfl⟩
  | setForcePlay v t => exact ⟨_, t, rfl, rfl, rfl, rfl, rfl, rfl⟩
  | setMotionPause v t =>
    refine ⟨_, t, rfl, ?_⟩
    cases hm : a.motionTimer <;> cases v <;> simp [app.signals, SetterCall.assign]

/-- C3: for every coordinator state and every setter call, with `d` the decision
of the signal vector after the mutation: when `d` equals the cached flag the
call issues no `player.setPaused`, no notification and keeps the flag; when it
differs the call issues exactly one `player.setPaused d` followed by exactly
one notification (one `notify` call, sent on when a notifier is configured),
and the flag becomes `d`. -/
theorem setter_transition_effects (a : app) (c : SetterCall) :
    (decisionRule (c.assign a.signals) = a.paused →
        (a.call c).paused = a.paused ∧ (a.call c).trace = a.trace ∧
          (a.call c).player = a.player) ∧
      (decisionRule (c.assign a.signals) ≠ a.paused →
        (a.call c).paused = decisionRule (c.assign a.signals) ∧
          (a.call c).player = a.player.setPaused (decisionRule (c.assign a.signals)) ∧
          (∃ msg, (a.call c).trace =
            a.trace ++ Effect.setPaused (decisionRule (c.assign a.signals)) ::
              notifyEffects a.notifier msg) ∧
          playerCalls (a.call c).trace =
            playerCalls a.trace ++ [decisionRule (c.assign a.signals)] ∧
          (notifications (a.call c).trace).length = (notifications a.trace).length + 1) := by
  obtain ⟨b, trigger, hcall, hsig, hp, ht, hpl, hn⟩ := call_eq_applyState a c
  rw [hcall, ← hsig, ← shouldPause_eq, ← hp, ← ht, ← hpl, ← hn]
  constructor
  · intro h
    rw [applyState_same b trigger h]
    exact ⟨rfl, rfl, rfl⟩
  · intro h
    obtain ⟨msg, hmsg⟩ := applyState_changed b trigger h
    rw [hmsg]
    refine ⟨rfl, rfl, ⟨msg, rfl⟩, ?_, ?_⟩
    · exact playerCalls_transition _ _ _ _
    · simp [notifications_transition]

/-- C3, at the initial state: a schedule pause is a transition, motion cleared
is not. -/
theorem setter_transition_effects_witness :
    (decisionRule ((SetterCall.setMotionPause false "m").assign
          (newApp newAudioPlayer true 0).signals) = (newApp newAudioPlayer true 0).paused ∧
        ((newApp newAudioPlayer true 0).call (SetterCall.setMotionPause false "m")).trace =
          (newApp newAudioPlayer true 0).trace) ∧
      (decisionRule ((SetterCall.setSchedulePause true "s").assign
          (newApp newAudioPlayer true 0).signals) ≠ (newApp newAudioPlayer true 0).paused ∧
        playerCalls ((newApp newAudioPlayer true 0).call
            (SetterCall.setSchedulePause true "s")).trace =
          playerCalls (newApp newAudioPlayer true 0).trace ++
            [decisionRule ((SetterCall.setSchedulePause true "s").assign
              (newApp newAudioPlayer true 0).signals)]) :=
  ⟨⟨by decide,
      ((setter_transition_effects (newApp newAudioPlayer true 0)
        (SetterCall.setMotionPause false "m")).1 (by decide)).2.1⟩,
    ⟨by decide,
      ((setter_transition_effects (newApp newAudioPlayer true 0)
        (SetterCall.setSchedulePause true "s")).2 (by decide)).2.2.2.1⟩⟩

/-- The cached flag, the player and the trace agree with the decision. -/
theorem call_coherent (a : app) (c : SetterCall)
    (h : a.player.paused = a.paused ∧ lastApplied a.trace = a.paused) :
    (a.call c).paused = decisionRule (a.call c).signals ∧
      (a.call c).player.paused = (a.call c).paused ∧
      lastApplied (a.call c).trace = (a.call c).paused := by
  obtain ⟨b, trigger, hcall, -, hp, ht, hpl, -⟩ := call_eq_applyState a c
  rw [hcall, applyState_signals, ← shouldPause_eq, applyState_paused]
  refine ⟨rfl, ?_⟩
  by_cases hd : b.shouldPause = b.paused
  · rw [applyState_same b trigger hd, hd, hpl, ht, hp]
    exact h
  · obtain ⟨msg, hmsg⟩ := applyState_changed b trigger hd
    rw [hmsg]
    refine ⟨?_, lastApplied_append_setPaused _ _ _ _⟩
    simp only [audioPlayer.setPaused]
    cases b.player.ctrl <;> rfl

theorem foldl_call_coherent (calls : List SetterCall) (a : app)
    (h : a.paused = decisionRule a.signals ∧ a.player.paused = a.paused ∧
      lastApplied a.trace = a.paused) :
    (calls.foldl app.call a).paused = decisionRule (calls.foldl app.call a).signals ∧
      (calls.foldl app.call a).player.paused = (calls.foldl app.call a).paused ∧
      lastApplied (calls.foldl app.call a).trace = (calls.foldl app.call a).paused := by
  induction calls generalizing a with
  | nil => exact h
  | cons c rest ih => exact ih (a.call c) (call_coherent a c h.2)

/-- C4: in every state reached from `newApp` by a sequence of setter calls the
cached `paused` flag is the decision rule applied to the current signal vector,
and the value last given to `player.setPaused` (`false` when there was no call),
which is also the flag the player holds, equals that cached flag. -/
theorem reachable_paused_is_decision (notifier : Bool) (presenceClearDelay : Int)
    (calls : List SetterCall) :
    (calls.foldl app.call (newApp newAudioPlayer notifier presenceClearDelay)).paused =
        decisionRule
          (calls.foldl app.call (newApp newAudioPlayer notifier presenceClearDelay)).signals ∧
      lastApplied (calls.foldl app.call (newApp newAudioPlayer notifier presenceClearDelay)).trace =
        (calls.foldl app.call (newApp newAudioPlayer notifier presenceClearDelay)).paused ∧
      (calls.foldl app.call (newApp newAudioPlayer notifier presenceClearDelay)).player.paused =
        (calls.foldl app.call (newApp newAudioPlayer notifier presenceClearDelay)).paused ∧
      (newApp newAudioPlayer notifier presenceClearDelay).signals =
        ⟨false, false, false, false, false⟩ ∧
      (newApp newAudioPlayer notifier presenceClearDelay).paused = false := by
  have h := foldl_call_coherent calls (newApp newAudioPlayer notifier presenceClearDelay)
    ⟨rfl, rfl, rfl⟩
  exact ⟨h.1, h.2.2, h.2.1, rfl, rfl⟩

/-- C5: from every coordinator state, `pause`, `stop` and `disable` leave
`forcePlay = false`, `pausedByManual = true` and the flag paused; `play`,
`start` and `enable` leave `forcePlay = true`, `pausedByManual = false` and the
flag not paused; `auto` leaves both false and the flag equal to schedule or
motion or presence; none of them changes the three automatic signals. -/
theorem handleCommand_manual_overrides (a : app) (shot : Except String Image) :
    (∀ cmd ∈ ["pause", "stop", "disable"],
        (a.handleCommand cmd shot).1.forcePlay = false ∧
          (a.handleCommand cmd shot).1.pausedByManual = true ∧
          (a.handleCommand cmd shot).1.pausedBySchedule = a.pausedBySchedule ∧
          (a.handleCommand cmd shot).1.pausedByMotion = a.pausedByMotion ∧
          (a.handleCommand cmd shot).1.pausedByPresence = a.pausedByPresence ∧
          (a.handleCommand cmd shot).1.paused = true) ∧
      (∀ cmd ∈ ["play", "start", "enable"],
        (a.handleCommand cmd shot).1.forcePlay = true ∧
          (a.handleCommand cmd shot).1.pausedByManual = false ∧
          (a.handleCommand cmd shot).1.pausedBySchedule = a.pausedBySchedule ∧
          (a.handleCommand cmd shot).1.pausedByMotion = a.pausedByMotion ∧
          (a.handleCommand cmd shot).1.pausedByPresence = a.pausedByPresence ∧
          (a.handleCommand cmd shot).1.paused = false) ∧
      ((a.handleCommand "auto" shot).1.forcePlay = false ∧
        (a.handleCommand "auto" shot).1.pausedByManual = false ∧
        (a.handleCommand "auto" shot).1.pausedBySchedule = a.pausedBySchedule ∧
        (a.handleCommand "auto" shot).1.pausedByMotion = a.pausedByMotion ∧
        (a.handleCommand "auto" shot).1.pausedByPresence = a.pausedByPresence ∧
        (a.handleCommand "auto" shot).1.paused =
          (a.pausedBySchedule || a.pausedByMotion || a.pausedByPresence)) := by
  have key : ∀ (b : app) (t : String),
      (b.applyState t).signals = b.signals ∧ (b.applyState t).paused = decisionRule b.signals :=
    fun b t => ⟨applyState_signals b t, by rw [applyState_paused, shouldPause_eq]⟩
  have sig : ∀ x y : app, x.signals = y.signals →
      x.pausedBySchedule = y.pausedBySchedule ∧ x.pausedByMotion = y.pausedByMotion ∧
        x.pausedByPresence = y.pausedByPresence ∧ x.pausedByManual = y.pausedByManual ∧
        x.forcePlay = y.forcePlay := by
    intro x y hxy
    simp only [app.signals, SignalVector.mk.injEq] at hxy
    tauto
  refine ⟨?_, ?_, ?_⟩
  · intro cmd hcmd
    have hc : cmd = "pause" ∨ cmd = "stop" ∨ cmd = "disable" := by simpa using hcmd
    simp only [app.handleCommand, hc, if_true, app.setForcePlay, app.setManualPause]
    obtain ⟨h1, -⟩ := key { a with forcePlay := false } "telegram"
    obtain ⟨h2, h3⟩ := key
      { app.applyState { a with forcePlay := false } "telegram" with pausedByManual := true }
      "telegram"
    obtain ⟨s1, s2, s3, -, s5⟩ := sig _ _ h1
    obtain ⟨t1, t2, t3, t4, t5⟩ := sig _ _ h2
    simp only at t1 t2 t3 t4 t5 s1 s2 s3 s5
    refine ⟨by rw [t5, s5], by rw [t4], by rw [t1, s1], by rw [t2, s2], by rw [t3, s3], ?_⟩
    rw [h3]
    simp [decisionRule, app.signals]
  · intro cmd hcmd
    have hc : cmd = "play" ∨ cmd = "start" ∨ cmd = "enable" := by simpa using hcmd
    have hn : ¬ (cmd = "pause" ∨ cmd = "stop" ∨ cmd = "disable") := by
      rcases hc with h | h | h <;> subst h <;> decide
    simp only [app.handleCommand, hc, hn, if_true, if_false, app.setForcePlay,
      app.setManualPause]
    obtain ⟨h1, -⟩ := key { a with pausedByManual := false } "telegram"
    obtain ⟨h2, h3⟩ := key
      { app.applyState { a with pausedByManual := false } "telegram" with forcePlay := true }
      "telegram"
    obtain ⟨s1, s2, s3, s4, -⟩ := sig _ _ h1
    obtain ⟨t1, t2, t3, t4, t5⟩ := sig _ _ h2
    simp only at t1 t2 t3 t4 t5 s1 s2 s3 s4
    refine ⟨by rw [t5], by rw [t4, s4], by rw [t1, s1], by rw [t2, s2], by rw [t3, s3], ?_⟩
    rw [h3]
    simp [decisionRule, app.signals, s4]
  · have hn : ¬ ("auto" = "pause" ∨ "auto" = "stop" ∨ "auto" = "disable") := by decide
    have hn2 : ¬ ("auto" = "play" ∨ "auto" = "start" ∨ "auto" = "enable") := by decide
    simp only [app.handleCommand, hn, hn2, if_true, if_false, app.setForcePlay,
      app.setManualPause]
    obtain ⟨h1, -⟩ := key { a with forcePlay := false } "telegram"
    obtain ⟨h2, h3⟩ := key
      { app.applyState { a with forcePlay := false } "telegram" with pausedByManual := false }
      "telegram"
    obtain ⟨s1, s2, s3, -, s5⟩ := sig _ _ h1
    obtain ⟨t1, t2, t3, t4, t5⟩ := sig _ _ h2
    simp only at t1 t2 t3 t4 t5 s1 s2 s3 s5
    refine ⟨by rw [t5, s5], by rw [t4], by rw [t1, s1], by rw [t2, s2], by rw [t3, s3], ?_⟩
    rw [h3]
    simp [decisionRule, app.signals, s5, s1, s2, s3]

/-- C5, at a state forced on during quiet hours with the command `pause`. -/
theorem handleCommand_manual_overrides_witness :
    "pause" ∈ ["pause", "stop", "disable"] ∧
      ((newApp newAudioPlayer true 0).setSchedulePause true "s").pausedBySchedule = true ∧
      ((((newApp newAudioPlayer true 0).setSchedulePause true "s").handleCommand "pause"
        (Except.error "")).1.pausedByManual = true) ∧
      ((((newApp newAudioPlayer true 0).setSchedulePause true "s").handleCommand "pause"
        (Except.error "")).1.paused = true) :=
  ⟨by decide, by decide,
    ((handleCommand_manual_overrides ((newApp newAudioPlayer true 0).setSchedulePause true "s")
      (Except.error "")).1 "pause" (by decide)).2.1,
    ((handleCommand_manual_overrides ((newApp newAudioPlayer true 0).setSchedulePause true "s")
      (Except.error "")).1 "pause" (by decide)).2.2.2.2.2⟩

/-- C6: every command other than `pause`, `stop`, `disable`, `play`, `start`,
`enable`, `auto`, `status` and `snapshot` gets the fixed help text as its
reply, and the coordinator state, trace of player calls and notifications
included, is returned as it was. -/
theorem handleCommand_unknown (a : app) (cmd : String) (shot : Except String Image)
    (h : cmd ∉ ["pause", "stop", "disable", "play", "start", "enable", "auto", "status",
      "snapshot"]) :
    a.handleCommand cmd shot =
      (a, "Commands: /play (force on), /pause, /auto, /status, /snapshot, /enable, /disable") := by
  simp only [List.mem_cons, List.mem_singleton, List.not_mem_nil, or_false, not_or] at h
  obtain ⟨h1, h2, h3, h4, h5, h6, h7, h8, h9⟩ := h
  simp [app.handleCommand, h1, h2, h3, h4, h5, h6, h7, h8, h9, app.helpText]

/-- C6, at the command `hello` in the initial state. -/
theorem handleCommand_unknown_witness :
    "hello" ∉ ["pause", "stop", "disable", "play", "start", "enable", "auto", "status",
        "snapshot"] ∧
      (newApp newAudioPlayer true 0).handleCommand "hello" (Except.error "") =
        (newApp newAudioPlayer true 0,
          "Commands: /play (force on), /pause, /auto, /status, /snapshot, /enable, /disable") :=
  ⟨by decide,
    handleCommand_unknown (newApp newAudioPlayer true 0) "hello" (Except.error "") (by decide)⟩

/-! ## Theorems: the motion resume scheduler -/

@[simp] theorem applyState_notifier (a : app) (trigger : String) :
    (a.applyState trigger).notifier = a.notifier := by
  by_cases h : a.shouldPause = a.paused
  · rw [applyState_same a trigger h]
  · obtain ⟨msg, hmsg⟩ := applyState_changed a trigger h
    rw [hmsg]

@[simp] theorem applyState_snapshot (a : app) (trigger : String) :
    (a.applyState trigger).snapshot = a.snapshot := by
  by_cases h : a.shouldPause = a.paused
  · rw [applyState_same a trigger h]
  · obtain ⟨msg, hmsg⟩ := applyState_changed a trigger h
    rw [hmsg]

@[simp] theorem applyState_presence (a : app) (trigger : String) :
    (a.applyState trigger).presence = a.presence := by
  by_cases h : a.shouldPause = a.paused
  · rw [applyState_same a trigger h]
  · obtain ⟨msg, hmsg⟩ := applyState_changed a trigger h
    rw [hmsg]

@[simp] theorem applyState_pausedBySchedule (a : app) (trigger : String) :
    (a.applyState trigger).pausedBySchedule = a.pausedBySchedule := by
  by_cases h : a.shouldPause = a.paused
  · rw [applyState_same a trigger h]
  · obtain ⟨msg, hmsg⟩ := applyState_changed a trigger h
    rw [hmsg]

@[simp] theorem applyState_pausedByMotion (a : app) (trigger : String) :
    (a.applyState trigger).pausedByMotion = a.pausedByMotion := by
  by_cases h : a.shouldPause = a.paused
  · rw [applyState_same a trigger h]
  · obtain ⟨msg, hmsg⟩ := applyState_changed a trigger h
    rw [hmsg]

@[simp] theorem applyState_pausedByManual (a : app) (trigger : String) :
    (a.applyState trigger).pausedByManual = a.pausedByManual := by
  by_cases h : a.shouldPause = a.paused
  · rw [applyState_same a trigger h]
  · obtain ⟨msg, hmsg⟩ := applyState_changed a trigger h
    rw [hmsg]

@[simp] theorem applyState_pausedByPresence (a : app) (trigger : String) :
    (a.applyState trigger).pausedByPresence = a.pausedByPresence := by
  by_cases h : a.shouldPause = a.paused
  · rw [applyState_same a trigger h]
  · obtain ⟨msg, hmsg⟩ := applyState_changed a trigger h
    rw [hmsg]

@[simp] theorem applyState_forcePlay (a : app) (trigger : String) :
    (a.applyState trigger).forcePlay = a.forcePlay := by
  by_cases h : a.shouldPause = a.paused
  · rw [applyState_same a trigger h]
  · obtain ⟨msg, hmsg⟩ := applyState_changed a trigger h
    rw [hmsg]

@[simp] theorem applyState_lastMotion (a : app) (trigger : String) :
    (a.applyState trigger).lastMotion = a.lastMotion := by
  by_cases h : a.shouldPause = a.paused
  · rw [applyState_same a trigger h]
  · obtain ⟨msg, hmsg⟩ := applyState_changed a trigger h
    rw [hmsg]

@[simp] theorem applyState_motionTimer (a : app) (trigger : String) :
    (a.applyState trigger).motionTimer = a.motionTimer := by
  by_cases h : a.shouldPause = a.paused
  · rw [applyState_same a trigger h]
  · obtain ⟨msg, hmsg⟩ := applyState_changed a trigger h
    rw [hmsg]

@[simp] theorem applyState_currentFile (a : app) (trigger : String) :
    (a.applyState trigger).currentFile = a.currentFile := by
  by_cases h : a.shouldPause = a.paused
  · rw [applyState_same a trigger h]
  · obtain ⟨msg, hmsg⟩ := applyState_changed a trigger h
    rw [hmsg]

@[simp] theorem applyState_onlineTargets (a : app) (trigger : String) :
    (a.applyState trigger).onlineTargets = a.onlineTargets := by
  by_cases h : a.shouldPause = a.paused
  · rw [applyState_same a trigger h]
  · obtain ⟨msg, hmsg⟩ := applyState_changed a trigger h
    rw [hmsg]

@[simp] theorem applyState_motionSnapCancel (a : app) (trigger : String) :
    (a.applyState trigger).motionSnapCancel = a.motionSnapCancel := by
  by_cases h : a.shouldPause = a.paused
  · rw [applyState_same a trigger h]
  · obtain ⟨msg, hmsg⟩ := applyState_changed a trigger h
    rw [hmsg]

@[simp] theorem applyState_nextTimer (a : app) (trigger : String) :
    (a.applyState trigger).nextTimer = a.nextTimer := by
  by_cases h : a.shouldPause = a.paused
  · rw [applyState_same a trigger h]
  · obtain ⟨msg, hmsg⟩ := applyState_changed a trigger h
    rw [hmsg]

@[simp] theorem applyState_armed (a : app) (trigger : String) :
    (a.applyState trigger).armed = a.armed := by
  by_cases h : a.shouldPause = a.paused
  · rw [applyState_same a trigger h]
  · obtain ⟨msg, hmsg⟩ := applyState_changed a trigger h
    rw [hmsg]

@[simp] theorem applyState_nextCtx (a : app) (trigger : String) :
    (a.applyState trigger).nextCtx = a.nextCtx := by
  by_cases h : a.shouldPause = a.paused
  · rw [applyState_same a trigger h]
  · obtain ⟨msg, hmsg⟩ := applyState_changed a trigger h
    rw [hmsg]

@[simp] theorem applyState_loops (a : app) (trigger : String) :
    (a.applyState trigger).loops = a.loops := by
  by_cases h : a.shouldPause = a.paused
  · rw [applyState_same a trigger h]
  · obtain ⟨msg, hmsg⟩ := applyState_changed a trigger h
    rw [hmsg]

theorem applyState_trace (a : app) (trigger : String) :
    ∃ suffix, (a.applyState trigger).trace = a.trace ++ suffix ∧
      playerCalls suffix = if a.shouldPause = a.paused then [] else [a.shouldPause] := by
  by_cases h : a.shouldPause = a.paused
  · rw [applyState_same a trigger h]
    exact ⟨[], by simp, by simp [h, playerCalls]⟩
  · obtain ⟨msg, hmsg⟩ := applyState_changed a trigger h
    rw [hmsg]
    refine ⟨Effect.setPaused a.shouldPause :: notifyEffects a.notifier msg, rfl, ?_⟩
    have := playerCalls_transition [] a.shouldPause a.notifier msg
    simpa [h, playerCalls] using this

@[simp] theorem startMotionSnapshots_player (a : app) :
    a.startMotionSnapshots.player = a.player := by
  unfold app.startMotionSnapshots
  split
  · rfl
  · split <;> rfl

@[simp] theorem startMotionSnapshots_notifier (a : app) :
    a.startMotionSnapshots.notifier = a.notifier := by
  unfold app.startMotionSnapshots
  split
  · rfl
  · split <;> rfl

@[simp] theorem startMotionSnapshots_snapshot (a : app) :
    a.startMotionSnapshots.snapshot = a.snapshot := by
  unfold app.startMotionSnapshots
  split
  · rfl
  · split <;> rfl

@[simp] theorem startMotionSnapshots_presence (a : app) :
    a.startMotionSnapshots.presence = a.presence := by
  unfold app.startMotionSnapshots
  split
  · rfl
  · split <;> rfl

@[simp] theorem startMotionSnapshots_paused (a : app) :
    a.startMotionSnapshots.paused = a.paused := by
  unfold app.startMotionSnapshots
  split
  · rfl
  · split <;> rfl

@[simp] theorem startMotionSnapshots_pausedBySchedule (a : app) :
    a.startMotionSnapshots.pausedBySchedule = a.pausedBySchedule := by
  unfold app.startMotionSnapshots
  split
  · rfl
  · split <;> rfl

@[simp] theorem startMotionSnapshots_pausedByMotion (a : app) :
    a.startMotionSnapshots.pausedByMotion = a.pausedByMotion := by
  unfold app.startMotionSnapshots
  split
  · rfl
  · split <;> rfl

@[simp] theorem startMotionSnapshots_pausedByManual (a : app) :
    a.startMotionSnapshots.pausedByManual = a.pausedByManual := by
  unfold app.startMotionSnapshots
  split
  · rfl
  · split <;> rfl

@[simp] theorem startMotionSnapshots_pausedByPresence (a : app) :
    a.startMotionSnapshots.pausedByPresence = a.pausedByPresence := by
  unfold app.startMotionSnapshots
  split
  · rfl
  · split <;> rfl

@[simp] theorem startMotionSnapshots_forcePlay (a : app) :
    a.startMotionSnapshots.forcePlay = a.forcePlay := by
  unfold app.startMotionSnapshots
  split
  · rfl
  · split <;> rfl

@[simp] theorem startMotionSnapshots_lastMotion (a : app) :
    a.startMotionSnapshots.lastMotion = a.lastMotion := by
  unfold app.startMotionSnapshots
  split
  · rfl
  · split <;> rfl

@[simp] theorem startMotionSnapshots_motionTimer (a : app) :
    a.startMotionSnapshots.motionTimer = a.motionTimer := by
  unfold app.startMotionSnapshots
  split
  · rfl
  · split <;> rfl

@[simp] theorem startMotionSnapshots_currentFile (a : app) :
    a.startMotionSnapshots.currentFile = a.currentFile := by
  unfold app.startMotionSnapshots
  split
  · rfl
  · split <;> rfl

@[simp] theorem startMotionSnapshots_onlineTargets (a : app) :
    a.startMotionSnapshots.onlineTargets = a.onlineTargets := by
  unfold app.startMotionSnapshots
  split
  · rfl
  · split <;> rfl

@[simp] theorem startMotionSnapshots_nextTimer (a : app) :
    a.startMotionSnapshots.nextTimer = a.nextTimer := by
  unfold app.startMotionSnapshots
  split
  · rfl
  · split <;> rfl

@[simp] theorem startMotionSnapshots_armed (a : app) :
    a.startMotionSnapshots.armed = a.armed := by
  unfold app.startMotionSnapshots
  split
  · rfl
  · split <;> rfl

@[simp] theorem startMotionSnapshots_trace (a : app) :
    a.startMotionSnapshots.trace = a.trace := by
  unfold app.startMotionSnapshots
  split
  · rfl
  · split <;> rfl

@[simp] theorem stopMotionSnapshots_player (a : app) :
    a.stopMotionSnapshots.player = a.player := by
  unfold app.stopMotionSnapshots
  cases a.motionSnapCancel <;> rfl

@[simp] theorem stopMotionSnapshots_notifier (a : app) :
    a.stopMotionSnapshots.notifier = a.notifier := by
  unfold app.stopMotionSnapshots
  cases a.motionSnapCancel <;> rfl

@[simp] theorem stopMotionSnapshots_snapshot (a : app) :
    a.stopMotionSnapshots.snapshot = a.snapshot := by
  unfold app.stopMotionSnapshots
  cases a.motionSnapCancel <;> rfl

@[simp] theorem stopMotionSnapshots_presence (a : app) :
    a.stopMotionSnapshots.presence = a.presence := by
  unfold app.stopMotionSnapshots
  cases a.motionSnapCancel <;> rfl

@[simp] theorem stopMotionSnapshots_paused (a : app) :
    a.stopMotionSnapshots.paused = a.paused := by
  unfold app.stopMotionSnapshots
  cases a.motionSnapCancel <;> rfl

@[simp] theorem stopMotionSnapshots_pausedBySchedule (a : app) :
    a.stopMotionSnapshots.pausedBySchedule = a.pausedBySchedule := by
  unfold app.stopMotionSnapshots
  cases a.motionSnapCancel <;> rfl

@[simp] theorem stopMotionSnapshots_pausedByMotion (a : app) :
    a.stopMotionSnapshots.pausedByMotion = a.pausedByMotion := by
  unfold app.stopMotionSnapshots
  cases a.motionSnapCancel <;> rfl

@[simp] theorem stopMotionSnapshots_pausedByManual (a : app) :
    a.stopMotionSnapshots.pausedByManual = a.pausedByManual := by
  unfold app.stopMotionSnapshots
  cases a.motionSnapCancel <;> rfl

@[simp] theorem stopMotionSnapshots_pausedByPresence (a : app) :
    a.stopMotionSnapshots.pausedByPresence = a.pausedByPresence := by
  unfold app.stopMotionSnapshots
  cases a.motionSnapCancel <;> rfl

@[simp] theorem stopMotionSnapshots_forcePlay (a : app) :
    a.stopMotionSnapshots.forcePlay = a.forcePlay := by
  unfold app.stopMotionSnapshots
  cases a.motionSnapCancel <;> rfl

@[simp] theorem stopMotionSnapshots_lastMotion (a : app) :
    a.stopMotionSnapshots.lastMotion = a.lastMotion := by
  unfold app.stopMotionSnapshots
  cases a.motionSnapCancel <;> rfl

@[simp] theorem stopMotionSnapshots_motionTimer (a : app) :
    a.stopMotionSnapshots.motionTimer = a.motionTimer := by
  unfold app.stopMotionSnapshots
  cases a.motionSnapCancel <;> rfl

@[simp] theorem stopMotionSnapshots_currentFile (a : app) :
    a.stopMotionSnapshots.currentFile = a.currentFile := by
  unfold app.stopMotionSnapshots
  cases a.motionSnapCancel <;> rfl

@[simp] theorem stopMotionSnapshots_onlineTargets (a : app) :
    a.stopMotionSnapshots.onlineTargets = a.onlineTargets := by
  unfold app.stopMotionSnapshots
  cases a.motionSnapCancel <;> rfl

@[simp] theorem stopMotionSnapshots_nextTimer (a : app) :
    a.stopMotionSnapshots.nextTimer = a.nextTimer := by
  unfold app.stopMotionSnapshots
  cases a.motionSnapCancel <;> rfl

@[simp] theorem stopMotionSnapshots_armed (a : app) :
    a.stopMotionSnapshots.armed = a.armed := by
  unfold app.stopMotionSnapshots
  cases a.motionSnapCancel <;> rfl

@[simp] theorem stopMotionSnapshots_trace (a : app) :
    a.stopMotionSnapshots.trace = a.trace := by
  unfold app.stopMotionSnapshots
  cases a.motionSnapCancel <;> rfl

/-- What `handleMotionUpdate true` does to the motion signal, the timer and the
trace. -/
theorem handleMotionUpdate_true (a : app) (names : List String) :
    (a.handleMotionUpdate true names).signals = { a.signals with motion := true } ∧
      (a.handleMotionUpdate true names).motionTimer = none ∧
      (a.handleMotionUpdate true names).armed =
        (match a.motionTimer with
          | some t => a.armed.erase t
          | none => a.armed) ∧
      (a.handleMotionUpdate true names).nextTimer = a.nextTimer ∧
      (a.handleMotionUpdate true names).paused =
        decisionRule { a.signals with motion := true } ∧
      ∃ suffix, (a.handleMotionUpdate true names).trace = a.trace ++ suffix ∧
        playerCalls suffix =
          if decisionRule { a.signals with motion := true } = a.paused then []
          else [decisionRule { a.signals with motion := true }] := by
  simp only [app.handleMotionUpdate, if_true]
  generalize ("motion detected (" ++ stringsJoin names ", " ++ ")") = trigger
  simp only [app.signals, startMotionSnapshots_pausedBySchedule,
    startMotionSnapshots_pausedByMotion, startMotionSnapshots_pausedByPresence,
    startMotionSnapshots_pausedByManual, startMotionSnapshots_forcePlay,
    startMotionSnapshots_motionTimer, startMotionSnapshots_armed,
    startMotionSnapshots_nextTimer, startMotionSnapshots_paused,
    startMotionSnapshots_trace, app.setMotionPause]
  cases hm : a.motionTimer with
  | none =>
    simp only [if_true]
    refine ⟨?_, ?_, ?_, ?_, ?_, ?_⟩
    · simp
    · simp [hm]
    · simp
    · simp
    · rw [applyState_paused, shouldPause_eq]; rfl
    · have := applyState_trace { a with lastMotion := true, pausedByMotion := true } trigger
      simpa [shouldPause_eq, app.signals, hm] using this
  | some t =>
    simp only [if_true]
    refine ⟨?_, ?_, ?_, ?_, ?_, ?_⟩
    · simp
    · simp
    · simp
    · simp
    · rw [applyState_paused, shouldPause_eq]; rfl
    · have := applyState_trace
        { a with lastMotion := true, pausedByMotion := true, armed := a.armed.erase t,
                 motionTimer := none } trigger
      simpa [shouldPause_eq, app.signals] using this

/-- What `handleMotionUpdate false` does: only the timer runtime moves. -/
theorem handleMotionUpdate_false (a : app) (names : List String) :
    (a.handleMotionUpdate false names).signals = a.signals ∧
      (a.handleMotionUpdate false names).motionTimer = some a.nextTimer ∧
      (a.handleMotionUpdate false names).armed =
        (match a.motionTimer with
          | some t => a.armed.erase t
          | none => a.armed) ++ [a.nextTimer] ∧
      (a.handleMotionUpdate false names).nextTimer = a.nextTimer + 1 ∧
      (a.handleMotionUpdate false names).paused = a.paused ∧
      (a.handleMotionUpdate false names).trace = a.trace ∧
      (a.handleMotionUpdate false names).notifier = a.notifier := by
  simp only [app.handleMotionUpdate, app.startMotionResumeTimer]
  cases hm : (app.stopMotionSnapshots { a with lastMotion := false }).motionTimer with
  | none =>
    have hm2 : a.motionTimer = none := by simpa using hm
    simp [hm, hm2, app.signals]
  | some t =>
    have hm2 : a.motionTimer = some t := by simpa using hm
    simp [hm, hm2, app.signals]

theorem fireMotionTimer_not_armed (a : app) (t : Nat) (h : t ∉ a.armed) :
    a.fireMotionTimer t = a := by
  simp [app.fireMotionTimer, h]

theorem setMotionPause_false (a : app) (trigger : String) :
    a.setMotionPause false trigger = app.applyState { a with pausedByMotion := false } trigger := by
  simp [app.setMotionPause]

/-- What the firing of an armed resume timer does. -/
theorem fireMotionTimer_armed (a : app) (t : Nat) (h : t ∈ a.armed) :
    (a.fireMotionTimer t).signals = { a.signals with motion := false } ∧
      (a.fireMotionTimer t).armed = a.armed.erase t ∧
      (a.fireMotionTimer t).paused = decisionRule { a.signals with motion := false } ∧
      ∃ suffix, (a.fireMotionTimer t).trace = a.trace ++ suffix ∧
        playerCalls suffix =
          if decisionRule { a.signals with motion := false } = a.paused then []
          else [decisionRule { a.signals with motion := false }] := by
  simp only [app.fireMotionTimer, h, if_true, app.motionTimerCallback, setMotionPause_false]
  refine ⟨?_, ?_, ?_, ?_⟩
  · simp [app.signals]
  · simp
  · rw [applyState_paused, shouldPause_eq]; rfl
  · have := applyState_trace
      { a with armed := a.armed.erase t, pausedByMotion := false } "motion cleared 5m"
    simpa [shouldPause_eq, app.signals] using this

/-- C10: from a coherent state, motion reported true, false, true with no timer
firing in between keeps `pausedByMotion` true after each call, leaves no resume
timer registered or armed after the third call, and the three calls issue no
`player.setPaused false`; if instead the resume timer armed by the second call
fires, `pausedByMotion` becomes false, the timer is spent (no timer can fire
after it), and at most one `player.setPaused false` is issued. -/
theorem motion_retrigger_keeps_pause (a : app) (n1 n2 n3 : List String)
    (hc : a.paused = decisionRule a.signals) (ht : a.motionTimerOk) :
    let a1 := a.handleMotionUpdate true n1
    let a2 := a1.handleMotionUpdate false n2
    let a3 := a2.handleMotionUpdate true n3
    let fired := a2.fireMotionTimer a.nextTimer
    (a1.pausedByMotion = true ∧ a2.pausedByMotion = true ∧ a3.pausedByMotion = true) ∧
      (a2.motionTimer = some a.nextTimer ∧ a2.armed = [a.nextTimer]) ∧
      (a3.motionTimer = none ∧ a3.armed = []) ∧
      (∃ suffix, a3.trace = a.trace ++ suffix ∧ false ∉ playerCalls suffix) ∧
      fired.pausedByMotion = false ∧
      fired.armed = [] ∧
      (∀ t, fired.fireMotionTimer t = fired) ∧
      (∃ suffix, fired.trace = a2.trace ++ suffix ∧
        playerCalls suffix =
          if decisionRule { a.signals with motion := false } = a2.paused then []
          else [false]) := by
  intro a1 a2 a3 fired
  obtain ⟨s1, m1, r1, x1, p1, suffix1, t1, c1⟩ := handleMotionUpdate_true a n1
  obtain ⟨s2, m2, r2, x2, p2, t2, -⟩ := handleMotionUpdate_false a1 n2
  obtain ⟨s3, m3, r3, -, -, -⟩ := handleMotionUpdate_true a2 n3
  have harm1 : a1.armed = [] := by
    rw [r1]
    rcases ht with h | ⟨t, hm, h⟩
    · cases a.motionTimer <;> simp [h]
    · simp [hm, h]
  have harm2 : a2.armed = [a.nextTimer] := by
    rw [r2, m1, harm1, x1]
    rfl
  have hsig2 : a2.signals = { a.signals with motion := true } := by rw [s2, s1]
  have hmem : a.nextTimer ∈ a2.armed := by simp [harm2]
  obtain ⟨sf, rf, pf, suffixf, tf, cf⟩ := fireMotionTimer_armed a2 a.nextTimer hmem
  have hsigf : fired.signals = { a.signals with motion := false } := by
    rw [sf, hsig2]
  have harmf : fired.armed = [] := by
    rw [rf, harm2]
    simp
  refine ⟨⟨?_, ?_, ?_⟩, ⟨?_, harm2⟩, ⟨m3, ?_⟩, ?_, ?_, harmf, ?_, ?_⟩
  · exact congrArg SignalVector.motion s1
  · exact congrArg SignalVector.motion hsig2
  · exact congrArg SignalVector.motion s3
  · rw [m2, x1]
  · have x1b : a1.nextTimer = a.nextTimer := x1
    rw [r3, m2, harm2, x1b]
    simp
  · refine ⟨suffix1, ?_, ?_⟩
    · -- the third call adds no effect at all: its decision equals the cached flag
      have hsame : a3.trace = a2.trace := by
        have hd : (app.handleMotionUpdate a2 true n3).trace = a2.trace := by
          simp only [app.handleMotionUpdate, if_true, startMotionSnapshots_trace,
            app.setMotionPause]
          have hdec : ∀ b : app, b.signals = a2.signals → b.paused = a2.paused →
              b.trace = a2.trace → ∀ trigger, (b.applyState trigger).trace = a2.trace := by
            intro b hbs hbp hbt trigger
            rw [applyState_same b trigger, hbt]
            rw [shouldPause_eq, hbs, hbp, hsig2, p2, p1]
          cases hm : a2.motionTimer with
          | none =>
            simp only [if_true]
            apply hdec
            · simp [app.signals, hm]
              have := congrArg SignalVector.motion hsig2
              simpa [app.signals] using this.symm
            · rfl
            · rfl
          | some t =>
            simp only [if_true]
            apply hdec
            · simp [app.signals]
              have := congrArg SignalVector.motion hsig2
              simpa [app.signals] using this.symm
            · rfl
            · rfl
        exact hd
      rw [hsame, t2, t1]
    · rw [c1]
      split
      · simp
      · rename_i hne
        simp only [List.mem_singleton]
        intro hfalse
        rw [← hfalse] at hne
        apply hne
        rw [hc]
        revert hfalse
        simp only [decisionRule]
        cases a.signals.manual <;> cases a.signals.forcePlay <;> simp
  · exact congrArg SignalVector.motion hsigf
  · intro t
    apply fireMotionTimer_not_armed
    rw [harmf]
    simp
  · refine ⟨suffixf, tf, ?_⟩
    rw [cf, hsig2]
    simp only []
    split
    · rfl
    · rename_i hne
      rw [p2, p1] at hne
      congr 1
      revert hne
      simp only [decisionRule]
      cases a.signals.manual <;> cases a.signals.forcePlay <;> simp

/-- C10, from the initial state with a snapshot source and a notifier. -/
theorem motion_retrigger_keeps_pause_witness :
    (newApp newAudioPlayer true 0).paused =
        decisionRule (newApp newAudioPlayer true 0).signals ∧
      (newApp newAudioPlayer true 0).motionTimerOk ∧
      ((((newApp newAudioPlayer true 0).handleMotionUpdate true ["cam"]).handleMotionUpdate
        false []).handleMotionUpdate true ["cam"]).armed = [] :=
  ⟨by decide, Or.inl rfl,
    (motion_retrigger_keeps_pause (newApp newAudioPlayer true 0) ["cam"] [] ["cam"]
      (by decide) (Or.inl rfl)).2.2.1.2⟩

/-! ## Theorems: Go maps -/

theorem mapGet_mapSet_self {V : Type} (m : List (String × V)) (k : String) (v : V) :
    mapGet (mapSet m k v) k = some v := by
  induction m with
  | nil => simp [mapSet, mapGet]
  | cons e rest ih =>
    obtain ⟨k', v'⟩ := e
    by_cases h : k' = k
    · simp [mapSet, mapGet, h]
    · simp [mapSet, mapGet, h, ih]

theorem mapGet_mapSet_ne {V : Type} (m : List (String × V)) (k k' : String) (v : V)
    (h : k' ≠ k) : mapGet (mapSet m k v) k' = mapGet m k' := by
  induction m with
  | nil => simp [mapSet, mapGet, Ne.symm h]
  | cons e rest ih =>
    obtain ⟨k0, v0⟩ := e
    by_cases h0 : k0 = k
    · subst h0
      simp [mapSet, mapGet, Ne.symm h]
    · by_cases h1 : k0 = k'
      · subst h1
        simp [mapSet, mapGet, h0]
      · simp [mapSet, mapGet, h0, h1, ih]

theorem mapSet_of_mapGet {V : Type} (m : List (String × V)) (k : String) (v : V)
    (h : mapGet m k = some v) : mapSet m k v = m := by
  induction m with
  | nil => simp [mapGet] at h
  | cons e rest ih =>
    obtain ⟨k0, v0⟩ := e
    by_cases h0 : k0 = k
    · subst h0
      simp [mapGet] at h
      simp [mapSet, h]
    · simp [mapGet, h0] at h
      simp [mapSet, h0, ih h]

theorem mapGet_mapDelete_self {V : Type} (m : List (String × V)) (k : String) :
    mapGet (mapDelete m k) k = none := by
  induction m with
  | nil => simp [mapDelete, mapGet]
  | cons e rest ih =>
    obtain ⟨k0, v0⟩ := e
    by_cases h0 : k0 = k
    · simp [mapDelete, h0, ih]
    · simp [mapDelete, h0, mapGet, ih]

theorem mapGet_mapDelete_ne {V : Type} (m : List (String × V)) (k k' : String)
    (h : k' ≠ k) : mapGet (mapDelete m k) k' = mapGet m k' := by
  induction m with
  | nil => simp [mapDelete, mapGet]
  | cons e rest ih =>
    obtain ⟨k0, v0⟩ := e
    by_cases h0 : k0 = k
    · subst h0
      simp [mapDelete, mapGet, Ne.symm h, ih]
    · by_cases h1 : k0 = k'
      · subst h1
        simp [mapDelete, h0, mapGet]
      · simp [mapDelete, h0, mapGet, h1, ih]

theorem mapDelete_of_mapGet {V : Type} (m : List (String × V)) (k : String)
    (h : mapGet m k = none) : mapDelete m k = m := by
  induction m with
  | nil => rfl
  | cons e rest ih =>
    obtain ⟨k0, v0⟩ := e
    by_cases h0 : k0 = k
    · simp [mapGet, h0] at h
    · simp only [mapGet, h0, if_false] at h
      simp [mapDelete, h0, ih h]

theorem mem_of_mapGet {V : Type} (m : List (String × V)) (k : String) (v : V)
    (h : mapGet m k = some v) : (k, v) ∈ m := by
  induction m with
  | nil => simp [mapGet] at h
  | cons e rest ih =>
    obtain ⟨k0, v0⟩ := e
    by_cases h0 : k0 = k
    · subst h0
      simp [mapGet] at h
      simp [h]
    · simp only [mapGet, h0, if_false] at h
      exact List.mem_cons_of_mem _ (ih h)

theorem mapGet_eq_none_iff {V : Type} (m : List (String × V)) (k : String) :
    mapGet m k = none ↔ k ∉ mapKeys m := by
  induction m with
  | nil => simp [mapGet, mapKeys]
  | cons e rest ih =>
    obtain ⟨k0, v0⟩ := e
    simp only [mapKeys] at ih
    by_cases h0 : k0 = k
    · simp [mapGet, mapKeys, h0]
    · have h1 : ¬ k = k0 := fun h => h0 h.symm
      simp [mapGet, mapKeys, h0, h1, ih]

theorem mapGet_of_mem {V : Type} (m : List (String × V)) (k : String) (v : V)
    (hn : (mapKeys m).Nodup) (h : (k, v) ∈ m) : mapGet m k = some v := by
  induction m with
  | nil => simp at h
  | cons e rest ih =>
    obtain ⟨k0, v0⟩ := e
    simp only [mapKeys, List.map_cons, List.nodup_cons] at hn
    rcases List.mem_cons.mp h with h1 | h1
    · cases h1
      simp [mapGet]
    · have hk : k0 ≠ k := by
        rintro rfl
        exact hn.1 (List.mem_map_of_mem Prod.fst h1)
      simp only [mapGet, hk, if_false]
      exact ih hn.2 h1

theorem mapKeys_mapSet {V : Type} (m : List (String × V)) (k : String) (v : V) :
    mapKeys (mapSet m k v) = if k ∈ mapKeys m then mapKeys m else mapKeys m ++ [k] := by
  induction m with
  | nil => simp [mapSet, mapKeys]
  | cons e rest ih =>
    obtain ⟨k0, v0⟩ := e
    simp only [mapKeys] at ih
    by_cases h0 : k0 = k
    · simp [mapSet, mapKeys, h0]
    · simp only [mapSet, h0, if_false, mapKeys, List.map_cons, List.mem_cons, ih]
      have h1 : ¬ k = k0 := fun h => h0 h.symm
      by_cases h2 : k ∈ List.map Prod.fst rest <;> simp [h1, h2]

theorem nodup_mapSet {V : Type} (m : List (String × V)) (k : String) (v : V)
    (hn : (mapKeys m).Nodup) : (mapKeys (mapSet m k v)).Nodup := by
  rw [mapKeys_mapSet]
  split
  · exact hn
  · rename_i h
    exact List.Nodup.append hn (List.nodup_singleton k) (by simpa using h)

/-! ## Theorems: the presence tracker -/

theorem seenNow_nodup_aux (L : GoStrings) (online : List String)
    (acc : List (String × String)) (h : (mapKeys acc).Nodup) :
    (mapKeys (online.foldl
      (fun now name =>
        let trimmed := L.TrimSpace name
        if trimmed = "" then now
        else mapSet now (L.ToLower trimmed) trimmed)
      acc)).Nodup := by
  induction online generalizing acc with
  | nil => exact h
  | cons name rest ih =>
    simp only [List.foldl_cons]
    apply ih
    by_cases ht : L.TrimSpace name = ""
    · simpa [ht] using h
    · simpa [ht] using nodup_mapSet acc _ _ h

theorem seenNow_nodup (L : GoStrings) (online : List String) :
    (mapKeys (presenceTracker.seenNow L online)).Nodup :=
  seenNow_nodup_aux L online [] (by simp [mapKeys])

theorem getD_false_eq_true (o : Option Bool) : o.getD false = true ↔ o = some true := by
  cases o with
  | none => simp
  | some b => simp

/-- The second loop of `Update`, one entry: what it writes. -/
theorem markSeen_fields (acc : presenceTracker × List presenceEvent) (e : String × String) :
    (presenceTracker.markSeen acc e).1.names = mapSet acc.1.names e.1 e.2 ∧
      (presenceTracker.markSeen acc e).1.timers = mapDelete acc.1.timers e.1 ∧
      (presenceTracker.markSeen acc e).1.online = mapSet acc.1.online e.1 true ∧
      (presenceTracker.markSeen acc e).1.delay = acc.1.delay ∧
      (presenceTracker.markSeen acc e).1.events = acc.1.events ∧
      (presenceTracker.markSeen acc e).1.nextTimer = acc.1.nextTimer := by
  obtain ⟨p, events⟩ := acc
  obtain ⟨key, name⟩ := e
  simp only [presenceTracker.markSeen]
  cases ht : mapGet p.timers key with
  | none =>
    have hdel := mapDelete_of_mapGet p.timers key ht
    by_cases ho : (mapGet p.online key).getD false = true
    · have hset := mapSet_of_mapGet p.online key true ((getD_false_eq_true _).mp ho)
      simp [ho, hdel, hset]
    · simp [ho, hdel]
  | some t =>
    by_cases ho : (mapGet p.online key).getD false = true
    · have hset := mapSet_of_mapGet p.online key true ((getD_false_eq_true _).mp ho)
      simp [ho, hset]
    · simp [ho]

theorem markSeen_seen (acc : presenceTracker × List presenceEvent) (k n : String) :
    (presenceTracker.markSeen acc (k, n)).1.seen k n := by
  obtain ⟨h1, h2, h3, -⟩ := markSeen_fields acc (k, n)
  refine ⟨?_, ?_, ?_⟩
  · rw [h1]; exact mapGet_mapSet_self _ _ _
  · rw [h2]; exact mapGet_mapDelete_self _ _
  · rw [h3]; exact mapGet_mapSet_self _ _ _

theorem markSeen_other (acc : presenceTracker × List presenceEvent) (e : String × String)
    (k : String) (h : k ≠ e.1) :
    mapGet (presenceTracker.markSeen acc e).1.names k = mapGet acc.1.names k ∧
      mapGet (presenceTracker.markSeen acc e).1.timers k = mapGet acc.1.timers k ∧
      mapGet (presenceTracker.markSeen acc e).1.online k = mapGet acc.1.online k := by
  obtain ⟨h1, h2, h3, -⟩ := markSeen_fields acc e
  rw [h1, h2, h3]
  exact ⟨mapGet_mapSet_ne _ _ _ _ h, mapGet_mapDelete_ne _ _ _ h, mapGet_mapSet_ne _ _ _ _ h⟩

theorem markSeen_fixed (q : presenceTracker) (events : List presenceEvent) (k n : String)
    (h : q.seen k n) : presenceTracker.markSeen (q, events) (k, n) = (q, events) := by
  obtain ⟨h1, h2, h3⟩ := h
  simp [presenceTracker.markSeen, h2, h3, mapSet_of_mapGet _ _ _ h1]

theorem foldl_markSeen_fixed (l : List (String × String)) (q : presenceTracker)
    (events : List presenceEvent) (h : ∀ e ∈ l, q.seen e.1 e.2) :
    l.foldl presenceTracker.markSeen (q, events) = (q, events) := by
  induction l with
  | nil => rfl
  | cons e rest ih =>
    obtain ⟨k, n⟩ := e
    rw [List.foldl_cons, markSeen_fixed q events k n (h (k, n) (List.mem_cons_self _ _))]
    exact ih (fun e he => h e (List.mem_cons_of_mem _ he))

/-- The second loop of `Update` over a list of entries with distinct keys. -/
theorem foldl_markSeen (l : List (String × String)) (acc : presenceTracker × List presenceEvent)
    (hn : (mapKeys l).Nodup) :
    (∀ e ∈ l, (l.foldl presenceTracker.markSeen acc).1.seen e.1 e.2) ∧
      (∀ k, k ∉ mapKeys l →
        mapGet (l.foldl presenceTracker.markSeen acc).1.names k = mapGet acc.1.names k ∧
        mapGet (l.foldl presenceTracker.markSeen acc).1.timers k = mapGet acc.1.timers k ∧
        mapGet (l.foldl presenceTracker.markSeen acc).1.online k = mapGet acc.1.online k) ∧
      (l.foldl presenceTracker.markSeen acc).1.delay = acc.1.delay ∧
      (l.foldl presenceTracker.markSeen acc).1.events = acc.1.events ∧
      (l.foldl presenceTracker.markSeen acc).1.nextTimer = acc.1.nextTimer ∧
      ((mapKeys acc.1.online).Nodup →
        (mapKeys (l.foldl presenceTracker.markSeen acc).1.online).Nodup) ∧
      (∀ k t, mapGet (l.foldl presenceTracker.markSeen acc).1.timers k = some t →
        mapGet acc.1.timers k = some t) := by
  induction l generalizing acc with
  | nil => simp [presenceTracker.seen]
  | cons e rest ih =>
    simp only [mapKeys, List.map_cons, List.nodup_cons] at hn
    obtain ⟨ih1, ih2, ih3, ih4, ih5, ih6, ih7⟩ := ih (presenceTracker.markSeen acc e) hn.2
    obtain ⟨f1, f2, f3, f4, f5, f6⟩ := markSeen_fields acc e
    simp only [List.foldl_cons]
    refine ⟨?_, ?_, ?_, ?_, ?_, ?_, ?_⟩
    · intro e' he'
      rcases List.mem_cons.mp he' with h | h
      · subst h
        obtain ⟨g1, g2, g3⟩ := ih2 e'.1 hn.1
        obtain ⟨s1, s2, s3⟩ := markSeen_seen acc e'.1 e'.2
        exact ⟨by rw [g1]; exact s1, by rw [g2]; exact s2, by rw [g3]; exact s3⟩
      · exact ih1 e' h
    · intro k hk
      simp only [mapKeys, List.map_cons, List.mem_cons, not_or] at hk
      obtain ⟨g1, g2, g3⟩ := ih2 k hk.2
      obtain ⟨o1, o2, o3⟩ := markSeen_other acc e k hk.1
      exact ⟨by rw [g1, o1], by rw [g2, o2], by rw [g3, o3]⟩
    · rw [ih3, f4]
    · rw [ih4, f5]
    · rw [ih5, f6]
    · intro hnd
      apply ih6
      rw [f3]
      exact nodup_mapSet _ _ _ hnd
    · intro k t hkt
      have := ih7 k t hkt
      rw [f2] at this
      by_cases hk : k = e.1
      · rw [hk, mapGet_mapDelete_self] at this
        cases this
      · rwa [mapGet_mapDelete_ne _ _ _ hk] at this

theorem emit_fields (p : presenceTracker) (evt : presenceEvent) :
    (p.emit evt).names = p.names ∧ (p.emit evt).timers = p.timers ∧
      (p.emit evt).online = p.online ∧ (p.emit evt).delay = p.delay ∧
      (p.emit evt).nextTimer = p.nextTimer ∧ (p.emit evt).armed = p.armed := by
  unfold presenceTracker.emit
  split <;> simp

theorem emit_events (p : presenceTracker) (evt : presenceEvent) :
    (p.emit evt).events = p.events ++ [evt] ∨
      ((p.emit evt).events = p.events ∧ 32 ≤ p.events.length) := by
  unfold presenceTracker.emit
  split
  · exact Or.inl rfl
  · rename_i h
    exact Or.inr ⟨rfl, by simpa [eventsCapacity] using h⟩

/-- With a positive delay `scheduleOfflineLocked` registers a fresh timer. -/
theorem scheduleOfflineLocked_pos (p : presenceTracker) (key : String) (h : 0 < p.delay) :
    p.scheduleOfflineLocked key =
      { p with
        nextTimer := p.nextTimer + 1
        armed := p.armed ++ [p.nextTimer]
        timers := mapSet p.timers key p.nextTimer } := by
  simp [presenceTracker.scheduleOfflineLocked, not_le.mpr h]

/-- With no delay `scheduleOfflineLocked` marks the target offline at once. -/
theorem scheduleOfflineLocked_zero (p : presenceTracker) (key : String) (h : p.delay ≤ 0) :
    p.scheduleOfflineLocked key =
      presenceTracker.emit { p with online := mapSet p.online key false }
        { Name := (mapGet p.names key).getD "", Online := false } := by
  simp [presenceTracker.scheduleOfflineLocked, h]

theorem scheduleOfflineLocked_fields (p : presenceTracker) (key : String) :
    (p.scheduleOfflineLocked key).names = p.names ∧
      (p.scheduleOfflineLocked key).delay = p.delay ∧
      (∀ k, k ≠ key →
        mapGet (p.scheduleOfflineLocked key).timers k = mapGet p.timers k ∧
        mapGet (p.scheduleOfflineLocked key).online k = mapGet p.online k) ∧
      ((mapKeys p.online).Nodup → (mapKeys (p.scheduleOfflineLocked key).online).Nodup) ∧
      (mapGet (p.scheduleOfflineLocked key).online key = some false ∨
        (mapGet (p.scheduleOfflineLocked key).timers key).isSome) := by
  by_cases h : 0 < p.delay
  · rw [scheduleOfflineLocked_pos p key h]
    refine ⟨rfl, rfl, ?_, fun hn => hn, Or.inr ?_⟩
    · intro k hk
      exact ⟨mapGet_mapSet_ne _ _ _ _ hk, rfl⟩
    · simp [mapGet_mapSet_self]
  · rw [scheduleOfflineLocked_zero p key (not_lt.mp h)]
    obtain ⟨e1, e2, e3, e4, -, -⟩ := emit_fields { p with online := mapSet p.online key false }
      { Name := (mapGet p.names key).getD "", Online := false }
    rw [e1, e2, e3, e4]
    refine ⟨rfl, rfl, ?_, fun hn => nodup_mapSet _ _ _ hn, Or.inl ?_⟩
    · intro k hk
      exact ⟨rfl, mapGet_mapSet_ne _ _ _ _ hk⟩
    · exact mapGet_mapSet_self _ _ _

/-- The third loop of `Update`, one entry: a no-op, or the scheduling of a
target that is pending. -/
theorem markAbsent_cases (now : List (String × String)) (q : presenceTracker)
    (e : String × Bool) :
    presenceTracker.markAbsent now q e = q ∨
      (e.2 = true ∧ mapGet now e.1 = none ∧ mapGet q.timers e.1 = none ∧
        presenceTracker.markAbsent now q e = q.scheduleOfflineLocked e.1) := by
  obtain ⟨k, b⟩ := e
  simp only [presenceTracker.markAbsent]
  cases b with
  | false => simp
  | true =>
    cases hnow : mapGet now k with
    | some n => simp
    | none =>
      cases ht : mapGet q.timers k with
      | some t => simp
      | none => simp

theorem markAbsent_noop (now : List (String × String)) (q : presenceTracker)
    (e : String × Bool)
    (h : e.2 = true → mapGet now e.1 = none → (mapGet q.timers e.1).isSome) :
    presenceTracker.markAbsent now q e = q := by
  rcases markAbsent_cases now q e with h1 | ⟨hb, hnow, ht, -⟩
  · exact h1
  · have := h hb hnow
    rw [ht] at this
    cases this

/-- The third loop of `Update` over a list of entries. -/
theorem foldl_markAbsent (now : List (String × String)) (l : List (String × Bool))
    (q : presenceTracker) :
    (l.foldl (presenceTracker.markAbsent now) q).names = q.names ∧
      (l.foldl (presenceTracker.markAbsent now) q).delay = q.delay ∧
      (∀ k n, mapGet now k = some n → q.seen k n →
        (l.foldl (presenceTracker.markAbsent now) q).seen k n) ∧
      ((mapKeys q.online).Nodup →
        (mapKeys (l.foldl (presenceTracker.markAbsent now) q).online).Nodup) ∧
      (∀ k, (l.foldl (presenceTracker.markAbsent now) q).pending now k →
        q.pending now k ∧ (k, true) ∉ l) := by
  induction l generalizing q with
  | nil => simp
  | cons e rest ih =>
    simp only [List.foldl_cons]
    obtain ⟨i1, i2, i3, i4, i5⟩ := ih (presenceTracker.markAbsent now q e)
    rcases markAbsent_cases now q e with h | ⟨hb, hnow, ht, h⟩
    · rw [h] at i1 i2 i3 i4 i5 ⊢
      refine ⟨i1, i2, i3, i4, ?_⟩
      intro k hk
      obtain ⟨hp, hmem⟩ := i5 k hk
      refine ⟨hp, ?_⟩
      intro hmem2
      rcases List.mem_cons.mp hmem2 with h1 | h1
      · have hno := markAbsent_noop now q e
        obtain ⟨p1, p2, p3⟩ := hp
        -- the entry is pending, so the body would have scheduled it
        have hsched : presenceTracker.markAbsent now q (k, true) =
            q.scheduleOfflineLocked k := by
          simp [presenceTracker.markAbsent, p2, p3]
        rw [← h1, hsched] at h
        obtain ⟨-, -, -, -, f5⟩ := scheduleOfflineLocked_fields q k
        rw [h] at f5
        rcases f5 with f5 | f5
        · rw [p1] at f5
          cases f5
        · rw [p3] at f5
          cases f5
      · exact hmem h1
    · rw [h] at i1 i2 i3 i4 i5 ⊢
      obtain ⟨f1, f2, f3, f4, f5⟩ := scheduleOfflineLocked_fields q e.1
      refine ⟨by rw [i1, f1], by rw [i2, f2], ?_, fun hn => i4 (f4 hn), ?_⟩
      · intro k n hk hs
        apply i3 k n hk
        have hne : k ≠ e.1 := by
          rintro rfl
          rw [hnow] at hk
          cases hk
        obtain ⟨g1, g2⟩ := f3 k hne
        exact ⟨by rw [f1]; exact hs.1, by rw [g1]; exact hs.2.1, by rw [g2]; exact hs.2.2⟩
      · intro k hk
        obtain ⟨⟨p1, p2, p3⟩, hmem⟩ := i5 k hk
        have hne : k ≠ e.1 := by
          rintro rfl
          rcases f5 with f5 | f5
          · rw [p1] at f5
            cases f5
          · rw [p3] at f5
            cases f5
        obtain ⟨g1, g2⟩ := f3 k hne
        refine ⟨⟨by rw [← g2]; exact p1, p2, by rw [← g1]; exact p3⟩, ?_⟩
        intro hmem2
        rcases List.mem_cons.mp hmem2 with h1 | h1
        · apply hne
          rw [← h1]
        · exact hmem h1

theorem foldl_markAbsent_fixed (now : List (String × String)) (l : List (String × Bool))
    (q : presenceTracker)
    (h : ∀ e ∈ l, e.2 = true → mapGet now e.1 = none → (mapGet q.timers e.1).isSome) :
    l.foldl (presenceTracker.markAbsent now) q = q := by
  induction l with
  | nil => rfl
  | cons e rest ih =>
    rw [List.foldl_cons, markAbsent_noop now q e (h e (List.mem_cons_self _ _))]
    exact ih (fun e he => h e (List.mem_cons_of_mem _ he))

/-- C7: for every tracker state (a Go map has distinct keys) and every
snapshot, a second `Update` with the same snapshot returns no event and leaves
the tracker exactly as the first call left it: the online map, the display
names, the registered and armed timers, and the event queue. -/
theorem Update_idempotent (L : GoStrings) (p : presenceTracker) (snapshot : List String)
    (hn : (mapKeys p.online).Nodup) :
    presenceTracker.Update L (presenceTracker.Update L p snapshot).1 snapshot =
      ((presenceTracker.Update L p snapshot).1, []) := by
  have hnow := seenNow_nodup L snapshot
  obtain ⟨a1, -, -, -, -, a6, -⟩ :=
    foldl_markSeen (presenceTracker.seenNow L snapshot) (p, []) hnow
  obtain ⟨-, -, b3, b4, b5⟩ := foldl_markAbsent (presenceTracker.seenNow L snapshot)
    ((presenceTracker.seenNow L snapshot).foldl presenceTracker.markSeen (p, [])).1.online
    ((presenceTracker.seenNow L snapshot).foldl presenceTracker.markSeen (p, [])).1
  have hq : (presenceTracker.Update L p snapshot).1 =
      ((presenceTracker.seenNow L snapshot).foldl presenceTracker.markSeen (p, [])).1.online.foldl
        (presenceTracker.markAbsent (presenceTracker.seenNow L snapshot))
        ((presenceTracker.seenNow L snapshot).foldl presenceTracker.markSeen (p, [])).1 := rfl
  rw [← hq] at b3 b4 b5
  generalize (presenceTracker.Update L p snapshot).1 = q at *
  have hseen : ∀ e ∈ presenceTracker.seenNow L snapshot, q.seen e.1 e.2 := by
    intro e he
    apply b3 e.1 e.2 (mapGet_of_mem _ _ _ hnow he)
    exact a1 e he
  have hsettled : ∀ e ∈ q.online, e.2 = true →
      mapGet (presenceTracker.seenNow L snapshot) e.1 = none →
      (mapGet q.timers e.1).isSome := by
    intro e he hb hnone
    obtain ⟨k, b⟩ := e
    simp only at hb hnone
    subst hb
    by_contra hcon
    have hpend : q.pending (presenceTracker.seenNow L snapshot) k := by
      refine ⟨mapGet_of_mem _ _ _ (b4 (a6 hn)) he, hnone, ?_⟩
      cases ht : mapGet q.timers k with
      | none => rfl
      | some t => simp [ht] at hcon
    obtain ⟨hp, hmem⟩ := b5 k hpend
    exact hmem (mem_of_mapGet _ _ _ hp.1)
  simp only [presenceTracker.Update]
  rw [foldl_markSeen_fixed _ q [] hseen]
  simp only
  rw [foldl_markAbsent_fixed _ _ q hsettled]

/-- C7, at a tracker that has `a` online and sees `b` instead. -/
theorem Update_idempotent_witness :
    (mapKeys (presenceTracker.Update asciiStrings (newPresenceTracker 5) ["a"]).1.online).Nodup ∧
      presenceTracker.Update asciiStrings
          (presenceTracker.Update asciiStrings
            (presenceTracker.Update asciiStrings (newPresenceTracker 5) ["a"]).1 ["b"]).1 ["b"] =
        ((presenceTracker.Update asciiStrings
            (presenceTracker.Update asciiStrings (newPresenceTracker 5) ["a"]).1 ["b"]).1, []) :=
  ⟨by decide,
    Update_idempotent asciiStrings
      (presenceTracker.Update asciiStrings (newPresenceTracker 5) ["a"]).1 ["b"] (by decide)⟩

/-- The third loop of `Update` with a positive delay, one entry: only the
timers move, and only by a fresh registration. -/
theorem markAbsent_pos (now : List (String × String)) (q : presenceTracker)
    (e : String × Bool) (h : 0 < q.delay) :
    (presenceTracker.markAbsent now q e).events = q.events ∧
      (presenceTracker.markAbsent now q e).online = q.online ∧
      (presenceTracker.markAbsent now q e).delay = q.delay ∧
      q.nextTimer ≤ (presenceTracker.markAbsent now q e).nextTimer ∧
      (∀ k t, mapGet (presenceTracker.markAbsent now q e).timers k = some t →
        mapGet q.timers k = some t ∨
          (q.nextTimer ≤ t ∧ t < (presenceTracker.markAbsent now q e).nextTimer)) ∧
      (∀ k t, mapGet q.timers k = some t →
        mapGet (presenceTracker.markAbsent now q e).timers k = some t) := by
  rcases markAbsent_cases now q e with h1 | ⟨-, -, ht, h1⟩
  · rw [h1]
    exact ⟨rfl, rfl, rfl, le_refl _, fun k t hk => Or.inl hk, fun k t hk => hk⟩
  · rw [h1, scheduleOfflineLocked_pos q e.1 h]
    refine ⟨rfl, rfl, rfl, Nat.le_succ _, ?_, ?_⟩
    · intro k t hk
      simp only at hk
      by_cases hke : k = e.1
      · subst hke
        rw [mapGet_mapSet_self] at hk
        cases hk
        exact Or.inr ⟨le_refl _, Nat.lt_succ_self _⟩
      · rw [mapGet_mapSet_ne _ _ _ _ hke] at hk
        exact Or.inl hk
    · intro k t hk
      simp only
      have hke : k ≠ e.1 := by
        rintro rfl
        rw [ht] at hk
        cases hk
      rw [mapGet_mapSet_ne _ _ _ _ hke]
      exact hk

theorem foldl_markAbsent_pos (now : List (String × String)) (l : List (String × Bool))
    (q : presenceTracker) (h : 0 < q.delay) :
    (l.foldl (presenceTracker.markAbsent now) q).events = q.events ∧
      (l.foldl (presenceTracker.markAbsent now) q).online = q.online ∧
      (l.foldl (presenceTracker.markAbsent now) q).delay = q.delay ∧
      q.nextTimer ≤ (l.foldl (presenceTracker.markAbsent now) q).nextTimer ∧
      (∀ k t, mapGet (l.foldl (presenceTracker.markAbsent now) q).timers k = some t →
        mapGet q.timers k = some t ∨
          (q.nextTimer ≤ t ∧ t < (l.foldl (presenceTracker.markAbsent now) q).nextTimer)) ∧
      (∀ k t, mapGet q.timers k = some t →
        mapGet (l.foldl (presenceTracker.markAbsent now) q).timers k = some t) := by
  induction l generalizing q with
  | nil => exact ⟨rfl, rfl, rfl, le_refl _, fun k t hk => Or.inl hk, fun k t hk => hk⟩
  | cons e rest ih =>
    simp only [List.foldl_cons]
    obtain ⟨m1, m2, m3, m4, m5, m6⟩ := markAbsent_pos now q e h
    obtain ⟨i1, i2, i3, i4, i5, i6⟩ := ih (presenceTracker.markAbsent now q e) (by rw [m3]; exact h)
    refine ⟨by rw [i1, m1], by rw [i2, m2], by rw [i3, m3], le_trans m4 i4, ?_, ?_⟩
    · intro k t hk
      rcases i5 k t hk with h1 | ⟨h1, h2⟩
      · rcases m5 k t h1 with h3 | ⟨h3, h4⟩
        · exact Or.inl h3
        · exact Or.inr ⟨h3, lt_of_lt_of_le h4 i4⟩
      · exact Or.inr ⟨le_trans m4 h1, h2⟩
    · intro k t hk
      exact i6 k t (m6 k t hk)

/-- `Update` with a positive delay: the frame, and where its timers come from. -/
theorem Update_pos (L : GoStrings) (p : presenceTracker) (snapshot : List String)
    (h : 0 < p.delay) :
    (p.Update L snapshot).1.events = p.events ∧
      (p.Update L snapshot).1.delay = p.delay ∧
      p.nextTimer ≤ (p.Update L snapshot).1.nextTimer ∧
      (∀ k t, mapGet (p.Update L snapshot).1.timers k = some t →
        mapGet p.timers k = some t ∨
          (p.nextTimer ≤ t ∧ t < (p.Update L snapshot).1.nextTimer)) ∧
      (∀ k, mapGet (presenceTracker.seenNow L snapshot) k = none →
        mapGet (p.Update L snapshot).1.online k = mapGet p.online k ∧
        (∀ t, mapGet p.timers k = some t →
          mapGet (p.Update L snapshot).1.timers k = some t) ∧
        (mapGet p.online k = some true →
          (mapGet (p.Update L snapshot).1.timers k).isSome)) ∧
      (∀ k n, mapGet (presenceTracker.seenNow L snapshot) k = some n →
        (p.Update L snapshot).1.seen k n) := by
  have hnow := seenNow_nodup L snapshot
  obtain ⟨a1, a2, a3, a4, a5, -, a7⟩ :=
    foldl_markSeen (presenceTracker.seenNow L snapshot) (p, []) hnow
  obtain ⟨-, -, b3, -, b5⟩ := foldl_markAbsent (presenceTracker.seenNow L snapshot)
    ((presenceTracker.seenNow L snapshot).foldl presenceTracker.markSeen (p, [])).1.online
    ((presenceTracker.seenNow L snapshot).foldl presenceTracker.markSeen (p, [])).1
  obtain ⟨c1, c2, c3, c4, c5, c6⟩ := foldl_markAbsent_pos (presenceTracker.seenNow L snapshot)
    ((presenceTracker.seenNow L snapshot).foldl presenceTracker.markSeen (p, [])).1.online
    ((presenceTracker.seenNow L snapshot).foldl presenceTracker.markSeen (p, [])).1
    (by rw [a3]; exact h)
  have hq : (presenceTracker.Update L p snapshot).1 =
      ((presenceTracker.seenNow L snapshot).foldl presenceTracker.markSeen (p, [])).1.online.foldl
        (presenceTracker.markAbsent (presenceTracker.seenNow L snapshot))
        ((presenceTracker.seenNow L snapshot).foldl presenceTracker.markSeen (p, [])).1 := rfl
  rw [← hq] at b3 b5 c1 c2 c3 c4 c5 c6
  generalize (presenceTracker.Update L p snapshot).1 = q at *
  generalize ((presenceTracker.seenNow L snapshot).foldl presenceTracker.markSeen (p, [])).1 = pa
    at *
  simp only at a2 a3 a4 a5 a7
  refine ⟨by rw [c1, a4], by rw [c3, a3], by rw [← a5]; exact c4, ?_, ?_, ?_⟩
  · intro k t hk
    rcases c5 k t hk with h1 | ⟨h1, h2⟩
    · exact Or.inl (a7 k t h1)
    · exact Or.inr ⟨by rw [← a5]; exact h1, h2⟩
  · intro k hk
    obtain ⟨-, g2, g3⟩ := a2 k ((mapGet_eq_none_iff _ _).mp hk)
    refine ⟨by rw [c2, g3], ?_, ?_⟩
    · intro t ht
      apply c6
      rw [g2]
      exact ht
    · intro hon
      have hq_on : mapGet q.online k = some true := by rw [c2, g3]; exact hon
      cases ht : mapGet q.timers k with
      | some t => rfl
      | none =>
        exfalso
        obtain ⟨hp, hmem⟩ := b5 k ⟨hq_on, hk, ht⟩
        exact hmem (mem_of_mapGet _ _ _ hp.1)
  · intro k n hk
    exact b3 k n hk (a1 (k, n) (mem_of_mapGet _ _ _ hk))

/-- The events returned by `Update` are all `Online` events. -/
theorem Update_returns_online (L : GoStrings) (p : presenceTracker) (snapshot : List String) :
    ∀ e ∈ (p.Update L snapshot).2, e.Online = true := by
  have key : ∀ (l : List (String × String)) (acc : presenceTracker × List presenceEvent),
      (∀ e ∈ acc.2, e.Online = true) →
      ∀ e ∈ (l.foldl presenceTracker.markSeen acc).2, e.Online = true := by
    intro l
    induction l with
    | nil => exact fun acc h => h
    | cons x rest ih =>
      intro acc h
      simp only [List.foldl_cons]
      apply ih
      intro e he
      simp only [presenceTracker.markSeen] at he
      split at he
      · simp only [List.mem_append, List.mem_singleton] at he
        rcases he with he | he
        · exact h e he
        · rw [he]
      · exact h e he
  exact key _ (p, []) (by simp)

/-- The callback `fireOffline`: a no-op, or the removal of the registered timer. -/
theorem fireOffline_cases (p : presenceTracker) (key : String) (timer : Nat) :
    p.fireOffline key timer = p ∨
      (mapGet p.timers key = some timer ∧
        (p.fireOffline key timer).timers = mapDelete p.timers key ∧
        ((p.fireOffline key timer).online = p.online ∨
          (p.fireOffline key timer).online = mapSet p.online key false) ∧
        (p.fireOffline key timer).delay = p.delay ∧
        (p.fireOffline key timer).nextTimer = p.nextTimer) := by
  unfold presenceTracker.fireOffline
  cases ht : mapGet p.timers key with
  | none => exact Or.inl rfl
  | some current =>
    by_cases hc : current = timer
    · subst hc
      right
      refine ⟨rfl, ?_⟩
      simp only [ne_eq, not_true_eq_false, if_false]
      split
      · exact ⟨rfl, Or.inl rfl, rfl, rfl⟩
      · obtain ⟨-, e2, e3, e4, e5, -⟩ := emit_fields
          { p with timers := mapDelete p.timers key, online := mapSet p.online key false }
          { Name := (mapGet p.names key).getD "", Online := false }
        exact ⟨e2, Or.inr e3, e4, e5⟩
    · left
      simp [hc]

theorem fireOffline_mismatch (p : presenceTracker) (key : String) (timer : Nat)
    (h : mapGet p.timers key ≠ some timer) : p.fireOffline key timer = p := by
  rcases fireOffline_cases p key timer with h1 | ⟨h1, -⟩
  · exact h1
  · exact absurd h1 h

theorem mapGet_mapDelete_some {V : Type} (m : List (String × V)) (k k' : String) (v : V)
    (h : mapGet (mapDelete m k) k' = some v) : mapGet m k' = some v := by
  by_cases hk : k' = k
  · rw [hk, mapGet_mapDelete_self] at h
    cases h
  · rwa [mapGet_mapDelete_ne _ _ _ hk] at h

theorem Update_timersFresh (L : GoStrings) (p : presenceTracker) (snapshot : List String)
    (hd : 0 < p.delay) (hf : p.timersFresh) : (p.Update L snapshot).1.timersFresh := by
  obtain ⟨-, -, u3, u4, -, -⟩ := Update_pos L p snapshot hd
  intro k t hk
  rcases u4 k t hk with h | ⟨-, h⟩
  · exact lt_of_lt_of_le (hf k t h) u3
  · exact h

/-- The callback `fireOffline` changes neither the delay nor the timer
counter, registers no timer, and touches only its own key. -/
theorem fireOffline_frame (p : presenceTracker) (key : String) (timer : Nat) :
    (p.fireOffline key timer).delay = p.delay ∧
      (p.fireOffline key timer).nextTimer = p.nextTimer ∧
      (∀ k t, mapGet (p.fireOffline key timer).timers k = some t →
        mapGet p.timers k = some t) ∧
      (∀ k, k ≠ key →
        mapGet (p.fireOffline key timer).timers k = mapGet p.timers k ∧
        mapGet (p.fireOffline key timer).online k = mapGet p.online k) := by
  rcases fireOffline_cases p key timer with h | ⟨-, h2, h3, h4, h5⟩
  · rw [h]
    exact ⟨rfl, rfl, fun k t hk => hk, fun k _ => ⟨rfl, rfl⟩⟩
  · refine ⟨h4, h5, ?_, ?_⟩
    · intro k t hk
      rw [h2] at hk
      exact mapGet_mapDelete_some _ _ _ _ hk
    · intro k hk
      refine ⟨by rw [h2]; exact mapGet_mapDelete_ne _ _ _ hk, ?_⟩
      rcases h3 with h3 | h3
      · rw [h3]
      · rw [h3]
        exact mapGet_mapSet_ne _ _ _ _ hk

theorem step_debouncing (L : GoStrings) (q : presenceTracker) (key : String) (t : Nat)
    (st : TrackerStep) (hs : st.spares L key t) (h : q.debouncing key t) :
    (q.step L st).debouncing key t := by
  obtain ⟨hd, hf, hon, ht⟩ := h
  cases st with
  | update snapshot =>
    obtain ⟨-, u2, -, -, u5, -⟩ := Update_pos L q snapshot hd
    obtain ⟨v1, v2, -⟩ := u5 key hs
    exact ⟨by rw [presenceTracker.step, u2]; exact hd, Update_timersFresh L q snapshot hd hf,
      by rw [presenceTracker.step, v1]; exact hon, v2 t ht⟩
  | fire k tm =>
    by_cases hk : key = k
    · subst hk
      have htm : tm ≠ t := by
        rcases hs with h1 | h1
        · exact absurd rfl h1
        · exact h1
      have hno : presenceTracker.fireOffline { q with armed := q.armed.erase tm } key tm =
          { q with armed := q.armed.erase tm } := by
        apply fireOffline_mismatch
        simp only
        rw [ht]
        intro h2
        cases h2
        exact htm rfl
      simp only [presenceTracker.step]
      rw [hno]
      exact ⟨hd, hf, hon, ht⟩
    · obtain ⟨f1, f2, f3, f4⟩ :=
        fireOffline_frame { q with armed := q.armed.erase tm } k tm
      obtain ⟨g1, g2⟩ := f4 key hk
      refine ⟨by rw [presenceTracker.step, f1]; exact hd, ?_,
        by rw [presenceTracker.step, g2]; exact hon, by rw [presenceTracker.step, g1]; exact ht⟩
      intro k' t' hk'
      have := f3 k' t' hk'
      rw [presenceTracker.step, f2]
      exact hf k' t' this
  | receive => exact ⟨hd, hf, hon, ht⟩

theorem foldl_step_debouncing (L : GoStrings) (key : String) (t : Nat)
    (steps : List TrackerStep) (q : presenceTracker)
    (hs : ∀ st ∈ steps, st.spares L key t) (h : q.debouncing key t) :
    (steps.foldl (presenceTracker.step L) q).debouncing key t := by
  induction steps generalizing q with
  | nil => exact h
  | cons st rest ih =>
    rw [List.foldl_cons]
    apply ih
    · exact fun s hs2 => hs s (List.mem_cons_of_mem _ hs2)
    · exact step_debouncing L q key t st (hs st (List.mem_cons_self _ _)) h

theorem step_superseded (L : GoStrings) (q : presenceTracker) (key : String) (t : Nat)
    (st : TrackerStep) (h : 0 < q.delay ∧ q.superseded key t) :
    0 < (q.step L st).delay ∧ (q.step L st).superseded key t := by
  obtain ⟨hd, hlt, hne⟩ := h
  cases st with
  | update snapshot =>
    obtain ⟨-, u2, u3, u4, -, -⟩ := Update_pos L q snapshot hd
    refine ⟨by rw [presenceTracker.step, u2]; exact hd, lt_of_lt_of_le hlt u3, ?_⟩
    intro hk
    rcases u4 key t hk with h1 | ⟨h1, -⟩
    · exact hne h1
    · exact absurd hlt (not_lt.mpr h1)
  | fire k tm =>
    obtain ⟨f1, f2, f3, -⟩ :=
      fireOffline_frame { q with armed := q.armed.erase tm } k tm
    refine ⟨by rw [presenceTracker.step, f1]; exact hd,
      by rw [presenceTracker.step, f2]; exact hlt, ?_⟩
    intro hk
    exact hne (f3 key t hk)
  | receive => exact ⟨hd, hlt, hne⟩

theorem foldl_step_superseded (L : GoStrings) (key : String) (t : Nat)
    (steps : List TrackerStep) (q : presenceTracker)
    (h : 0 < q.delay ∧ q.superseded key t) :
    0 < (steps.foldl (presenceTracker.step L) q).delay ∧
      (steps.foldl (presenceTracker.step L) q).superseded key t := by
  induction steps generalizing q with
  | nil => exact h
  | cons st rest ih =>
    rw [List.foldl_cons]
    exact ih _ (step_superseded L q key t st h)

/-! ## Theorems: the recorded names -/

theorem seenNow_entries_aux (L : GoStrings) (online : List String)
    (acc : List (String × String))
    (h : ∀ k n, mapGet acc k = some n → n ≠ "" ∧ L.ToLower n = k) :
    ∀ k n, mapGet (online.foldl
      (fun now name =>
        let trimmed := L.TrimSpace name
        if trimmed = "" then now
        else mapSet now (L.ToLower trimmed) trimmed)
      acc) k = some n → n ≠ "" ∧ L.ToLower n = k := by
  induction online generalizing acc with
  | nil => exact h
  | cons name rest ih =>
    simp only [List.foldl_cons]
    apply ih
    by_cases ht : L.TrimSpace name = ""
    · simpa [ht] using h
    · simp only [ht, if_false]
      intro k n hk
      by_cases hke : k = L.ToLower (L.TrimSpace name)
      · rw [hke, mapGet_mapSet_self] at hk
        cases hk
        exact ⟨ht, hke.symm⟩
      · rw [mapGet_mapSet_ne _ _ _ _ hke] at hk
        exact h k n hk

/-- An entry of the snapshot map: a trimmed, non-empty name under its
lower-cased form. -/
theorem seenNow_entries (L : GoStrings) (online : List String) (k n : String)
    (h : mapGet (presenceTracker.seenNow L online) k = some n) : n ≠ "" ∧ L.ToLower n = k :=
  seenNow_entries_aux L online [] (by intro k n hk; simp [mapGet] at hk) k n h

theorem markAbsent_online_true (now : List (String × String)) (q : presenceTracker)
    (e : String × Bool) (k : String)
    (h : mapGet (presenceTracker.markAbsent now q e).online k = some true) :
    mapGet q.online k = some true := by
  rcases markAbsent_cases now q e with h1 | ⟨-, -, -, h1⟩
  · rwa [h1] at h
  · rw [h1] at h
    obtain ⟨-, -, f3, -, f5⟩ := scheduleOfflineLocked_fields q e.1
    by_cases hke : k = e.1
    · subst hke
      by_cases hd : 0 < q.delay
      · rw [scheduleOfflineLocked_pos q e.1 hd] at h
        exact h
      · rw [scheduleOfflineLocked_zero q e.1 (not_lt.mp hd)] at h
        rw [(emit_fields _ _).2.2.1] at h
        simp only at h
        rw [mapGet_mapSet_self] at h
        cases h
    · rw [(f3 k hke).2] at h
      exact h

theorem foldl_markAbsent_online_true (now : List (String × String)) (l : List (String × Bool))
    (q : presenceTracker) (k : String)
    (h : mapGet (l.foldl (presenceTracker.markAbsent now) q).online k = some true) :
    mapGet q.online k = some true := by
  induction l generalizing q with
  | nil => exact h
  | cons e rest ih =>
    rw [List.foldl_cons] at h
    exact markAbsent_online_true now q e k (ih _ h)

theorem Update_named (L : GoStrings) (p : presenceTracker) (snapshot : List String)
    (h : p.named L) : (p.Update L snapshot).1.named L := by
  obtain ⟨h1, h2⟩ := h
  have hnow := seenNow_nodup L snapshot
  obtain ⟨a1, a2, -, -, -, -, -⟩ :=
    foldl_markSeen (presenceTracker.seenNow L snapshot) (p, []) hnow
  obtain ⟨b1, -, -, -, -⟩ := foldl_markAbsent (presenceTracker.seenNow L snapshot)
    ((presenceTracker.seenNow L snapshot).foldl presenceTracker.markSeen (p, [])).1.online
    ((presenceTracker.seenNow L snapshot).foldl presenceTracker.markSeen (p, [])).1
  have hon := foldl_markAbsent_online_true (presenceTracker.seenNow L snapshot)
    ((presenceTracker.seenNow L snapshot).foldl presenceTracker.markSeen (p, [])).1.online
    ((presenceTracker.seenNow L snapshot).foldl presenceTracker.markSeen (p, [])).1
  have hq : (presenceTracker.Update L p snapshot).1 =
      ((presenceTracker.seenNow L snapshot).foldl presenceTracker.markSeen (p, [])).1.online.foldl
        (presenceTracker.markAbsent (presenceTracker.seenNow L snapshot))
        ((presenceTracker.seenNow L snapshot).foldl presenceTracker.markSeen (p, [])).1 := rfl
  rw [← hq] at b1 hon
  generalize (presenceTracker.Update L p snapshot).1 = q at *
  generalize ((presenceTracker.seenNow L snapshot).foldl presenceTracker.markSeen (p, [])).1 = pa
    at *
  simp only at a2
  have hnames : ∀ k, (∃ n, mapGet (presenceTracker.seenNow L snapshot) k = some n ∧
      mapGet pa.names k = some n) ∨
      (mapGet (presenceTracker.seenNow L snapshot) k = none ∧
        mapGet pa.names k = mapGet p.names k ∧ mapGet pa.online k = mapGet p.online k) := by
    intro k
    cases hk : mapGet (presenceTracker.seenNow L snapshot) k with
    | some n =>
      left
      exact ⟨n, rfl, (a1 (k, n) (mem_of_mapGet _ _ _ hk)).1⟩
    | none =>
      right
      obtain ⟨g1, -, g3⟩ := a2 k ((mapGet_eq_none_iff _ _).mp hk)
      exact ⟨rfl, g1, g3⟩
  refine ⟨?_, ?_⟩
  · intro k n hk
    rw [b1] at hk
    rcases hnames k with ⟨n', hn1, hn2⟩ | ⟨-, hn2, -⟩
    · rw [hn2] at hk
      cases hk
      exact seenNow_entries L snapshot k n hn1
    · rw [hn2] at hk
      exact h1 k n hk
  · intro k hk
    rw [b1]
    rcases hnames k with ⟨n', -, hn2⟩ | ⟨-, hn2, hn3⟩
    · rw [hn2]
      rfl
    · rw [hn2]
      apply h2
      rw [← hn3]
      exact hon k hk

theorem fireOffline_names (p : presenceTracker) (key : String) (timer : Nat) :
    (p.fireOffline key timer).names = p.names := by
  unfold presenceTracker.fireOffline
  split
  · rfl
  · split
    · rfl
    · dsimp only
      split
      · rfl
      · exact (emit_fields _ _).1

/-- The queue after `fireOffline`: as it was, or longer by the `Offline` event
of a target that was marked online with the timer registered. -/
theorem fireOffline_events (p : presenceTracker) (key : String) (timer : Nat) :
    (p.fireOffline key timer).events = p.events ∨
      (mapGet p.online key = some true ∧ mapGet p.timers key = some timer ∧
        (p.fireOffline key timer).events = p.events ++ [p.offlineEvent key]) := by
  unfold presenceTracker.fireOffline
  cases ht : mapGet p.timers key with
  | none => exact Or.inl rfl
  | some current =>
    by_cases hc : current = timer
    · subst hc
      simp only [ne_eq, not_true_eq_false, if_false]
      split
      · exact Or.inl rfl
      · rename_i hon
        have hon2 : mapGet p.online key = some true := by
          simpa [getD_false_eq_true] using hon
        rcases emit_events
          { p with timers := mapDelete p.timers key, online := mapSet p.online key false }
          { Name := (mapGet p.names key).getD "", Online := false } with h | ⟨h, -⟩
        · exact Or.inr ⟨hon2, trivial, h⟩
        · exact Or.inl h
    · left
      simp [hc]

theorem fireOffline_named (L : GoStrings) (p : presenceTracker) (key : String) (timer : Nat)
    (h : p.named L) : (p.fireOffline key timer).named L := by
  obtain ⟨h1, h2⟩ := h
  refine ⟨?_, ?_⟩
  · rw [fireOffline_names]
    exact h1
  · intro k hk
    rw [fireOffline_names]
    apply h2
    rcases fireOffline_cases p key timer with h3 | ⟨-, -, h3, -, -⟩
    · rwa [h3] at hk
    · rcases h3 with h3 | h3
      · rwa [h3] at hk
      · rw [h3] at hk
        by_cases hke : k = key
        · rw [hke, mapGet_mapSet_self] at hk
          cases hk
        · rwa [mapGet_mapSet_ne _ _ _ _ hke] at hk

theorem step_named (L : GoStrings) (p : presenceTracker) (st : TrackerStep)
    (h : p.named L) : (p.step L st).named L := by
  cases st with
  | update snapshot => exact Update_named L p snapshot h
  | fire key timer =>
    exact fireOffline_named L { p with armed := p.armed.erase timer } key timer h
  | receive => exact h

theorem foldl_step_named (L : GoStrings) (steps : List TrackerStep) (p : presenceTracker)
    (h : p.named L) : (steps.foldl (presenceTracker.step L) p).named L := by
  induction steps generalizing p with
  | nil => exact h
  | cons st rest ih => exact ih _ (step_named L p st h)

theorem newPresenceTracker_named (L : GoStrings) (delay : Int) :
    (newPresenceTracker delay).named L := by
  refine ⟨?_, ?_⟩
  · intro k n hk
    simp [newPresenceTracker, mapGet] at hk
  · intro k hk
    simp [newPresenceTracker, mapGet] at hk

/-- Two targets with the same recorded name are one target. -/
theorem named_inj (L : GoStrings) (p : presenceTracker) (h : p.named L) (k k' n : String)
    (hk : mapGet p.names k = some n) (hk' : mapGet p.names k' = some n) : k = k' := by
  rw [← (h.1 k n hk).2, ← (h.1 k' n hk').2]

/-! ## Theorems: the queue during a debounce -/

theorem Update_names_absent (L : GoStrings) (p : presenceTracker) (snapshot : List String)
    (k : String) (h : mapGet (presenceTracker.seenNow L snapshot) k = none) :
    mapGet (p.Update L snapshot).1.names k = mapGet p.names k := by
  obtain ⟨-, a2, -, -, -, -, -⟩ :=
    foldl_markSeen (presenceTracker.seenNow L snapshot) (p, []) (seenNow_nodup L snapshot)
  obtain ⟨b1, -, -, -, -⟩ := foldl_markAbsent (presenceTracker.seenNow L snapshot)
    ((presenceTracker.seenNow L snapshot).foldl presenceTracker.markSeen (p, [])).1.online
    ((presenceTracker.seenNow L snapshot).foldl presenceTracker.markSeen (p, [])).1
  simp only [presenceTracker.Update]
  rw [b1]
  exact (a2 k ((mapGet_eq_none_iff _ _).mp h)).1

/-- Taking the head off a queue that is a rest of `E` followed by `extra`
leaves a queue of the same form. -/
theorem queue_tail {α : Type} (E : List α) (i : Nat) (extra : List α) :
    ∃ j rest, (E.drop i ++ extra).tail = E.drop j ++ rest ∧ ∀ e ∈ rest, e ∈ extra := by
  cases h : E.drop i with
  | nil => exact ⟨i, extra.tail, by simp [h], fun e he => List.mem_of_mem_tail he⟩
  | cons x xs =>
    refine ⟨i + 1, extra, ?_, fun e he => he⟩
    rw [← List.tail_drop, h]
    rfl

/-- With a positive delay every step keeps the delay and the freshness of the
timer handles. -/
theorem step_fresh (L : GoStrings) (q : presenceTracker) (st : TrackerStep)
    (h : 0 < q.delay ∧ q.timersFresh) :
    0 < (q.step L st).delay ∧ (q.step L st).timersFresh := by
  obtain ⟨hd, hf⟩ := h
  cases st with
  | update snapshot =>
    exact ⟨by rw [presenceTracker.step, (Update_pos L q snapshot hd).2.1]; exact hd,
      Update_timersFresh L q snapshot hd hf⟩
  | fire k tm =>
    obtain ⟨f1, f2, f3, -⟩ := fireOffline_frame { q with armed := q.armed.erase tm } k tm
    refine ⟨by rw [presenceTracker.step, f1]; exact hd, ?_⟩
    intro k' t' hk'
    rw [presenceTracker.step, f2]
    exact hf k' t' (f3 k' t' hk')
  | receive => exact ⟨hd, hf⟩

theorem foldl_step_fresh (L : GoStrings) (steps : List TrackerStep) (q : presenceTracker)
    (h : 0 < q.delay ∧ q.timersFresh) :
    0 < (steps.foldl (presenceTracker.step L) q).delay ∧
      (steps.foldl (presenceTracker.step L) q).timersFresh := by
  induction steps generalizing q with
  | nil => exact h
  | cons st rest ih => exact ih _ (step_fresh L q st h)

/-- A step that spares the debounce of `key` keeps the recorded name of `key`
and queues no event under that name. -/
theorem step_queue_spared (L : GoStrings) (q : presenceTracker) (key n : String) (t : Nat)
    (E : List presenceEvent) (st : TrackerStep) (hs : st.spares L key t)
    (hdeb : q.debouncing key t) (hnamed : q.named L) (hn : mapGet q.names key = some n)
    (hq : ∃ i extra, q.events = E.drop i ++ extra ∧ ∀ e ∈ extra, e.Name ≠ n) :
    mapGet (q.step L st).names key = some n ∧
      ∃ i extra, (q.step L st).events = E.drop i ++ extra ∧ ∀ e ∈ extra, e.Name ≠ n := by
  obtain ⟨i, extra, hq1, hq2⟩ := hq
  obtain ⟨hd, hf, hon, ht⟩ := hdeb
  cases st with
  | update snapshot =>
    refine ⟨?_, i, extra, ?_, hq2⟩
    · rw [presenceTracker.step, Update_names_absent L q snapshot key hs]
      exact hn
    · rw [presenceTracker.step, (Update_pos L q snapshot hd).1]
      exact hq1
  | fire k tm =>
    refine ⟨?_, ?_⟩
    · rw [presenceTracker.step, fireOffline_names]
      exact hn
    · rcases fireOffline_events { q with armed := q.armed.erase tm } k tm with h | ⟨h1, h2, h3⟩
      · exact ⟨i, extra, by rw [presenceTracker.step, h]; exact hq1, hq2⟩
      · have hk : k ≠ key := by
          rintro rfl
          simp only at h2
          rw [ht] at h2
          cases h2
          rcases hs with hs | hs
          · exact hs rfl
          · exact hs rfl
        refine ⟨i, extra ++ [presenceTracker.offlineEvent { q with armed := q.armed.erase tm } k],
          ?_, ?_⟩
        · rw [presenceTracker.step, h3]
          simp only
          rw [hq1, List.append_assoc]
        · intro e he
          rcases List.mem_append.mp he with he | he
          · exact hq2 e he
          · rw [List.mem_singleton.mp he]
            simp only [presenceTracker.offlineEvent]
            intro hname
            simp only at h1
            have hsome := hnamed.2 k h1
            cases hk2 : mapGet q.names k with
            | none => rw [hk2] at hsome; cases hsome
            | some n2 =>
              rw [hk2] at hname
              simp only [Option.getD_some] at hname
              rw [hname] at hk2
              exact hk (named_inj L q hnamed k key n hk2 hn)
  | receive =>
    refine ⟨hn, ?_⟩
    obtain ⟨j, rest, h1, h2⟩ := queue_tail E i extra
    refine ⟨j, rest, ?_, fun e he => hq2 e (h2 e he)⟩
    simp only [presenceTracker.step]
    rw [hq1, h1]

theorem foldl_step_queue_spared (L : GoStrings) (key n : String) (t : Nat)
    (E : List presenceEvent) (steps : List TrackerStep) (q : presenceTracker)
    (hs : ∀ st ∈ steps, st.spares L key t)
    (hdeb : q.debouncing key t) (hnamed : q.named L) (hn : mapGet q.names key = some n)
    (hq : ∃ i extra, q.events = E.drop i ++ extra ∧ ∀ e ∈ extra, e.Name ≠ n) :
    ∃ i extra, (steps.foldl (presenceTracker.step L) q).events = E.drop i ++ extra ∧
      ∀ e ∈ extra, e.Name ≠ n := by
  induction steps generalizing q with
  | nil => exact hq
  | cons st rest ih =>
    rw [List.foldl_cons]
    have hst := hs st (List.mem_cons_self _ _)
    obtain ⟨h1, h2⟩ := step_queue_spared L q key n t E st hst hdeb hnamed hn hq
    exact ih _ (fun s hs2 => hs s (List.mem_cons_of_mem _ hs2))
      (step_debouncing L q key t st hst hdeb) (step_named L q st hnamed) h1 h2

/-- C8: on a tracker created with a positive delay, in any state it has
reached, let a target be online, absent from the snapshot of an `Update` and,
after any steps that leave its debounce alone (further snapshots without it,
callbacks of other timers, receives from the queue), present again in a later
snapshot. Then the first `Update` has registered a timer `t` for it which is
still the registered one when it reappears; the target is marked online in
every state in between and after its return; at every point in between the
queue is a rest of the queue from before the absence followed by events none
of which carries the name of the target, so no `Offline` event for it has been
queued; the two `Update` calls leave the queue as it is and return only
`Online` events, as every `Update` call does; the return removes the timer;
and from then on, after any further steps whatever, the callback of `t`
leaves the tracker as it is. -/
theorem debounce_reappearance_no_offline (L : GoStrings) (delay : Int)
    (before : List TrackerStep) (key : String)
    (gone : List String) (window : List TrackerStep) (back : List String)
    (hd : 0 < delay)
    (hon : mapGet (before.foldl (presenceTracker.step L) (newPresenceTracker delay)).online key =
      some true)
    (hgone : mapGet (presenceTracker.seenNow L gone) key = none)
    (hwin : ∀ st ∈ window, ∀ t,
      mapGet ((before.foldl (presenceTracker.step L) (newPresenceTracker delay)).Update
        L gone).1.timers key = some t → st.spares L key t)
    (hback : (mapGet (presenceTracker.seenNow L back) key).isSome) :
    let p := before.foldl (presenceTracker.step L) (newPresenceTracker delay)
    let p1 := (p.Update L gone).1
    let pm := window.foldl (presenceTracker.step L) p1
    let p2 := (pm.Update L back).1
    ∃ t, mapGet p1.timers key = some t ∧ mapGet pm.timers key = some t ∧
      (∀ m, mapGet ((window.take m).foldl (presenceTracker.step L) p1).online key =
        some true) ∧
      mapGet p2.online key = some true ∧
      mapGet p2.timers key = none ∧
      p1.events = p.events ∧ p2.events = pm.events ∧
      (∀ m, ∃ i extra,
        ((window.take m).foldl (presenceTracker.step L) p1).events = p.events.drop i ++ extra ∧
          ∀ e ∈ extra, e.Name ≠ (p.offlineEvent key).Name) ∧
      (∀ e ∈ (p.Update L gone).2 ++ (pm.Update L back).2, e.Online = true) ∧
      (∀ later : List TrackerStep,
        (later.foldl (presenceTracker.step L) p2).fireOffline key t =
          later.foldl (presenceTracker.step L) p2) ∧
      (∀ (r : presenceTracker) (snapshot : List String),
        ∀ e ∈ (r.Update L snapshot).2, e.Online = true) := by
  intro p p1 pm p2
  have h0 : 0 < (newPresenceTracker delay).delay ∧ (newPresenceTracker delay).timersFresh := by
    refine ⟨hd, ?_⟩
    intro k t hk
    simp [newPresenceTracker, mapGet] at hk
  obtain ⟨hpd, hf⟩ := foldl_step_fresh L before _ h0
  have hnamed : p.named L := foldl_step_named L before _ (newPresenceTracker_named L delay)
  obtain ⟨u1, u2, -, -, u5, -⟩ := Update_pos L p gone hpd
  obtain ⟨v1, -, v3⟩ := u5 key hgone
  have hon1 : mapGet p1.online key = some true := by rw [v1]; exact hon
  obtain ⟨n, hname⟩ : ∃ n, mapGet p.names key = some n :=
    Option.isSome_iff_exists.mp (hnamed.2 key hon)
  cases ht : mapGet p1.timers key with
  | none =>
    have := v3 hon
    rw [ht] at this
    cases this
  | some t =>
    have hwin2 : ∀ st ∈ window, st.spares L key t := fun st hst => hwin st hst t ht
    have hdeb1 : p1.debouncing key t :=
      ⟨by rw [u2]; exact hpd, Update_timersFresh L p gone hpd hf, hon1, ht⟩
    have hnamed1 : p1.named L := Update_named L p gone hnamed
    have hname1 : mapGet p1.names key = some n := by
      rw [Update_names_absent L p gone key hgone]
      exact hname
    have hdebm : pm.debouncing key t := foldl_step_debouncing L key t window p1 hwin2 hdeb1
    obtain ⟨hdm, hfm, -, htm⟩ := hdebm
    obtain ⟨w1, -, w3, -, -, w6⟩ := Update_pos L pm back hdm
    cases hn : mapGet (presenceTracker.seenNow L back) key with
    | none =>
      rw [hn] at hback
      cases hback
    | some n' =>
      obtain ⟨-, s2, s3⟩ := w6 key n' hn
      refine ⟨t, rfl, htm, ?_, s3, s2, u1, w1, ?_, ?_, ?_,
        fun r snapshot => Update_returns_online L r snapshot⟩
      · intro m
        exact (foldl_step_debouncing L key t (window.take m) p1
          (fun st hst => hwin2 st (List.mem_of_mem_take hst)) hdeb1).2.2.1
      · intro m
        have hE : ∃ i extra, p1.events = p.events.drop i ++ extra ∧ ∀ e ∈ extra, e.Name ≠ n :=
          ⟨0, [], by rw [u1]; simp, by simp⟩
        have := foldl_step_queue_spared L key n t p.events (window.take m) p1
          (fun st hst => hwin2 st (List.mem_of_mem_take hst)) hdeb1 hnamed1 hname1 hE
        simpa [presenceTracker.offlineEvent, hname] using this
      · intro e he
        rcases List.mem_append.mp he with h | h
        · exact Update_returns_online L p gone e h
        · exact Update_returns_online L pm back e h
      · intro later
        have hsup : 0 < p2.delay ∧ p2.superseded key t := by
          obtain ⟨-, w2, -, -, -, -⟩ := Update_pos L pm back hdm
          refine ⟨by rw [w2]; exact hdm, lt_of_lt_of_le (hfm key t htm) w3, ?_⟩
          rw [s2]
          exact fun h => by cases h
        exact fireOffline_mismatch _ key t
          (foldl_step_superseded L key t later p2 hsup).2.2

/-- C8, for `bob` beside `alice`, both seen and then absent (timers 0 and 1):
the callback of `alice` runs and queues her `Offline` event, `bob` is absent
once more and then back; the queue holds the event of `alice` alone, and the
callback of timer 1, run after `bob` is absent again, changes nothing. -/
theorem debounce_reappearance_no_offline_witness :
    ((0 : Int) < 5 ∧
        mapGet ([TrackerStep.update ["Alice", "Bob"]].foldl (presenceTracker.step asciiStrings)
          (newPresenceTracker 5)).online "bob" = some true ∧
        mapGet (presenceTracker.seenNow asciiStrings []) "bob" = none ∧
        (mapGet (presenceTracker.seenNow asciiStrings ["Bob"]) "bob").isSome) ∧
      ([TrackerStep.fire "alice" 0, TrackerStep.update []].foldl
          (presenceTracker.step asciiStrings)
          (([TrackerStep.update ["Alice", "Bob"]].foldl (presenceTracker.step asciiStrings)
            (newPresenceTracker 5)).Update asciiStrings []).1).events =
        [{ Name := "Alice", Online := false }] ∧
      ∃ t, mapGet
          (([TrackerStep.update ["Alice", "Bob"]].foldl (presenceTracker.step asciiStrings)
            (newPresenceTracker 5)).Update asciiStrings []).1.timers "bob" = some t ∧
        presenceTracker.fireOffline
            ([TrackerStep.update []].foldl (presenceTracker.step asciiStrings)
              ((([TrackerStep.fire "alice" 0, TrackerStep.update []].foldl
                (presenceTracker.step asciiStrings)
                (([TrackerStep.update ["Alice", "Bob"]].foldl (presenceTracker.step asciiStrings)
                  (newPresenceTracker 5)).Update asciiStrings []).1).Update
                    asciiStrings ["Bob"]).1))
            "bob" t =
          [TrackerStep.update []].foldl (presenceTracker.step asciiStrings)
            ((([TrackerStep.fire "alice" 0, TrackerStep.update []].foldl
              (presenceTracker.step asciiStrings)
              (([TrackerStep.update ["Alice", "Bob"]].foldl (presenceTracker.step asciiStrings)
                (newPresenceTracker 5)).Update asciiStrings []).1).Update
                  asciiStrings ["Bob"]).1) :=
  ⟨⟨by decide, by decide, by decide, by decide⟩, by decide,
    (debounce_reappearance_no_offline asciiStrings 5 [TrackerStep.update ["Alice", "Bob"]] "bob"
      [] [TrackerStep.fire "alice" 0, TrackerStep.update []] ["Bob"]
      (by decide) (by decide) (by decide)
      (by
        intro st hst t _
        simp only [List.mem_cons, List.mem_singleton, List.not_mem_nil, or_false] at hst
        rcases hst with rfl | rfl
        · exact Or.inl (by decide)
        · exact (by decide : mapGet (presenceTracker.seenNow asciiStrings []) "bob" = none))
      (by decide)).elim
      (fun t h => ⟨t, h.1, h.2.2.2.2.2.2.2.2.2.1 [TrackerStep.update []]⟩)⟩

/-- C9: two names with the same trimmed, lower-cased key are one target. From
an empty tracker, `Update [n1]` then `Update [n2]` returns one `Online` event
in total, on the first call, tracks one target, and `CurrentOnline` is the
one-element list holding the trimmed name seen last; one snapshot with both
names returns one `Online` event and leaves one target online. -/
theorem same_key_one_target (L : GoStrings) (delay : Int) (n1 n2 : String)
    (h1 : L.TrimSpace n1 ≠ "") (h2 : L.TrimSpace n2 ≠ "")
    (hk : L.ToLower (L.TrimSpace n1) = L.ToLower (L.TrimSpace n2)) :
    let first := (newPresenceTracker delay).Update L [n1]
    let second := first.1.Update L [n2]
    let both := (newPresenceTracker delay).Update L [n1, n2]
    first.2 = [{ Name := L.TrimSpace n1, Online := true }] ∧
      second.2 = [] ∧
      second.1.online = [(L.ToLower (L.TrimSpace n2), true)] ∧
      second.1.CurrentOnline = [L.TrimSpace n2] ∧
      second.1.events = [] ∧
      both.2 = [{ Name := L.TrimSpace n2, Online := true }] ∧
      both.1.online = [(L.ToLower (L.TrimSpace n2), true)] ∧
      both.1.CurrentOnline = [L.TrimSpace n2] := by
  intro first second both
  have hfirst : first = ({ newPresenceTracker delay with
      online := [(L.ToLower (L.TrimSpace n2), true)]
      names := [(L.ToLower (L.TrimSpace n2), L.TrimSpace n1)] },
      [{ Name := L.TrimSpace n1, Online := true }]) := by
    simp [first, presenceTracker.Update, presenceTracker.seenNow, h1, hk, mapSet, mapGet,
      presenceTracker.markSeen, presenceTracker.markAbsent, newPresenceTracker]
  have hsecond : second = ({ newPresenceTracker delay with
      online := [(L.ToLower (L.TrimSpace n2), true)]
      names := [(L.ToLower (L.TrimSpace n2), L.TrimSpace n2)] }, []) := by
    simp [second, hfirst, presenceTracker.Update, presenceTracker.seenNow, h2, mapSet, mapGet,
      presenceTracker.markSeen, presenceTracker.markAbsent, newPresenceTracker]
  have hboth : both = ({ newPresenceTracker delay with
      online := [(L.ToLower (L.TrimSpace n2), true)]
      names := [(L.ToLower (L.TrimSpace n2), L.TrimSpace n2)] },
      [{ Name := L.TrimSpace n2, Online := true }]) := by
    simp [both, presenceTracker.Update, presenceTracker.seenNow, h1, h2, hk, mapSet, mapGet,
      presenceTracker.markSeen, presenceTracker.markAbsent, newPresenceTracker]
  have hcur : presenceTracker.CurrentOnline { newPresenceTracker delay with
      online := [(L.ToLower (L.TrimSpace n2), true)]
      names := [(L.ToLower (L.TrimSpace n2), L.TrimSpace n2)] } = [L.TrimSpace n2] := by
    simp [presenceTracker.CurrentOnline, mapGet, h2, sortStrings, insertSorted]
  rw [hfirst, hsecond, hboth]
  exact ⟨rfl, rfl, rfl, hcur, rfl, rfl, rfl, hcur⟩

/-- C9, for `Phone` then `phone` on ASCII strings. -/
theorem same_key_one_target_witness :
    (asciiStrings.TrimSpace "Phone" ≠ "" ∧ asciiStrings.TrimSpace "phone" ≠ "" ∧
        asciiStrings.ToLower (asciiStrings.TrimSpace "Phone") =
          asciiStrings.ToLower (asciiStrings.TrimSpace "phone")) ∧
      ((newPresenceTracker 0).Update asciiStrings ["Phone"]).2 =
        [{ Name := "Phone", Online := true }] ∧
      (((newPresenceTracker 0).Update asciiStrings ["Phone"]).1.Update asciiStrings
        ["phone"]).2 = [] ∧
      (((newPresenceTracker 0).Update asciiStrings ["Phone"]).1.Update asciiStrings
        ["phone"]).1.CurrentOnline = ["phone"] :=
  ⟨⟨by decide, by decide, by decide⟩,
    (same_key_one_target asciiStrings 0 "Phone" "phone" (by decide) (by decide)
      (by decide)).1.trans (by decide),
    (same_key_one_target asciiStrings 0 "Phone" "phone" (by decide) (by decide)
      (by decide)).2.1,
    (same_key_one_target asciiStrings 0 "Phone" "phone" (by decide) (by decide)
      (by decide)).2.2.2.1.trans (by decide)⟩

/-! ## Theorems: the event queue -/

/-- C12 as stated fails: on a queue of 32 pending events `emit` keeps the oldest
event at the head and does not enqueue the new one. -/
theorem emit_full_keeps_oldest :
    (presenceTracker.emit
          { newPresenceTracker 0 with
            events := { Name := "oldest", Online := true } ::
              List.replicate 31 { Name := "later", Online := true } }
          { Name := "new", Online := false }).events.length = 32 ∧
      (presenceTracker.emit
          { newPresenceTracker 0 with
            events := { Name := "oldest", Online := true } ::
              List.replicate 31 { Name := "later", Online := true } }
          { Name := "new", Online := false }).events ≠
        List.replicate 31 { Name := "later", Online := true } ++
          [{ Name := "new", Online := false }] ∧
      (presenceTracker.emit
          { newPresenceTracker 0 with
            events := { Name := "oldest", Online := true } ::
              List.replicate 31 { Name := "later", Online := true } }
          { Name := "new", Online := false }).events.head? =
        some { Name := "oldest", Online := true } ∧
      ({ Name := "new", Online := false } : presenceEvent) ∉
        (presenceTracker.emit
          { newPresenceTracker 0 with
            events := { Name := "oldest", Online := true } ::
              List.replicate 31 { Name := "later", Online := true } }
          { Name := "new", Online := false }).events := by
  decide

/-- C12, amended: `emit` never blocks; with fewer than 32 pending events it
appends the new event at the tail of the queue, and on a full queue it drops
the new event and leaves the tracker, the 32 pending events included, as it
was. -/
theorem emit_drops_new_when_full (p : presenceTracker) (evt : presenceEvent) :
    (p.events.length < 32 → p.emit evt = { p with events := p.events ++ [evt] }) ∧
      (32 ≤ p.events.length → p.emit evt = p) := by
  constructor
  · intro h
    simp [presenceTracker.emit, eventsCapacity, h]
  · intro h
    simp [presenceTracker.emit, eventsCapacity, Nat.not_lt.mpr h]

/-- C12 amended, at an empty queue and at a full one. -/
theorem emit_drops_new_when_full_witness :
    ((newPresenceTracker 0).events.length < 32 ∧
        (newPresenceTracker 0).emit { Name := "a", Online := false } =
          { newPresenceTracker 0 with events := [{ Name := "a", Online := false }] }) ∧
      (32 ≤ (List.replicate 32 ({ Name := "x", Online := true } : presenceEvent)).length ∧
        presenceTracker.emit
            { newPresenceTracker 0 with
              events := List.replicate 32 { Name := "x", Online := true } }
            { Name := "a", Online := false } =
          { newPresenceTracker 0 with
            events := List.replicate 32 { Name := "x", Online := true } }) :=
  ⟨⟨by decide,
      (emit_drops_new_when_full (newPresenceTracker 0) { Name := "a", Online := false }).1
        (by decide)⟩,
    ⟨by decide,
      (emit_drops_new_when_full
        { newPresenceTracker 0 with events := List.replicate 32 { Name := "x", Online := true } }
        { Name := "a", Online := false }).2 (by decide)⟩⟩

/-! ## Theorems: the reason list and the notifications -/

theorem presence_prefix_ne_none (x : String) : "presence:" ++ x ≠ "none" := by
  intro h
  have h2 := congrArg String.data h
  rw [String.data_append] at h2
  simp at h2

theorem presenceReason_ne_none (a : app) : a.presenceReason ≠ "none" := by
  unfold app.presenceReason
  split
  · exact presence_prefix_ne_none _
  · decide

theorem pauseReasonsLocked_table (a : app) :
    a.pauseReasonsLocked =
      if ((a.reasonTable.filter (fun e => e.1)).map Prod.snd) = [] then ["none"]
      else (a.reasonTable.filter (fun e => e.1)).map Prod.snd := by
  have hlen : (a.onlineTargets.length > 0) ↔ a.onlineTargets ≠ [] := by
    cases a.onlineTargets <;> simp
  simp only [app.pauseReasonsLocked, app.reasonTable, app.presenceReason, hlen]
  by_cases ho : a.onlineTargets = [] <;>
    cases a.pausedBySchedule <;> cases a.pausedByMotion <;> cases a.pausedByPresence <;>
    cases a.forcePlay <;> cases a.pausedByManual <;> simp [ho]

theorem pauseReasonsLocked_none_iff (a : app) :
    a.pauseReasonsLocked = ["none"] ↔
      (a.pausedBySchedule = false ∧ a.pausedByMotion = false ∧
        a.pausedByPresence = false ∧ a.forcePlay = false ∧ a.pausedByManual = false) := by
  have hp := presenceReason_ne_none a
  rw [pauseReasonsLocked_table]
  simp only [app.reasonTable]
  cases a.pausedBySchedule <;> cases a.pausedByMotion <;> cases a.pausedByPresence <;>
    cases a.forcePlay <;> cases a.pausedByManual <;> simp [hp]

/-- C18: `pauseReasonsLocked` returns the entries of "quiet hours", "motion",
the presence entry, "forced play", "manual" that `pausedBySchedule`,
`pausedByMotion`, `pausedByPresence`, `forcePlay`, `pausedByManual` select, in
that order; the presence entry is "presence:" followed by the online targets
joined with ", " when there are any and "presence" otherwise; the list is
`["none"]` exactly when all five signals are false. -/
theorem pauseReasonsLocked_selects (a : app) :
    a.reasonTable =
        [(a.pausedBySchedule, "quiet hours"), (a.pausedByMotion, "motion"),
          (a.pausedByPresence,
            if a.onlineTargets ≠ [] then "presence:" ++ stringsJoin a.onlineTargets ", "
            else "presence"),
          (a.forcePlay, "forced play"), (a.pausedByManual, "manual")] ∧
      a.pauseReasonsLocked =
        (if a.pausedBySchedule = false ∧ a.pausedByMotion = false ∧
            a.pausedByPresence = false ∧ a.forcePlay = false ∧ a.pausedByManual = false
          then ["none"]
          else (a.reasonTable.filter (fun e => e.1)).map Prod.snd) ∧
      (a.pauseReasonsLocked = ["none"] ↔
        (a.pausedBySchedule = false ∧ a.pausedByMotion = false ∧
          a.pausedByPresence = false ∧ a.forcePlay = false ∧ a.pausedByManual = false)) := by
  refine ⟨rfl, ?_, pauseReasonsLocked_none_iff a⟩
  rw [pauseReasonsLocked_table]
  simp only [app.reasonTable]
  cases a.pausedBySchedule <;> cases a.pausedByMotion <;> cases a.pausedByPresence <;>
    cases a.forcePlay <;> cases a.pausedByManual <;> simp

theorem applyState_to_paused (a : app) (trigger : String) (h : a.shouldPause = true)
    (hp : a.paused = false) :
    a.applyState trigger =
      { a with
        paused := true
        player := a.player.setPaused true
        trace := a.trace ++ Effect.setPaused true :: notifyEffects a.notifier
          ("Playback paused (" ++ trigger ++ "). Reasons: " ++
            stringsJoin a.pauseReasonsLocked ", " ++ ". Current: " ++ a.currentFile) } := by
  unfold app.applyState
  cases hn : a.notifier <;> simp [h, hp, app.notify, notifyEffects, hn] <;> rfl

theorem applyState_to_playing (a : app) (trigger : String) (h : a.shouldPause = false)
    (hp : a.paused = true) :
    a.applyState trigger =
      { a with
        paused := false
        player := a.player.setPaused false
        trace := a.trace ++ Effect.setPaused false :: notifyEffects a.notifier
          ("Playback resumed (" ++ trigger ++ "). Current: " ++ a.currentFile) } := by
  unfold app.applyState
  cases hn : a.notifier <;> simp [h, hp, app.notify, notifyEffects, hn]

/-- C19: whenever the decision rule yields paused, `pauseReasonsLocked` is not
the fallback `["none"]` and holds one of "quiet hours", "motion", the presence
entry or "manual"; so the notification `applyState` emits on a transition to
paused is built from a reason list other than `["none"]`. -/
theorem paused_reasons_not_none (a : app) (trigger : String)
    (h : decisionRule a.signals = true) :
    a.pauseReasonsLocked ≠ ["none"] ∧
      ("quiet hours" ∈ a.pauseReasonsLocked ∨ "motion" ∈ a.pauseReasonsLocked ∨
        a.presenceReason ∈ a.pauseReasonsLocked ∨ "manual" ∈ a.pauseReasonsLocked) ∧
      (a.paused = false →
        (a.applyState trigger).trace =
          a.trace ++ Effect.setPaused true :: notifyEffects a.notifier
            ("Playback paused (" ++ trigger ++ "). Reasons: " ++
              stringsJoin a.pauseReasonsLocked ", " ++ ". Current: " ++ a.currentFile)) := by
  have hs : a.shouldPause = true := by rw [shouldPause_eq]; exact h
  refine ⟨?_, ?_, ?_⟩
  · intro hnone
    have hall := (pauseReasonsLocked_none_iff a).mp hnone
    obtain ⟨h1, h2, h3, h4, h5⟩ := hall
    simp [decisionRule, app.signals, h1, h2, h3, h4, h5] at h
  · rw [pauseReasonsLocked_table]
    simp only [decisionRule, app.signals] at h
    simp only [app.reasonTable]
    revert h
    cases a.pausedBySchedule <;> cases a.pausedByMotion <;> cases a.pausedByPresence <;>
      cases a.forcePlay <;> cases a.pausedByManual <;> simp
  · intro hp
    rw [applyState_to_paused a trigger hs hp]

/-- C19, at a state with presence detected. -/
theorem paused_reasons_not_none_witness :
    decisionRule (app.signals { newApp newAudioPlayer true 0 with
        pausedByPresence := true, onlineTargets := ["Alice"] }) = true ∧
      app.pauseReasonsLocked { newApp newAudioPlayer true 0 with
        pausedByPresence := true, onlineTargets := ["Alice"] } ≠ ["none"] :=
  ⟨by decide,
    (paused_reasons_not_none { newApp newAudioPlayer true 0 with
      pausedByPresence := true, onlineTargets := ["Alice"] } "t" (by decide)).1⟩

theorem textContains_mid (pre part post : String) :
    textContains (pre ++ part ++ post) part := by
  simp only [textContains, String.data_append]
  exact ⟨pre.data, post.data, rfl⟩

theorem textContains_end (pre part : String) : textContains (pre ++ part) part := by
  simp only [textContains, String.data_append]
  exact ⟨pre.data, [], by simp⟩

/-- C20 as stated fails: when `play` forces playback on during quiet hours the
one notification of the transition is "Playback resumed (telegram). Current:
a.mp3", which does not contain the active reasons "quiet hours, forced play". -/
theorem resume_notification_without_reasons :
    app.shouldPause { newApp newAudioPlayer true 0 with
        paused := true, pausedBySchedule := true, forcePlay := true,
        currentFile := "a.mp3" } = false ∧
      notifications (app.applyState { newApp newAudioPlayer true 0 with
        paused := true, pausedBySchedule := true, forcePlay := true,
        currentFile := "a.mp3" } "telegram").trace =
        ["Playback resumed (telegram). Current: a.mp3"] ∧
      stringsJoin (app.pauseReasonsLocked { newApp newAudioPlayer true 0 with
        paused := true, pausedBySchedule := true, forcePlay := true,
        currentFile := "a.mp3" }) ", " = "quiet hours, forced play" ∧
      ¬ textContains "Playback resumed (telegram). Current: a.mp3"
        (stringsJoin (app.pauseReasonsLocked { newApp newAudioPlayer true 0 with
          paused := true, pausedBySchedule := true, forcePlay := true,
          currentFile := "a.mp3" }) ", ") := by
  refine ⟨by decide, by decide, by decide, ?_⟩
  simp only [textContains]
  decide

/-- C20, amended: on every transition of the decision `applyState` emits one
notification whose text contains the trigger name and the currently playing
item; on a transition to paused the text also contains the active reasons
joined with ", "; on a transition to playing the text is "Playback resumed
(trigger). Current: item" and holds no reason list. -/
theorem transition_notification_text (a : app) (trigger : String)
    (h : a.shouldPause ≠ a.paused) :
    ∃ msg, (a.applyState trigger).trace =
        a.trace ++ Effect.setPaused a.shouldPause :: notifyEffects a.notifier msg ∧
      notifications (a.applyState trigger).trace = notifications a.trace ++ [msg] ∧
      textContains msg trigger ∧ textContains msg a.currentFile ∧
      (a.shouldPause = true →
        msg = "Playback paused (" ++ trigger ++ "). Reasons: " ++
            stringsJoin a.pauseReasonsLocked ", " ++ ". Current: " ++ a.currentFile ∧
          textContains msg (stringsJoin a.pauseReasonsLocked ", ")) ∧
      (a.shouldPause = false →
        msg = "Playback resumed (" ++ trigger ++ "). Current: " ++ a.currentFile) := by
  cases hs : a.shouldPause with
  | true =>
    have hp : a.paused = false := by
      cases hpp : a.paused with
      | false => rfl
      | true => rw [hs, hpp] at h; exact absurd rfl h
    refine ⟨"Playback paused (" ++ trigger ++ "). Reasons: " ++
      stringsJoin a.pauseReasonsLocked ", " ++ ". Current: " ++ a.currentFile,
      ?_, ?_, ?_, ?_, ?_, ?_⟩
    · rw [applyState_to_paused a trigger hs hp]
    · rw [applyState_to_paused a trigger hs hp]
      exact notifications_transition _ _ _ _
    · have := textContains_mid "Playback paused (" trigger
        ("). Reasons: " ++ stringsJoin a.pauseReasonsLocked ", " ++ ". Current: " ++
          a.currentFile)
      simpa [String.append_assoc] using this
    · exact textContains_end _ _
    · intro _
      refine ⟨rfl, ?_⟩
      have := textContains_mid ("Playback paused (" ++ trigger ++ "). Reasons: ")
        (stringsJoin a.pauseReasonsLocked ", ") (". Current: " ++ a.currentFile)
      simpa [String.append_assoc] using this
    · intro hf
      cases hf
  | false =>
    have hp : a.paused = true := by
      cases hpp : a.paused with
      | true => rfl
      | false => rw [hs, hpp] at h; exact absurd rfl h
    refine ⟨"Playback resumed (" ++ trigger ++ "). Current: " ++ a.currentFile,
      ?_, ?_, ?_, ?_, ?_, ?_⟩
    · rw [applyState_to_playing a trigger hs hp]
    · rw [applyState_to_playing a trigger hs hp]
      exact notifications_transition _ _ _ _
    · have := textContains_mid "Playback resumed (" trigger ("). Current: " ++ a.currentFile)
      simpa [String.append_assoc] using this
    · exact textContains_end _ _
    · intro hf
      cases hf
    · intro _
      rfl

/-- C20 amended, at the resume forced by `play` during quiet hours. -/
theorem transition_notification_text_witness :
    app.shouldPause { newApp newAudioPlayer true 0 with
        paused := true, pausedBySchedule := true, forcePlay := true,
        currentFile := "a.mp3" } ≠
      app.paused { newApp newAudioPlayer true 0 with
        paused := true, pausedBySchedule := true, forcePlay := true,
        currentFile := "a.mp3" } ∧
      ∃ msg, notifications (app.applyState { newApp newAudioPlayer true 0 with
          paused := true, pausedBySchedule := true, forcePlay := true,
          currentFile := "a.mp3" } "telegram").trace =
        notifications (app.trace { newApp newAudioPlayer true 0 with
          paused := true, pausedBySchedule := true, forcePlay := true,
          currentFile := "a.mp3" }) ++ [msg] ∧ textContains msg "telegram" :=
  ⟨by decide,
    (transition_notification_text { newApp newAudioPlayer true 0 with
      paused := true, pausedBySchedule := true, forcePlay := true,
      currentFile := "a.mp3" } "telegram" (by decide)).elim
      (fun msg h => ⟨msg, h.2.1, h.2.2.1⟩)⟩

/-- C15 fails on the code: the callback of the motion-resume timer compares no
handle. Motion is reported, then cleared (timer 0 is registered); timer 0
expires and its callback waits; motion is reported again, which finds the
timer already fired and clears the registration; the waiting callback then
runs and sets `pausedByMotion` to false and resumes the player while motion is
still detected. Likewise when a second clearing has registered timer 1: the
late callback of timer 0 resumes at once. -/
theorem stale_motion_timer_resumes :
    ((((newApp newAudioPlayer true 0).handleMotionUpdate true ["cam"]).handleMotionUpdate
          false []).motionTimer = some 0) ∧
      (((((newApp newAudioPlayer true 0).handleMotionUpdate true ["cam"]).handleMotionUpdate
          false []).motionTimerExpires 0).handleMotionUpdate true ["cam"]).motionTimer = none ∧
      (((((newApp newAudioPlayer true 0).handleMotionUpdate true ["cam"]).handleMotionUpdate
          false []).motionTimerExpires 0).handleMotionUpdate true ["cam"]).pausedByMotion = true ∧
      (((((newApp newAudioPlayer true 0).handleMotionUpdate true ["cam"]).handleMotionUpdate
          false []).motionTimerExpires 0).handleMotionUpdate true ["cam"]).paused = true ∧
      ((((((newApp newAudioPlayer true 0).handleMotionUpdate true ["cam"]).handleMotionUpdate
          false []).motionTimerExpires 0).handleMotionUpdate true
            ["cam"]).motionTimerCallback).lastMotion = true ∧
      ((((((newApp newAudioPlayer true 0).handleMotionUpdate true ["cam"]).handleMotionUpdate
          false []).motionTimerExpires 0).handleMotionUpdate true
            ["cam"]).motionTimerCallback).pausedByMotion = false ∧
      ((((((newApp newAudioPlayer true 0).handleMotionUpdate true ["cam"]).handleMotionUpdate
          false []).motionTimerExpires 0).handleMotionUpdate true
            ["cam"]).motionTimerCallback).paused = false ∧
      playerCalls ((((((newApp newAudioPlayer true 0).handleMotionUpdate true
          ["cam"]).handleMotionUpdate false []).motionTimerExpires 0).handleMotionUpdate true
            ["cam"]).motionTimerCallback).trace = [true, false] ∧
      (((((newApp newAudioPlayer true 0).handleMotionUpdate true ["cam"]).handleMotionUpdate
          false []).motionTimerExpires 0).handleMotionUpdate false []).motionTimer = some 1 ∧
      ((((((newApp newAudioPlayer true 0).handleMotionUpdate true ["cam"]).handleMotionUpdate
          false []).motionTimerExpires 0).handleMotionUpdate false
            []).motionTimerCallback).pausedByMotion = false ∧
      ((((((newApp newAudioPlayer true 0).handleMotionUpdate true ["cam"]).handleMotionUpdate
          false []).motionTimerExpires 0).handleMotionUpdate false
            []).motionTimerCallback).armed = [1] := by
  decide

/-! ## Theorems: automatic updates and the manual override -/

theorem manualKept_refl (a : app) : a.manualKept a :=
  ⟨rfl, rfl, ⟨[], by simp, fun _ => by simp [playerCalls], fun _ _ => rfl⟩, fun _ h => h⟩

theorem manualKept_trans (a b c : app) (h1 : a.manualKept b) (h2 : b.manualKept c) :
    a.manualKept c := by
  obtain ⟨m1, f1, ⟨s1, t1, n1, e1⟩, p1⟩ := h1
  obtain ⟨m2, f2, ⟨s2, t2, n2, e2⟩, p2⟩ := h2
  refine ⟨by rw [m2, m1], by rw [f2, f1], ⟨s1 ++ s2, by rw [t2, t1, List.append_assoc], ?_, ?_⟩,
    ?_⟩
  · intro hm
    rw [playerCalls_append, List.mem_append]
    rintro (h | h)
    · exact n1 hm h
    · exact n2 (by rw [m1]; exact hm) h
  · intro hm hp
    rw [playerCalls_append, e1 hm hp, e2 (by rw [m1]; exact hm) (p1 hm hp)]
    rfl
  · intro hm hp
    exact p2 (by rw [m1]; exact hm) (p1 hm hp)

/-- A change that touches neither the manual signals, nor the cached flag, nor
the trace. -/
theorem manualKept_of_frame (a b : app) (hm : b.pausedByManual = a.pausedByManual)
    (hf : b.forcePlay = a.forcePlay) (ht : b.trace = a.trace) (hp : b.paused = a.paused) :
    a.manualKept b :=
  ⟨hm, hf, ⟨[], by simp [ht], fun _ => by simp [playerCalls], fun _ _ => rfl⟩,
    fun _ h => by rw [hp]; exact h⟩

theorem shouldPause_of_manual (a : app) (h : a.pausedByManual = true) :
    a.shouldPause = true := by
  simp [app.shouldPause, h]

theorem manualKept_applyState (a : app) (trigger : String) :
    a.manualKept (a.applyState trigger) := by
  obtain ⟨suffix, ht, hc⟩ := applyState_trace a trigger
  refine ⟨applyState_pausedByManual a trigger, applyState_forcePlay a trigger,
    ⟨suffix, ht, ?_, ?_⟩, ?_⟩
  · intro hm
    rw [hc, shouldPause_of_manual a hm]
    split <;> simp
  · intro hm hp
    rw [hc, shouldPause_of_manual a hm, hp]
    simp
  · intro hm _
    rw [applyState_paused, shouldPause_of_manual a hm]

theorem notify_fields (a : app) (msg : String) :
    (a.notify msg).pausedByManual = a.pausedByManual ∧
      (a.notify msg).forcePlay = a.forcePlay ∧
      (a.notify msg).paused = a.paused ∧
      (a.notify msg).pausedByPresence = a.pausedByPresence ∧
      (a.notify msg).onlineTargets = a.onlineTargets ∧
      (a.notify msg).presence = a.presence ∧
      (a.notify msg).trace = a.trace ++ notifyEffects a.notifier msg := by
  unfold app.notify
  cases hn : a.notifier <;> simp [notifyEffects, hn]

theorem playerCalls_notifyEffects (n : Bool) (msg : String) :
    playerCalls (notifyEffects n msg) = [] := by
  cases n <;> simp [playerCalls, notifyEffects]

theorem manualKept_notify (a : app) (msg : String) : a.manualKept (a.notify msg) := by
  obtain ⟨h1, h2, h3, -, -, -, h7⟩ := notify_fields a msg
  refine ⟨h1, h2, ⟨_, h7, ?_, ?_⟩, ?_⟩
  · intro _
    rw [playerCalls_notifyEffects]
    simp
  · intro _ _
    exact playerCalls_notifyEffects _ _
  · intro _ hp
    rw [h3]
    exact hp

theorem manualKept_setSchedulePause (a : app) (v : Bool) (t : String) :
    a.manualKept (a.setSchedulePause v t) :=
  manualKept_trans _ _ _
    (manualKept_of_frame a { a with pausedBySchedule := v } rfl rfl rfl rfl)
    (manualKept_applyState _ t)

theorem manualKept_setPresencePause (a : app) (v : Bool) (t : String) :
    a.manualKept (a.setPresencePause v t) :=
  manualKept_trans _ _ _
    (manualKept_of_frame a { a with pausedByPresence := v } rfl rfl rfl rfl)
    (manualKept_applyState _ t)

theorem manualKept_setMotionPause (a : app) (v : Bool) (t : String) :
    a.manualKept (a.setMotionPause v t) := by
  unfold app.setMotionPause
  apply manualKept_trans _ _ _ _ (manualKept_applyState _ t)
  cases v <;> cases a.motionTimer <;> exact manualKept_of_frame _ _ rfl rfl rfl rfl

theorem manualKept_handleMotionUpdate (a : app) (d : Bool) (names : List String) :
    a.manualKept (a.handleMotionUpdate d names) := by
  cases d with
  | true =>
    simp only [app.handleMotionUpdate, if_true]
    refine manualKept_trans _ _ _ (manualKept_of_frame a { a with lastMotion := true }
      rfl rfl rfl rfl) ?_
    refine manualKept_trans _ (app.setMotionPause { a with lastMotion := true } true
      ("motion detected (" ++ stringsJoin names ", " ++ ")")) _
      (manualKept_setMotionPause _ true _) ?_
    exact manualKept_of_frame _ _ (startMotionSnapshots_pausedByManual _)
      (startMotionSnapshots_forcePlay _) (startMotionSnapshots_trace _)
      (startMotionSnapshots_paused _)
  | false =>
    simp only [app.handleMotionUpdate, Bool.false_eq_true, if_false]
    refine manualKept_trans _ _ _ (manualKept_of_frame a { a with lastMotion := false }
      rfl rfl rfl rfl) ?_
    refine manualKept_trans _ _ _ (manualKept_of_frame _ _
      (stopMotionSnapshots_pausedByManual _) (stopMotionSnapshots_forcePlay _)
      (stopMotionSnapshots_trace _) (stopMotionSnapshots_paused _)) ?_
    unfold app.startMotionResumeTimer
    cases (app.stopMotionSnapshots { a with lastMotion := false }).motionTimer <;>
      exact manualKept_of_frame _ _ rfl rfl rfl rfl

theorem manualKept_motionTimerCallback (a : app) : a.manualKept a.motionTimerCallback :=
  manualKept_setMotionPause a false _

theorem manualKept_fireMotionTimer (a : app) (t : Nat) :
    a.manualKept (a.fireMotionTimer t) := by
  unfold app.fireMotionTimer
  split
  · exact manualKept_trans _ _ _
      (manualKept_of_frame a { a with armed := a.armed.erase t } rfl rfl rfl rfl)
      (manualKept_motionTimerCallback _)
  · exact manualKept_refl a

theorem manualKept_applyPresenceState (a : app) : a.manualKept a.applyPresenceState := by
  unfold app.applyPresenceState
  simp only
  split
  · exact manualKept_of_frame _ _ rfl rfl rfl rfl
  · split
    · exact manualKept_trans _ _ _
        (manualKept_of_frame a { a with onlineTargets := a.presence.CurrentOnline }
          rfl rfl rfl rfl)
        (manualKept_setPresencePause _ _ _)
    · exact manualKept_trans _ _ _
        (manualKept_of_frame a { a with onlineTargets := a.presence.CurrentOnline }
          rfl rfl rfl rfl)
        (manualKept_setPresencePause _ _ _)

theorem manualKept_handlePresenceEvent (a : app) (evt : presenceEvent) :
    a.manualKept (a.handlePresenceEvent evt) := by
  unfold app.handlePresenceEvent
  simp only
  refine manualKept_trans _ _ _ ?_ (manualKept_applyPresenceState _)
  split
  · exact manualKept_notify _ _
  · exact manualKept_notify _ _

theorem manualKept_foldl_handlePresenceEvent (evts : List presenceEvent) (a : app) :
    a.manualKept (evts.foldl app.handlePresenceEvent a) := by
  induction evts generalizing a with
  | nil => exact manualKept_refl a
  | cons e rest ih =>
    exact manualKept_trans _ _ _ (manualKept_handlePresenceEvent a e) (ih _)

theorem manualKept_handlePresenceUpdate (L : GoStrings) (a : app) (online : List String) :
    a.manualKept (a.handlePresenceUpdate L online) := by
  unfold app.handlePresenceUpdate
  simp only
  refine manualKept_trans _ _ _
    (manualKept_of_frame a { a with presence := (a.presence.Update L online).1 }
      rfl rfl rfl rfl) ?_
  exact manualKept_trans _ _ _ (manualKept_foldl_handlePresenceEvent _ _)
    (manualKept_applyPresenceState _)

theorem manualKept_auto (L : GoStrings) (a : app) (u : AutoUpdate) :
    a.manualKept (a.auto L u) := by
  cases u with
  | setSchedulePause v t => exact manualKept_setSchedulePause a v t
  | handleMotionUpdate d names => exact manualKept_handleMotionUpdate a d names
  | setMotionPause v t => exact manualKept_setMotionPause a v t
  | fireMotionTimer t => exact manualKept_fireMotionTimer a t
  | motionTimerCallback => exact manualKept_motionTimerCallback a
  | handlePresenceUpdate online => exact manualKept_handlePresenceUpdate L a online
  | handlePresenceEvent evt => exact manualKept_handlePresenceEvent a evt
  | setPresencePause v t => exact manualKept_setPresencePause a v t

theorem manualKept_foldl_auto (L : GoStrings) (us : List AutoUpdate) (a : app) :
    a.manualKept (us.foldl (app.auto L) a) := by
  induction us generalizing a with
  | nil => exact manualKept_refl a
  | cons u rest ih => exact manualKept_trans _ _ _ (manualKept_auto L a u) (ih _)

/-- C13: each of the five setters writes its own signal and leaves the other
four as they were; no sequence of automatic updates (schedule, motion with the
resume timer and its callback, presence) changes `pausedByManual` or
`forcePlay`; and from a state under manual pause such a sequence issues no
`player.setPaused false`, and from a paused one no player call at all, the
flag staying paused. -/
theorem automatic_updates_keep_manual (L : GoStrings) (a : app) (c : SetterCall)
    (updates : List AutoUpdate) :
    (a.call c).signals = c.assign a.signals ∧
      (updates.foldl (app.auto L) a).pausedByManual = a.pausedByManual ∧
      (updates.foldl (app.auto L) a).forcePlay = a.forcePlay ∧
      (a.pausedByManual = true →
        ∃ suffix, (updates.foldl (app.auto L) a).trace = a.trace ++ suffix ∧
          false ∉ playerCalls suffix ∧
          (a.paused = true →
            playerCalls suffix = [] ∧ (updates.foldl (app.auto L) a).paused = true)) := by
  obtain ⟨hm, hf, ⟨suffix, ht, hn, he⟩, hp⟩ := manualKept_foldl_auto L updates a
  refine ⟨?_, hm, hf, ?_⟩
  · obtain ⟨b, trigger, hcall, hsig, -⟩ := call_eq_applyState a c
    rw [hcall, applyState_signals, hsig]
  · intro hman
    exact ⟨suffix, ht, hn hman, fun hpaused => ⟨he hman hpaused, hp hman hpaused⟩⟩

/-- C13, after `pause` in quiet hours: presence, motion and the end of the quiet
hours leave the player alone. -/
theorem automatic_updates_keep_manual_witness :
    ((newApp newAudioPlayer true 0).handleCommand "pause" (Except.error "")).1.pausedByManual =
        true ∧
      ([AutoUpdate.handlePresenceUpdate ["Alice"], AutoUpdate.handleMotionUpdate true ["cam"],
          AutoUpdate.setSchedulePause false "schedule check",
          AutoUpdate.motionTimerCallback].foldl (app.auto asciiStrings)
        ((newApp newAudioPlayer true 0).handleCommand "pause" (Except.error "")).1).pausedByManual =
        true ∧
      ∃ suffix,
        ([AutoUpdate.handlePresenceUpdate ["Alice"], AutoUpdate.handleMotionUpdate true ["cam"],
            AutoUpdate.setSchedulePause false "schedule check",
            AutoUpdate.motionTimerCallback].foldl (app.auto asciiStrings)
          ((newApp newAudioPlayer true 0).handleCommand "pause" (Except.error "")).1).trace =
          ((newApp newAudioPlayer true 0).handleCommand "pause" (Except.error "")).1.trace ++
            suffix ∧
        false ∉ playerCalls suffix :=
  ⟨by decide,
    ((automatic_updates_keep_manual asciiStrings
      ((newApp newAudioPlayer true 0).handleCommand "pause" (Except.error "")).1
      (SetterCall.setManualPause true "telegram")
      [AutoUpdate.handlePresenceUpdate ["Alice"], AutoUpdate.handleMotionUpdate true ["cam"],
        AutoUpdate.setSchedulePause false "schedule check",
        AutoUpdate.motionTimerCallback]).2.1).trans (by decide),
    ((automatic_updates_keep_manual asciiStrings
      ((newApp newAudioPlayer true 0).handleCommand "pause" (Except.error "")).1
      (SetterCall.setManualPause true "telegram")
      [AutoUpdate.handlePresenceUpdate ["Alice"], AutoUpdate.handleMotionUpdate true ["cam"],
        AutoUpdate.setSchedulePause false "schedule check",
        AutoUpdate.motionTimerCallback]).2.2.2 (by decide)).elim
      (fun suffix h => ⟨suffix, h.1, h.2.1⟩)⟩

/-! ## Theorems: the presence signal of the coordinator -/

theorem stringSlicesEqual_iff (a b : List String) : stringSlicesEqual a b = true ↔ a = b := by
  unfold stringSlicesEqual
  induction a generalizing b with
  | nil => cases b <;> simp
  | cons x xs ih =>
    cases b with
    | nil => simp
    | cons y ys =>
      have := ih ys
      by_cases hl : xs.length = ys.length
      · simp only [hl, ne_eq, not_true_eq_false, if_false] at this
        simp [hl, this]
      · have hne : xs ≠ ys := fun h => hl (by rw [h])
        simp [hl, hne]

/-- After `applyPresenceState` the cached list is the tracker's list, and the
presence signal agrees with it if it agreed with the cached list before. -/
theorem applyPresenceState_synced (a : app) (h : a.presenceSynced) :
    a.applyPresenceState.onlineTargets = a.presence.CurrentOnline ∧
      a.applyPresenceState.presence = a.presence ∧
      a.applyPresenceState.presenceSynced := by
  by_cases heq : a.onlineTargets = a.presence.CurrentOnline
  · have hs : stringSlicesEqual a.onlineTargets a.presence.CurrentOnline = true :=
      (stringSlicesEqual_iff _ _).mpr heq
    have hform : a.applyPresenceState = { a with onlineTargets := a.presence.CurrentOnline } := by
      simp [app.applyPresenceState, hs]
    rw [hform]
    refine ⟨rfl, rfl, ?_⟩
    unfold app.presenceSynced at h ⊢
    simp only
    rw [← heq]
    exact h
  · have hs : stringSlicesEqual a.onlineTargets a.presence.CurrentOnline = false := by
      cases hb : stringSlicesEqual a.onlineTargets a.presence.CurrentOnline with
      | false => rfl
      | true => exact absurd ((stringSlicesEqual_iff _ _).mp hb) heq
    cases hc : a.presence.CurrentOnline with
    | nil =>
      have hform : a.applyPresenceState =
          app.setPresencePause { a with onlineTargets := [] } false
            "presence cleared (debounced)" := by
        rw [hc] at hs
        simp [app.applyPresenceState, hs, hc]
      rw [hform]
      simp [app.setPresencePause, app.presenceSynced]
    | cons x xs =>
      have hform : a.applyPresenceState =
          app.setPresencePause { a with onlineTargets := x :: xs } true
            ("presence detected (" ++ stringsJoin (x :: xs) ", " ++ ")") := by
        rw [hc] at hs
        simp [app.applyPresenceState, hs, hc]
      rw [hform]
      simp [app.setPresencePause, app.presenceSynced]

theorem presenceSynced_of_frame (a b : app) (h : a.presenceSynced)
    (h1 : b.pausedByPresence = a.pausedByPresence) (h2 : b.onlineTargets = a.onlineTargets) :
    b.presenceSynced := by
  unfold app.presenceSynced at h ⊢
  rw [h1, h2]
  exact h

theorem handlePresenceEvent_synced (a : app) (evt : presenceEvent) (h : a.presenceSynced) :
    (a.handlePresenceEvent evt).onlineTargets = (a.handlePresenceEvent evt).presence.CurrentOnline ∧
      (a.handlePresenceEvent evt).presence = a.presence ∧
      (a.handlePresenceEvent evt).presenceSynced := by
  unfold app.handlePresenceEvent
  simp only
  have key : ∀ msg, (a.notify msg).applyPresenceState.onlineTargets =
        (a.notify msg).applyPresenceState.presence.CurrentOnline ∧
      (a.notify msg).applyPresenceState.presence = a.presence ∧
      (a.notify msg).applyPresenceState.presenceSynced := by
    intro msg
    obtain ⟨-, -, -, n4, n5, n6, -⟩ := notify_fields a msg
    obtain ⟨s1, s2, s3⟩ := applyPresenceState_synced (a.notify msg)
      (presenceSynced_of_frame a _ h n4 n5)
    exact ⟨by rw [s1, s2], by rw [s2, n6], s3⟩
  split
  · exact key _
  · exact key _

theorem foldl_handlePresenceEvent_synced (evts : List presenceEvent) (a : app)
    (h : a.presenceSynced) :
    (evts.foldl app.handlePresenceEvent a).presence = a.presence ∧
      (evts.foldl app.handlePresenceEvent a).presenceSynced := by
  induction evts generalizing a with
  | nil => exact ⟨rfl, h⟩
  | cons e rest ih =>
    obtain ⟨-, s2, s3⟩ := handlePresenceEvent_synced a e h
    obtain ⟨i1, i2⟩ := ih (a.handlePresenceEvent e) s3
    exact ⟨by rw [List.foldl_cons, i1, s2], i2⟩

theorem handlePresenceUpdate_synced (L : GoStrings) (a : app) (online : List String)
    (h : a.presenceSynced) :
    (a.handlePresenceUpdate L online).onlineTargets =
        (a.handlePresenceUpdate L online).presence.CurrentOnline ∧
      (a.handlePresenceUpdate L online).presenceSynced := by
  unfold app.handlePresenceUpdate
  simp only
  obtain ⟨f1, f2⟩ := foldl_handlePresenceEvent_synced (a.presence.Update L online).2
    { a with presence := (a.presence.Update L online).1 }
    (presenceSynced_of_frame a _ h rfl rfl)
  obtain ⟨s1, s2, s3⟩ := applyPresenceState_synced _ f2
  exact ⟨by rw [s1, s2], s3⟩

theorem setMotionPause_presence (a : app) (v : Bool) (t : String) :
    (a.setMotionPause v t).pausedByPresence = a.pausedByPresence ∧
      (a.setMotionPause v t).onlineTargets = a.onlineTargets := by
  unfold app.setMotionPause
  cases v <;> cases a.motionTimer <;> simp

theorem handleMotionUpdate_presence (a : app) (d : Bool) (names : List String) :
    (a.handleMotionUpdate d names).pausedByPresence = a.pausedByPresence ∧
      (a.handleMotionUpdate d names).onlineTargets = a.onlineTargets := by
  cases d with
  | true =>
    simp only [app.handleMotionUpdate, if_true, startMotionSnapshots_pausedByPresence,
      startMotionSnapshots_onlineTargets]
    exact setMotionPause_presence _ _ _
  | false =>
    simp only [app.handleMotionUpdate, Bool.false_eq_true, if_false, app.startMotionResumeTimer]
    cases (app.stopMotionSnapshots { a with lastMotion := false }).motionTimer <;> simp

theorem fireMotionTimer_presence (a : app) (t : Nat) :
    (a.fireMotionTimer t).pausedByPresence = a.pausedByPresence ∧
      (a.fireMotionTimer t).onlineTargets = a.onlineTargets := by
  unfold app.fireMotionTimer
  split
  · exact setMotionPause_presence _ _ _
  · exact ⟨rfl, rfl⟩

theorem handleCommand_presence (a : app) (cmd : String) (shot : Except String Image) :
    (a.handleCommand cmd shot).1.pausedByPresence = a.pausedByPresence ∧
      (a.handleCommand cmd shot).1.onlineTargets = a.onlineTargets := by
  unfold app.handleCommand
  split_ifs
  · simp [app.setForcePlay, app.setManualPause]
  · simp [app.setForcePlay, app.setManualPause]
  · simp [app.setForcePlay, app.setManualPause]
  · exact ⟨rfl, rfl⟩
  · exact ⟨rfl, rfl⟩
  · cases shot <;> exact ⟨rfl, rfl⟩
  · exact ⟨rfl, rfl⟩

theorem run_synced (L : GoStrings) (a : app) (st : AppStep) (h : a.presenceSynced) :
    (a.run L st).presenceSynced := by
  cases st with
  | presenceUpdate online => exact (handlePresenceUpdate_synced L a online h).2
  | presenceEvent =>
    simp only [app.run, app.runPresenceEventsStep]
    split
    · exact h
    · rename_i evt rest _
      exact (handlePresenceEvent_synced
        { a with presence := { a.presence with events := rest } } evt
        (presenceSynced_of_frame a _ h rfl rfl)).2.2
  | presenceTimer key timer => exact presenceSynced_of_frame a _ h rfl rfl
  | motionUpdate d names =>
    exact presenceSynced_of_frame a _ h (handleMotionUpdate_presence a d names).1
      (handleMotionUpdate_presence a d names).2
  | motionTimer t =>
    exact presenceSynced_of_frame a _ h (fireMotionTimer_presence a t).1
      (fireMotionTimer_presence a t).2
  | motionCallback =>
    exact presenceSynced_of_frame a _ h (setMotionPause_presence a false _).1
      (setMotionPause_presence a false _).2
  | scheduleCheck now =>
    refine presenceSynced_of_frame a _ h ?_ ?_ <;>
      simp [app.run, app.runScheduleLoopStep, app.setSchedulePause]
  | command cmd shot =>
    exact presenceSynced_of_frame a _ h (handleCommand_presence a cmd shot).1
      (handleCommand_presence a cmd shot).2
  | fileStarted file =>
    obtain ⟨-, -, -, n4, n5, -, -⟩ := notify_fields { a with currentFile := file }
      ("Now playing: " ++ file)
    exact presenceSynced_of_frame a _ h n4 n5
  | snapshotTick ctx shot =>
    refine presenceSynced_of_frame a _ h ?_ ?_ <;>
      · simp only [app.run, app.motionSnapshotTick]
        split
        · cases shot with
          | error e => rfl
          | ok image =>
            simp only
            split <;> rfl
        · rfl
  | setSnapshotter => exact presenceSynced_of_frame a _ h rfl rfl

theorem foldl_run_synced (L : GoStrings) (steps : List AppStep) (a : app)
    (h : a.presenceSynced) : (steps.foldl (app.run L) a).presenceSynced := by
  induction steps generalizing a with
  | nil => exact h
  | cons st rest ih => exact ih _ (run_synced L a st h)

/-- C16: after any steps of the program from `newApp`, a `handlePresenceUpdate`
call returns with `onlineTargets` equal to the tracker's `CurrentOnline` and
with `pausedByPresence` true exactly when that list is not empty. -/
theorem handlePresenceUpdate_presence_synced (L : GoStrings) (player : audioPlayer)
    (notifier : Bool) (presenceClearDelay : Int) (steps : List AppStep)
    (online : List String) :
    ((steps.foldl (app.run L) (newApp player notifier presenceClearDelay)).handlePresenceUpdate
          L online).onlineTargets =
        ((steps.foldl (app.run L) (newApp player notifier presenceClearDelay)).handlePresenceUpdate
          L online).presence.CurrentOnline ∧
      (((steps.foldl (app.run L) (newApp player notifier presenceClearDelay)).handlePresenceUpdate
          L online).pausedByPresence = true ↔
        ((steps.foldl (app.run L) (newApp player notifier presenceClearDelay)).handlePresenceUpdate
          L online).presence.CurrentOnline ≠ []) := by
  have h0 : (newApp player notifier presenceClearDelay).presenceSynced := by
    simp [app.presenceSynced, newApp]
  have hs := foldl_run_synced L steps _ h0
  obtain ⟨h1, h2⟩ := handlePresenceUpdate_synced L _ online hs
  refine ⟨h1, ?_⟩
  rw [← h1]
  exact h2

/-! ## Theorems: `CurrentOnline` -/

theorem charsLe_iff (as bs : List Char) : charsLe as bs = true ↔ ¬ bs < as := by
  induction as generalizing bs with
  | nil =>
    simp only [charsLe, true_iff]
    exact List.Lex.not_nil_right _ _
  | cons a as ih =>
    cases bs with
    | nil =>
      simp only [charsLe, Bool.false_eq_true, false_iff, not_not]
      exact List.Lex.nil
    | cons b bs =>
      simp only [charsLe]
      by_cases h1 : a.toNat < b.toNat
      · have hab : a < b := h1
        simp only [h1, if_true, true_iff]
        intro h
        cases h with
        | cons _ => exact lt_irrefl _ hab
        | rel hlt => exact absurd hab (lt_asymm hlt)
      · by_cases h2 : b.toNat < a.toNat
        · simp only [h1, h2, if_true, if_false, Bool.false_eq_true, false_iff, not_not]
          exact List.Lex.rel h2
        · simp only [h1, h2, if_false]
          rw [ih bs]
          have hab : a = b := le_antisymm (not_lt.mp h2) (not_lt.mp h1)
          subst hab
          constructor
          · intro hn h
            cases h with
            | cons ht => exact hn ht
            | rel hlt => exact lt_irrefl _ hlt
          · intro hn ht
            exact hn (List.Lex.cons ht)

theorem stringLe_iff (a b : String) : stringLe a b = true ↔ a ≤ b := by
  unfold stringLe
  rw [charsLe_iff, String.le_iff_toList_le]
  exact not_lt

theorem insertSorted_eq (x : String) (l : List String) :
    insertSorted x l = List.orderedInsert (fun a b => a ≤ b) x l := by
  induction l with
  | nil => rfl
  | cons y ys ih =>
    by_cases h : x ≤ y
    · simp [insertSorted, List.orderedInsert, h, (stringLe_iff x y).mpr h]
    · have hb : stringLe x y = false := by
        cases hs : stringLe x y with
        | false => rfl
        | true => exact absurd ((stringLe_iff x y).mp hs) h
      simp [insertSorted, List.orderedInsert, h, hb, ih]

theorem sortStrings_eq (l : List String) :
    sortStrings l = List.insertionSort (fun a b => a ≤ b) l := by
  induction l with
  | nil => rfl
  | cons x xs ih => simp [sortStrings, List.insertionSort, ih, insertSorted_eq]

theorem sortStrings_sorted (l : List String) : List.Sorted (fun a b => a ≤ b) (sortStrings l) := by
  rw [sortStrings_eq]
  exact List.sorted_insertionSort _ l

theorem sortStrings_perm (l : List String) : (sortStrings l).Perm l := by
  rw [sortStrings_eq]
  exact List.perm_insertionSort _ l

theorem displayName_eq (p : presenceTracker) (key : String) :
    (if (mapGet p.names key).getD "" = "" then key else (mapGet p.names key).getD "") =
      p.displayName key := by
  unfold presenceTracker.displayName
  cases mapGet p.names key <;> simp

theorem collect_online (p : presenceTracker) (l : List (String × Bool)) (init : List String) :
    l.foldl
        (fun online entry =>
          if !entry.2 then online
          else
            let name := (mapGet p.names entry.1).getD ""
            let name := if name = "" then entry.1 else name
            online ++ [name])
        init =
      init ++ ((l.filter (fun e => e.2)).map Prod.fst).map p.displayName := by
  induction l generalizing init with
  | nil => simp
  | cons e rest ih =>
    obtain ⟨k, b⟩ := e
    cases b with
    | false => simpa using ih init
    | true =>
      simp only [List.foldl_cons, Bool.not_true, Bool.false_eq_true, if_false]
      rw [displayName_eq, ih]
      simp

theorem CurrentOnline_eq (p : presenceTracker) :
    p.CurrentOnline = sortStrings (p.onlineKeys.map p.displayName) := by
  unfold presenceTracker.CurrentOnline presenceTracker.onlineKeys
  simp only
  rw [collect_online]
  simp

/-- C11: for every tracker state `CurrentOnline` is in ascending lexicographic
order and is a rearrangement of the display names of the targets whose online
flag is true: one entry for each such target, none for a target that is
offline. The display name is the recorded name; a target with no recorded
name, or an empty one, is listed under its key. -/
theorem CurrentOnline_sorted_names (p : presenceTracker) :
    List.Sorted (fun a b => a ≤ b) p.CurrentOnline ∧
      p.CurrentOnline.Perm (p.onlineKeys.map p.displayName) ∧
      p.CurrentOnline.length = p.onlineKeys.length ∧
      (∀ k, k ∈ p.onlineKeys ↔ (k, true) ∈ p.online) ∧
      (∀ k n, mapGet p.names k = some n → n ≠ "" → p.displayName k = n) := by
  refine ⟨?_, ?_, ?_, ?_, ?_⟩
  · rw [CurrentOnline_eq]
    exact sortStrings_sorted _
  · rw [CurrentOnline_eq]
    exact sortStrings_perm _
  · rw [CurrentOnline_eq, (sortStrings_perm _).length_eq, List.length_map]
  · intro k
    simp [presenceTracker.onlineKeys]
  · intro k n hk hn
    simp [presenceTracker.displayName, hk, hn]

/-- C11, at a tracker with `bob` and `Al` online and `x` offline. -/
theorem CurrentOnline_sorted_names_witness :
    mapGet (presenceTracker.names { newPresenceTracker 0 with
        online := [("bob", true), ("x", false), ("al", true)]
        names := [("bob", "bob"), ("x", "x"), ("al", "Al")] }) "al" = some "Al" ∧
      "Al" ≠ "" ∧
      presenceTracker.displayName { newPresenceTracker 0 with
        online := [("bob", true), ("x", false), ("al", true)]
        names := [("bob", "bob"), ("x", "x"), ("al", "Al")] } "al" = "Al" ∧
      presenceTracker.CurrentOnline { newPresenceTracker 0 with
        online := [("bob", true), ("x", false), ("al", true)]
        names := [("bob", "bob"), ("x", "x"), ("al", "Al")] } = ["Al", "bob"] :=
  ⟨by decide, by decide,
    (CurrentOnline_sorted_names { newPresenceTracker 0 with
      online := [("bob", true), ("x", false), ("al", true)]
      names := [("bob", "bob"), ("x", "x"), ("al", "Al")] }).2.2.2.2 "al" "Al" (by decide)
      (by decide),
    by decide⟩

/-! ## Theorems: timers and the online flag -/

theorem markSeen_timersOnline (acc : presenceTracker × List presenceEvent)
    (e : String × String) (h : acc.1.timersOnline) :
    (presenceTracker.markSeen acc e).1.timersOnline := by
  obtain ⟨-, f2, f3, -, -, -⟩ := markSeen_fields acc e
  obtain ⟨hn, ht⟩ := h
  refine ⟨by rw [f3]; exact nodup_mapSet _ _ _ hn, ?_⟩
  intro k t hk
  rw [f2] at hk
  by_cases hke : k = e.1
  · rw [hke, mapGet_mapDelete_self] at hk
    cases hk
  · rw [mapGet_mapDelete_ne _ _ _ hke] at hk
    rw [f3, mapGet_mapSet_ne _ _ _ _ hke]
    exact ht k t hk

theorem foldl_markSeen_timersOnline (l : List (String × String))
    (acc : presenceTracker × List presenceEvent) (h : acc.1.timersOnline) :
    (l.foldl presenceTracker.markSeen acc).1.timersOnline := by
  induction l generalizing acc with
  | nil => exact h
  | cons e rest ih => exact ih _ (markSeen_timersOnline acc e h)

theorem markAbsent_delay (now : List (String × String)) (q : presenceTracker)
    (e : String × Bool) : (presenceTracker.markAbsent now q e).delay = q.delay := by
  rcases markAbsent_cases now q e with h | ⟨-, -, -, h⟩
  · rw [h]
  · rw [h]
    exact (scheduleOfflineLocked_fields q e.1).2.1

theorem markAbsent_timersOnline (now : List (String × String)) (q : presenceTracker)
    (e : String × Bool) (hmem : 0 < q.delay → e ∈ q.online) (h : q.timersOnline) :
    (presenceTracker.markAbsent now q e).timersOnline := by
  obtain ⟨hn, ht⟩ := h
  rcases markAbsent_cases now q e with h1 | ⟨hb, -, hnone, h1⟩
  · rw [h1]
    exact ⟨hn, ht⟩
  · rw [h1]
    by_cases hd : 0 < q.delay
    · rw [scheduleOfflineLocked_pos q e.1 hd]
      refine ⟨hn, ?_⟩
      intro k t hk
      simp only at hk ⊢
      by_cases hke : k = e.1
      · rw [hke]
        have hmem2 : (e.1, true) ∈ q.online := by
          have := hmem hd
          rw [← hb]
          exact this
        exact mapGet_of_mem _ _ _ hn hmem2
      · rw [mapGet_mapSet_ne _ _ _ _ hke] at hk
        exact ht k t hk
    · rw [scheduleOfflineLocked_zero q e.1 (not_lt.mp hd)]
      obtain ⟨-, e2, e3, -, -, -⟩ := emit_fields { q with online := mapSet q.online e.1 false }
        { Name := (mapGet q.names e.1).getD "", Online := false }
      refine ⟨by rw [e3]; exact nodup_mapSet _ _ _ hn, ?_⟩
      intro k t hk
      rw [e2] at hk
      simp only at hk
      have hke : k ≠ e.1 := by
        rintro rfl
        rw [hnone] at hk
        cases hk
      rw [e3]
      simp only
      rw [mapGet_mapSet_ne _ _ _ _ hke]
      exact ht k t hk

theorem foldl_markAbsent_timersOnline (now : List (String × String))
    (l : List (String × Bool)) (q : presenceTracker)
    (hmem : 0 < q.delay → ∀ e ∈ l, e ∈ q.online) (h : q.timersOnline) :
    (l.foldl (presenceTracker.markAbsent now) q).timersOnline := by
  induction l generalizing q with
  | nil => exact h
  | cons e rest ih =>
    rw [List.foldl_cons]
    apply ih
    · intro hd e' he'
      rw [markAbsent_delay] at hd
      rw [(markAbsent_pos now q e hd).2.1]
      exact hmem hd e' (List.mem_cons_of_mem _ he')
    · exact markAbsent_timersOnline now q e
        (fun hd => hmem hd e (List.mem_cons_self _ _)) h

theorem Update_timersOnline (L : GoStrings) (p : presenceTracker) (snapshot : List String)
    (h : p.timersOnline) : (p.Update L snapshot).1.timersOnline := by
  simp only [presenceTracker.Update]
  exact foldl_markAbsent_timersOnline _ _ _ (fun _ e he => he)
    (foldl_markSeen_timersOnline _ (p, []) h)

theorem fireOffline_timersOnline (p : presenceTracker) (key : String) (timer : Nat)
    (h : p.timersOnline) : (p.fireOffline key timer).timersOnline := by
  obtain ⟨hn, ht⟩ := h
  rcases fireOffline_cases p key timer with h1 | ⟨-, h2, h3, -, -⟩
  · rw [h1]
    exact ⟨hn, ht⟩
  · have hon : ∀ k, k ≠ key → mapGet (p.fireOffline key timer).online k = mapGet p.online k := by
      intro k hk
      rcases h3 with h3 | h3
      · rw [h3]
      · rw [h3, mapGet_mapSet_ne _ _ _ _ hk]
    refine ⟨?_, ?_⟩
    · rcases h3 with h3 | h3
      · rw [h3]
        exact hn
      · rw [h3]
        exact nodup_mapSet _ _ _ hn
    · intro k t hk
      rw [h2] at hk
      by_cases hke : k = key
      · rw [hke, mapGet_mapDelete_self] at hk
        cases hk
      · rw [mapGet_mapDelete_ne _ _ _ hke] at hk
        rw [hon k hke]
        exact ht k t hk

theorem step_timersOnline (L : GoStrings) (p : presenceTracker) (st : TrackerStep)
    (h : p.timersOnline) : (p.step L st).timersOnline := by
  cases st with
  | update snapshot => exact Update_timersOnline L p snapshot h
  | fire key timer =>
    exact fireOffline_timersOnline { p with armed := p.armed.erase timer } key timer h
  | receive => exact h

theorem foldl_step_timersOnline (L : GoStrings) (steps : List TrackerStep)
    (p : presenceTracker) (h : p.timersOnline) :
    (steps.foldl (presenceTracker.step L) p).timersOnline := by
  induction steps generalizing p with
  | nil => exact h
  | cons st rest ih => exact ih _ (step_timersOnline L p st h)

/-- C14: in every state reached from `newPresenceTracker` by `Update` calls,
runs of offline-timer callbacks, current or stale, and receives from the event
queue, a target with a registered offline timer is marked online; so no target
is offline with a timer still registered. -/
theorem registered_timer_means_online (L : GoStrings) (delay : Int) (steps : List TrackerStep)
    (key : String) :
    (∀ t, mapGet (steps.foldl (presenceTracker.step L) (newPresenceTracker delay)).timers key =
          some t →
        mapGet (steps.foldl (presenceTracker.step L) (newPresenceTracker delay)).online key =
          some true) ∧
      ¬ (mapGet (steps.foldl (presenceTracker.step L) (newPresenceTracker delay)).online key ≠
            some true ∧
          (mapGet (steps.foldl (presenceTracker.step L)
            (newPresenceTracker delay)).timers key).isSome = true) := by
  have h0 : (newPresenceTracker delay).timersOnline := by
    refine ⟨by simp [newPresenceTracker, mapKeys], ?_⟩
    intro k t hk
    simp [newPresenceTracker, mapGet] at hk
  obtain ⟨-, ht⟩ := foldl_step_timersOnline L steps _ h0
  refine ⟨fun t hk => ht key t hk, ?_⟩
  rintro ⟨hoff, hsome⟩
  cases hk : mapGet (steps.foldl (presenceTracker.step L) (newPresenceTracker delay)).timers key with
  | none => rw [hk] at hsome; cases hsome
  | some t => exact hoff (ht key t hk)

/-- C14, for `bob` seen, then absent with a delay of 5: timer 0 is registered and
`bob` is online; after the callback of timer 0 neither holds. -/
theorem registered_timer_means_online_witness :
    mapGet ([TrackerStep.update ["bob"], TrackerStep.update []].foldl
        (presenceTracker.step asciiStrings) (newPresenceTracker 5)).timers "bob" = some 0 ∧
      mapGet ([TrackerStep.update ["bob"], TrackerStep.update []].foldl
        (presenceTracker.step asciiStrings) (newPresenceTracker 5)).online "bob" = some true ∧
      mapGet ([TrackerStep.update ["bob"], TrackerStep.update [], TrackerStep.fire "bob" 0].foldl
        (presenceTracker.step asciiStrings) (newPresenceTracker 5)).timers "bob" = none :=
  ⟨by decide,
    (registered_timer_means_online asciiStrings 5
      [TrackerStep.update ["bob"], TrackerStep.update []] "bob").1 0 (by decide),
    by decide⟩

/-! ## Theorems: the tracker without debounce -/

theorem startMotionSnapshots_registered (a : app) (c : Nat) (h : a.motionSnapCancel = some c) :
    a.startMotionSnapshots = a := by
  unfold app.startMotionSnapshots
  split
  · rfl
  · simp [h]

theorem stopMotionSnapshots_unregistered (a : app) (h : a.motionSnapCancel = none) :
    a.stopMotionSnapshots = a := by
  obtain ⟨player, notifier, snapshot, presence, paused, s, m, man, pr, f, lm, mt, cf, ot, msc,
    rest⟩ := a
  simp only at h
  subst h
  rfl

theorem stopMotionSnapshots_handle (a : app) : a.stopMotionSnapshots.motionSnapCancel = none := by
  unfold app.stopMotionSnapshots
  cases a.motionSnapCancel <;> rfl

theorem startMotionSnapshots_fresh (a : app) (hs : a.snapshot = true) (hn : a.notifier = true)
    (h : a.motionSnapCancel = none) :
    a.startMotionSnapshots =
      { a with
        motionSnapCancel := some a.nextCtx
        nextCtx := a.nextCtx + 1
        loops := a.loops ++ [a.nextCtx] } := by
  simp [app.startMotionSnapshots, hs, hn, h]

theorem startMotionSnapshots_twice (a : app) :
    a.startMotionSnapshots.startMotionSnapshots = a.startMotionSnapshots := by
  by_cases hc : a.snapshot = false ∨ a.notifier = false
  · have h1 : a.startMotionSnapshots = a := by
      rcases hc with hc | hc <;> simp [app.startMotionSnapshots, hc]
    rw [h1, h1]
  · have hs : a.snapshot = true := by
      cases h : a.snapshot with
      | true => rfl
      | false => exact absurd (Or.inl h) hc
    have hn : a.notifier = true := by
      cases h : a.notifier with
      | true => rfl
      | false => exact absurd (Or.inr h) hc
    cases hm : a.motionSnapCancel with
    | some c =>
      rw [startMotionSnapshots_registered a c hm, startMotionSnapshots_registered a c hm]
    | none =>
      rw [startMotionSnapshots_fresh a hs hn hm]
      exact startMotionSnapshots_registered _ a.nextCtx rfl

theorem startMotionSnapshots_oneLoop (a : app) (h : a.oneLoop) :
    a.startMotionSnapshots.oneLoop := by
  unfold app.oneLoop at h ⊢
  unfold app.startMotionSnapshots
  split
  · exact h
  · cases hm : a.motionSnapCancel with
    | some c =>
      simp only
      rw [h, hm]
    | none =>
      simp only
      rw [h, hm]
      rfl

theorem stopMotionSnapshots_oneLoop (a : app) (h : a.oneLoop) :
    a.stopMotionSnapshots.oneLoop := by
  unfold app.oneLoop at h ⊢
  unfold app.stopMotionSnapshots
  cases hm : a.motionSnapCancel with
  | some c =>
    simp only
    rw [h, hm]
    simp
  | none =>
    simp only
    rw [h, hm]

theorem oneLoop_of_frame (a b : app) (h : a.oneLoop) (h1 : b.loops = a.loops)
    (h2 : b.motionSnapCancel = a.motionSnapCancel) : b.oneLoop := by
  unfold app.oneLoop at h ⊢
  rw [h1, h2]
  exact h

theorem notify_loops (a : app) (msg : String) :
    (a.notify msg).loops = a.loops ∧ (a.notify msg).motionSnapCancel = a.motionSnapCancel := by
  unfold app.notify
  cases a.notifier <;> simp

theorem setMotionPause_loops (a : app) (v : Bool) (t : String) :
    (a.setMotionPause v t).loops = a.loops ∧
      (a.setMotionPause v t).motionSnapCancel = a.motionSnapCancel := by
  unfold app.setMotionPause
  cases v <;> cases a.motionTimer <;> simp

theorem fireMotionTimer_loops (a : app) (t : Nat) :
    (a.fireMotionTimer t).loops = a.loops ∧
      (a.fireMotionTimer t).motionSnapCancel = a.motionSnapCancel := by
  unfold app.fireMotionTimer
  split
  · exact setMotionPause_loops _ _ _
  · exact ⟨rfl, rfl⟩

theorem applyPresenceState_loops (a : app) :
    a.applyPresenceState.loops = a.loops ∧
      a.applyPresenceState.motionSnapCancel = a.motionSnapCancel := by
  unfold app.applyPresenceState
  simp only
  split
  · exact ⟨rfl, rfl⟩
  · split <;> simp [app.setPresencePause]

theorem handlePresenceEvent_loops (a : app) (evt : presenceEvent) :
    (a.handlePresenceEvent evt).loops = a.loops ∧
      (a.handlePresenceEvent evt).motionSnapCancel = a.motionSnapCancel := by
  unfold app.handlePresenceEvent
  simp only
  split
  · obtain ⟨n1, n2⟩ := notify_loops a ("Presence online: " ++ evt.Name)
    obtain ⟨p1, p2⟩ := applyPresenceState_loops (a.notify ("Presence online: " ++ evt.Name))
    exact ⟨by rw [p1, n1], by rw [p2, n2]⟩
  · obtain ⟨n1, n2⟩ := notify_loops a ("Presence offline: " ++ evt.Name)
    obtain ⟨p1, p2⟩ := applyPresenceState_loops (a.notify ("Presence offline: " ++ evt.Name))
    exact ⟨by rw [p1, n1], by rw [p2, n2]⟩

theorem foldl_handlePresenceEvent_loops (evts : List presenceEvent) (a : app) :
    (evts.foldl app.handlePresenceEvent a).loops = a.loops ∧
      (evts.foldl app.handlePresenceEvent a).motionSnapCancel = a.motionSnapCancel := by
  induction evts generalizing a with
  | nil => exact ⟨rfl, rfl⟩
  | cons e rest ih =>
    obtain ⟨i1, i2⟩ := ih (a.handlePresenceEvent e)
    obtain ⟨h1, h2⟩ := handlePresenceEvent_loops a e
    exact ⟨by rw [List.foldl_cons, i1, h1], by rw [List.foldl_cons, i2, h2]⟩

theorem handlePresenceUpdate_loops (L : GoStrings) (a : app) (online : List String) :
    (a.handlePresenceUpdate L online).loops = a.loops ∧
      (a.handlePresenceUpdate L online).motionSnapCancel = a.motionSnapCancel := by
  unfold app.handlePresenceUpdate
  simp only
  obtain ⟨f1, f2⟩ := foldl_handlePresenceEvent_loops (a.presence.Update L online).2
    { a with presence := (a.presence.Update L online).1 }
  obtain ⟨p1, p2⟩ := applyPresenceState_loops
    ((a.presence.Update L online).2.foldl app.handlePresenceEvent
      { a with presence := (a.presence.Update L online).1 })
  exact ⟨by rw [p1, f1], by rw [p2, f2]⟩

theorem handleCommand_loops (a : app) (cmd : String) (shot : Except String Image) :
    (a.handleCommand cmd shot).1.loops = a.loops ∧
      (a.handleCommand cmd shot).1.motionSnapCancel = a.motionSnapCancel := by
  unfold app.handleCommand
  split_ifs
  · simp [app.setForcePlay, app.setManualPause]
  · simp [app.setForcePlay, app.setManualPause]
  · simp [app.setForcePlay, app.setManualPause]
  · exact ⟨rfl, rfl⟩
  · exact ⟨rfl, rfl⟩
  · cases shot <;> exact ⟨rfl, rfl⟩
  · exact ⟨rfl, rfl⟩

theorem handleMotionUpdate_oneLoop (a : app) (d : Bool) (names : List String)
    (h : a.oneLoop) : (a.handleMotionUpdate d names).oneLoop := by
  cases d with
  | true =>
    simp only [app.handleMotionUpdate, if_true]
    apply startMotionSnapshots_oneLoop
    exact oneLoop_of_frame a _ h (setMotionPause_loops _ _ _).1 (setMotionPause_loops _ _ _).2
  | false =>
    simp only [app.handleMotionUpdate, Bool.false_eq_true, if_false]
    have hs : (app.stopMotionSnapshots { a with lastMotion := false }).oneLoop :=
      stopMotionSnapshots_oneLoop _ (oneLoop_of_frame a _ h rfl rfl)
    refine oneLoop_of_frame _ _ hs ?_ ?_ <;>
      · unfold app.startMotionResumeTimer
        cases (app.stopMotionSnapshots { a with lastMotion := false }).motionTimer <;> rfl

theorem run_oneLoop (L : GoStrings) (a : app) (st : AppStep) (h : a.oneLoop) :
    (a.run L st).oneLoop := by
  cases st with
  | presenceUpdate online =>
    exact oneLoop_of_frame a _ h (handlePresenceUpdate_loops L a online).1
      (handlePresenceUpdate_loops L a online).2
  | presenceEvent =>
    simp only [app.run, app.runPresenceEventsStep]
    split
    · exact h
    · rename_i evt rest _
      exact oneLoop_of_frame a _ h
        (handlePresenceEvent_loops { a with presence := { a.presence with events := rest } }
          evt).1
        (handlePresenceEvent_loops { a with presence := { a.presence with events := rest } }
          evt).2
  | presenceTimer key timer => exact oneLoop_of_frame a _ h rfl rfl
  | motionUpdate d names => exact handleMotionUpdate_oneLoop a d names h
  | motionTimer t =>
    exact oneLoop_of_frame a _ h (fireMotionTimer_loops a t).1 (fireMotionTimer_loops a t).2
  | motionCallback =>
    exact oneLoop_of_frame a _ h (setMotionPause_loops a false _).1
      (setMotionPause_loops a false _).2
  | scheduleCheck now =>
    refine oneLoop_of_frame a _ h ?_ ?_ <;>
      simp [app.run, app.runScheduleLoopStep, app.setSchedulePause]
  | command cmd shot =>
    exact oneLoop_of_frame a _ h (handleCommand_loops a cmd shot).1
      (handleCommand_loops a cmd shot).2
  | fileStarted file =>
    exact oneLoop_of_frame a _ h
      (notify_loops { a with currentFile := file } ("Now playing: " ++ file)).1
      (notify_loops { a with currentFile := file } ("Now playing: " ++ file)).2
  | snapshotTick ctx shot =>
    refine oneLoop_of_frame a _ h ?_ ?_ <;>
      · simp only [app.run, app.motionSnapshotTick]
        split
        · cases shot with
          | error e => rfl
          | ok image =>
            simp only
            split <;> rfl
        · rfl
  | setSnapshotter => exact oneLoop_of_frame a _ h rfl rfl

theorem foldl_run_oneLoop (L : GoStrings) (steps : List AppStep) (a : app) (h : a.oneLoop) :
    (steps.foldl (app.run L) a).oneLoop := by
  induction steps generalizing a with
  | nil => exact h
  | cons st rest ih => exact ih _ (run_oneLoop L a st h)

/-- C21: `startMotionSnapshots` on a state with a registered handle returns the
state as it is (no loop spawned, handle kept), so starting twice is starting
once; with snapshot source and notifier set and no handle it registers a fresh
handle and spawns its loop; `stopMotionSnapshots` on a state with no handle
returns the state as it is, so stopping twice is stopping once, and after a
stop the handle is absent; and in every state the program reaches from
`newApp` the running loops are exactly the registered one, at most one. -/
theorem snapshot_supervisor_single_loop (L : GoStrings) (player : audioPlayer)
    (notifier : Bool) (presenceClearDelay : Int) (steps : List AppStep) (a : app) :
    (∀ c, a.motionSnapCancel = some c → a.startMotionSnapshots = a) ∧
      a.startMotionSnapshots.startMotionSnapshots = a.startMotionSnapshots ∧
      (a.snapshot = true → a.notifier = true → a.motionSnapCancel = none →
        a.startMotionSnapshots.motionSnapCancel = some a.nextCtx ∧
          a.startMotionSnapshots.loops = a.loops ++ [a.nextCtx]) ∧
      (a.motionSnapCancel = none → a.stopMotionSnapshots = a) ∧
      a.stopMotionSnapshots.stopMotionSnapshots = a.stopMotionSnapshots ∧
      a.stopMotionSnapshots.motionSnapCancel = none ∧
      (∀ c, a.motionSnapCancel = some c → a.stopMotionSnapshots.loops = a.loops.erase c) ∧
      (steps.foldl (app.run L) (newApp player notifier presenceClearDelay)).loops =
        (steps.foldl (app.run L)
          (newApp player notifier presenceClearDelay)).motionSnapCancel.toList ∧
      (steps.foldl (app.run L) (newApp player notifier presenceClearDelay)).loops.length ≤ 1 := by
  have hreach := foldl_run_oneLoop L steps (newApp player notifier presenceClearDelay) rfl
  refine ⟨fun c hc => startMotionSnapshots_registered a c hc, startMotionSnapshots_twice a, ?_,
    stopMotionSnapshots_unregistered a, ?_, stopMotionSnapshots_handle a, ?_, hreach, ?_⟩
  · intro hs hn hm
    rw [startMotionSnapshots_fresh a hs hn hm]
    exact ⟨rfl, rfl⟩
  · exact stopMotionSnapshots_unregistered _ (stopMotionSnapshots_handle a)
  · intro c hc
    simp [app.stopMotionSnapshots, hc]
  · unfold app.oneLoop at hreach
    rw [hreach]
    cases (steps.foldl (app.run L)
      (newApp player notifier presenceClearDelay)).motionSnapCancel <;> simp

/-- C21, with snapshot source and notifier set: motion twice, then cleared
twice. -/
theorem snapshot_supervisor_single_loop_witness :
    ((newApp newAudioPlayer true 0).setSnapshotter.handleMotionUpdate true ["cam"]).motionSnapCancel
        = some 0 ∧
      app.startMotionSnapshots
          ((newApp newAudioPlayer true 0).setSnapshotter.handleMotionUpdate true ["cam"]) =
        (newApp newAudioPlayer true 0).setSnapshotter.handleMotionUpdate true ["cam"] ∧
      ([AppStep.setSnapshotter, AppStep.motionUpdate true ["cam"],
          AppStep.motionUpdate true ["cam"]].foldl (app.run asciiStrings)
        (newApp newAudioPlayer true 0)).loops = [0] ∧
      ([AppStep.setSnapshotter, AppStep.motionUpdate true ["cam"],
          AppStep.motionUpdate false [], AppStep.motionUpdate false []].foldl
        (app.run asciiStrings) (newApp newAudioPlayer true 0)).loops.length ≤ 1 :=
  ⟨by decide,
    (snapshot_supervisor_single_loop asciiStrings newAudioPlayer true 0 []
      ((newApp newAudioPlayer true 0).setSnapshotter.handleMotionUpdate true ["cam"])).1 0
      (by decide),
    by decide,
    (snapshot_supervisor_single_loop asciiStrings newAudioPlayer true 0
      [AppStep.setSnapshotter, AppStep.motionUpdate true ["cam"],
        AppStep.motionUpdate false [], AppStep.motionUpdate false []]
      (newApp newAudioPlayer true 0)).2.2.2.2.2.2.2.2⟩

/-! ## Theorems: commands as two setter calls -/

theorem applyState_effects (a : app) (trigger : String) :
    ∃ suffix, (a.applyState trigger).trace = a.trace ++ suffix ∧
      playerCalls suffix = (if a.shouldPause = a.paused then [] else [a.shouldPause]) ∧
      (notifications suffix).length = (playerCalls suffix).length := by
  by_cases h : a.shouldPause = a.paused
  · rw [applyState_same a trigger h]
    exact ⟨[], by simp, by simp [h, playerCalls], by simp [notifications, playerCalls]⟩
  · obtain ⟨msg, hmsg⟩ := applyState_changed a trigger h
    rw [hmsg]
    refine ⟨Effect.setPaused a.shouldPause :: notifyEffects a.notifier msg, rfl, ?_, ?_⟩
    · have := playerCalls_transition [] a.shouldPause a.notifier msg
      simpa [h, playerCalls] using this
    · have h1 := playerCalls_transition [] a.shouldPause a.notifier msg
      have h2 := notifications_transition [] a.shouldPause a.notifier msg
      simp only [List.nil_append] at h1 h2
      rw [h1, h2]
      simp [playerCalls, notifications]

/-- Two recomputes in a row, with a change `f` in between that touches neither
the trace nor the cached flag: the player calls are those of the first followed
by those of the second. -/
theorem applyState_twice (x : app) (f : app → app) (t1 t2 : String)
    (hft : (f (x.applyState t1)).trace = (x.applyState t1).trace)
    (hfp : (f (x.applyState t1)).paused = (x.applyState t1).paused) :
    ∃ suffix, ((f (x.applyState t1)).applyState t2).trace = x.trace ++ suffix ∧
      playerCalls suffix =
        (if x.shouldPause = x.paused then [] else [x.shouldPause]) ++
          (if (f (x.applyState t1)).shouldPause = x.shouldPause then []
            else [(f (x.applyState t1)).shouldPause]) ∧
      (notifications suffix).length = (playerCalls suffix).length := by
  obtain ⟨s1, e1, c1, n1⟩ := applyState_effects x t1
  obtain ⟨s2, e2, c2, n2⟩ := applyState_effects (f (x.applyState t1)) t2
  rw [hfp, applyState_paused] at c2
  refine ⟨s1 ++ s2, by rw [e2, hft, e1, List.append_assoc], ?_, ?_⟩
  · rw [playerCalls_append, c1, c2]
  · rw [playerCalls_append, notifications_append, List.length_append, List.length_append,
      n1, n2]

theorem decision_after_forcePlay (x : app) (v : Bool) (t : String) :
    app.shouldPause { app.applyState x t with forcePlay := v } =
      decisionRule { x.signals with forcePlay := v } := by
  rw [shouldPause_eq]
  have := applyState_signals x t
  simp only [app.signals, SignalVector.mk.injEq] at this ⊢
  obtain ⟨h1, h2, h3, h4, -⟩ := this
  simp [decisionRule, h1, h2, h3, h4]

theorem decision_after_manualPause (x : app) (v : Bool) (t : String) :
    app.shouldPause { app.applyState x t with pausedByManual := v } =
      decisionRule { x.signals with manual := v } := by
  rw [shouldPause_eq]
  have := applyState_signals x t
  simp only [app.signals, SignalVector.mk.injEq] at this ⊢
  obtain ⟨h1, h2, h3, -, h5⟩ := this
  simp [decisionRule, h1, h2, h3, h5]

/-- The three manual commands as two recomputes: the player calls they cause. -/
theorem handleCommand_calls (a : app) (cmd : String) (shot : Except String Image)
    (hcmd : cmd ∈ ["pause", "stop", "disable", "play", "start", "enable", "auto"]) :
    ∃ (d1 d2 : Bool) (suffix : List Effect),
      (a.handleCommand cmd shot).1.trace = a.trace ++ suffix ∧
      (a.handleCommand cmd shot).1.paused = d2 ∧
      playerCalls suffix =
        (if d1 = a.paused then [] else [d1]) ++ (if d2 = d1 then [] else [d2]) ∧
      (notifications suffix).length = (playerCalls suffix).length ∧
      ((cmd = "pause" ∨ cmd = "stop" ∨ cmd = "disable") →
        d1 = decisionRule { a.signals with forcePlay := false } ∧ d2 = true) ∧
      ((cmd = "play" ∨ cmd = "start" ∨ cmd = "enable") →
        d1 = decisionRule { a.signals with manual := false } ∧ d2 = false) ∧
      (cmd = "auto" →
        d1 = decisionRule { a.signals with forcePlay := false } ∧
          d2 = decisionRule { a.signals with forcePlay := false, manual := false }) := by
  by_cases hp : cmd = "pause" ∨ cmd = "stop" ∨ cmd = "disable"
  · have hnp : ¬ (cmd = "play" ∨ cmd = "start" ∨ cmd = "enable") := by
      rcases hp with h | h | h <;> subst h <;> decide
    have hna : ¬ cmd = "auto" := by
      rcases hp with h | h | h <;> subst h <;> decide
    obtain ⟨suffix, e, c, n⟩ := applyState_twice { a with forcePlay := false }
      (fun b => { b with pausedByManual := true }) "telegram" "telegram" rfl rfl
    have hd1 : app.shouldPause { a with forcePlay := false } =
        decisionRule { a.signals with forcePlay := false } := shouldPause_eq _
    have hd2 := decision_after_manualPause { a with forcePlay := false } true "telegram"
    refine ⟨decisionRule { a.signals with forcePlay := false }, true, suffix, ?_, ?_, ?_, n,
      fun _ => ⟨rfl, ?_⟩, fun h => absurd h hnp, fun h => absurd h hna⟩
    · simp only [app.handleCommand, hp, if_true, app.setForcePlay, app.setManualPause]
      exact e
    · simp only [app.handleCommand, hp, if_true, app.setForcePlay, app.setManualPause]
      rw [applyState_paused, hd2]
      simp [decisionRule]
    · rw [c, hd1]
      simp only at hd2 ⊢
      rw [hd2]
      simp [decisionRule]
    · rfl
  · by_cases hpl : cmd = "play" ∨ cmd = "start" ∨ cmd = "enable"
    · have hna : ¬ cmd = "auto" := by
        rcases hpl with h | h | h <;> subst h <;> decide
      obtain ⟨suffix, e, c, n⟩ := applyState_twice { a with pausedByManual := false }
        (fun b => { b with forcePlay := true }) "telegram" "telegram" rfl rfl
      have hd1 : app.shouldPause { a with pausedByManual := false } =
          decisionRule { a.signals with manual := false } := shouldPause_eq _
      have hd2 := decision_after_forcePlay { a with pausedByManual := false } true "telegram"
      refine ⟨decisionRule { a.signals with manual := false }, false, suffix, ?_, ?_, ?_, n,
        fun h => absurd h hp, fun _ => ⟨rfl, rfl⟩, fun h => absurd h hna⟩
      · simp only [app.handleCommand, hp, hpl, if_true, if_false, app.setForcePlay,
          app.setManualPause]
        exact e
      · simp only [app.handleCommand, hp, hpl, if_true, if_false, app.setForcePlay,
          app.setManualPause]
        rw [applyState_paused, hd2]
        simp [decisionRule, app.signals]
      · rw [c, hd1]
        simp only at hd2 ⊢
        rw [hd2]
        simp [decisionRule, app.signals]
    · have ha : cmd = "auto" := by
        simp only [List.mem_cons, List.mem_singleton, List.not_mem_nil, or_false] at hcmd
        rcases hcmd with h | h | h | h | h | h | h
        · exact absurd (Or.inl h) hp
        · exact absurd (Or.inr (Or.inl h)) hp
        · exact absurd (Or.inr (Or.inr h)) hp
        · exact absurd (Or.inl h) hpl
        · exact absurd (Or.inr (Or.inl h)) hpl
        · exact absurd (Or.inr (Or.inr h)) hpl
        · exact h
      subst ha
      obtain ⟨suffix, e, c, n⟩ := applyState_twice { a with forcePlay := false }
        (fun b => { b with pausedByManual := false }) "telegram" "telegram" rfl rfl
      have hd1 : app.shouldPause { a with forcePlay := false } =
          decisionRule { a.signals with forcePlay := false } := shouldPause_eq _
      have hd2 := decision_after_manualPause { a with forcePlay := false } false "telegram"
      refine ⟨decisionRule { a.signals with forcePlay := false },
        decisionRule { a.signals with forcePlay := false, manual := false }, suffix, ?_, ?_, ?_,
        n, fun h => absurd h hp, fun h => absurd h hpl, fun _ => ⟨rfl, rfl⟩⟩
      · simp only [app.handleCommand, hp, hpl, if_true, if_false, app.setForcePlay,
          app.setManualPause]
        exact e
      · simp only [app.handleCommand, hp, hpl, if_true, if_false, app.setForcePlay,
          app.setManualPause]
        rw [applyState_paused]
        exact hd2
      · rw [c, hd1]
        simp only at hd2 ⊢
        rw [hd2]
        rfl

theorem single_call_of_no_reversal (p d1 d2 : Bool) (h : d1 ≠ p → d2 = d1) :
    ((if d1 = p then [] else [d1]) ++ (if d2 = d1 then [] else [d2]) : List Bool) =
      if d2 = p then [] else [d2] := by
  cases p <;> cases d1 <;> cases d2 <;> simp at h ⊢

/-- C22: from a state whose cached flag equals the decision of its signal
vector, each of `pause`, `stop`, `disable`, `play`, `start`, `enable` and
`auto` adds to the trace at most one `player.setPaused` call and at most one
notification: none when the flag ends as it started, else one call carrying
the final flag. When the first of the two setters changes the decision, the
changed value is already the final one, so the second setter reverses
nothing. -/
theorem command_single_transition (a : app) (cmd : String) (shot : Except String Image)
    (hc : a.paused = decisionRule a.signals)
    (hcmd : cmd ∈ ["pause", "stop", "disable", "play", "start", "enable", "auto"]) :
    (∃ suffix, (a.handleCommand cmd shot).1.trace = a.trace ++ suffix ∧
        playerCalls suffix =
          (if (a.handleCommand cmd shot).1.paused = a.paused then []
            else [(a.handleCommand cmd shot).1.paused]) ∧
        (playerCalls suffix).length ≤ 1 ∧
        (notifications suffix).length ≤ 1 ∧
        (notifications suffix).length = (playerCalls suffix).length) ∧
      ((cmd = "pause" ∨ cmd = "stop" ∨ cmd = "disable") →
        decisionRule { a.signals with forcePlay := false } ≠ a.paused →
        decisionRule { a.signals with forcePlay := false } =
          (a.handleCommand cmd shot).1.paused) ∧
      ((cmd = "play" ∨ cmd = "start" ∨ cmd = "enable") →
        decisionRule { a.signals with manual := false } ≠ a.paused →
        decisionRule { a.signals with manual := false } =
          (a.handleCommand cmd shot).1.paused) ∧
      (cmd = "auto" →
        decisionRule { a.signals with forcePlay := false } ≠ a.paused →
        decisionRule { a.signals with forcePlay := false } =
          (a.handleCommand cmd shot).1.paused) := by
  obtain ⟨d1, d2, suffix, e, hp2, c, n, g1, g2, g3⟩ := handleCommand_calls a cmd shot hcmd
  have hpause : (cmd = "pause" ∨ cmd = "stop" ∨ cmd = "disable") →
      decisionRule { a.signals with forcePlay := false } ≠ a.paused →
      decisionRule { a.signals with forcePlay := false } = d2 := by
    intro hg
    obtain ⟨-, h2⟩ := g1 hg
    rw [h2, hc]
    simp only [decisionRule]
    cases a.signals.manual <;> cases a.signals.forcePlay <;> cases a.signals.schedule <;>
      cases a.signals.motion <;> cases a.signals.presence <;> simp
  have hplay : (cmd = "play" ∨ cmd = "start" ∨ cmd = "enable") →
      decisionRule { a.signals with manual := false } ≠ a.paused →
      decisionRule { a.signals with manual := false } = d2 := by
    intro hg
    obtain ⟨-, h2⟩ := g2 hg
    rw [h2, hc]
    simp only [decisionRule]
    cases a.signals.manual <;> cases a.signals.forcePlay <;> cases a.signals.schedule <;>
      cases a.signals.motion <;> cases a.signals.presence <;> simp
  have hauto : cmd = "auto" →
      decisionRule { a.signals with forcePlay := false } ≠ a.paused →
      decisionRule { a.signals with forcePlay := false } = d2 := by
    intro hg
    obtain ⟨-, h2⟩ := g3 hg
    rw [h2, hc]
    simp only [decisionRule]
    cases a.signals.manual <;> cases a.signals.forcePlay <;> cases a.signals.schedule <;>
      cases a.signals.motion <;> cases a.signals.presence <;> simp
  have hno : d1 ≠ a.paused → d2 = d1 := by
    intro hne
    simp only [List.mem_cons, List.mem_singleton, List.not_mem_nil, or_false] at hcmd
    have hgroups : (cmd = "pause" ∨ cmd = "stop" ∨ cmd = "disable") ∨
        (cmd = "play" ∨ cmd = "start" ∨ cmd = "enable") ∨ cmd = "auto" := by
      rcases hcmd with h | h | h | h | h | h | h
      · exact Or.inl (Or.inl h)
      · exact Or.inl (Or.inr (Or.inl h))
      · exact Or.inl (Or.inr (Or.inr h))
      · exact Or.inr (Or.inl (Or.inl h))
      · exact Or.inr (Or.inl (Or.inr (Or.inl h)))
      · exact Or.inr (Or.inl (Or.inr (Or.inr h)))
      · exact Or.inr (Or.inr h)
    rcases hgroups with hg | hg | hg
    · have h1 := (g1 hg).1
      rw [h1] at hne ⊢
      exact (hpause hg hne).symm
    · have h1 := (g2 hg).1
      rw [h1] at hne ⊢
      exact (hplay hg hne).symm
    · have h1 := (g3 hg).1
      rw [h1] at hne ⊢
      exact (hauto hg hne).symm
  have hcalls : playerCalls suffix = if d2 = a.paused then [] else [d2] := by
    rw [c]
    exact single_call_of_no_reversal a.paused d1 d2 hno
  have hlen : (playerCalls suffix).length ≤ 1 := by
    rw [hcalls]
    split <;> simp
  refine ⟨⟨suffix, e, ?_, hlen, by rw [n]; exact hlen, n⟩, ?_, ?_, ?_⟩
  · rw [hp2]
    exact hcalls
  · rw [hp2]
    exact hpause
  · rw [hp2]
    exact hplay
  · rw [hp2]
    exact hauto

/-- C22, at `pause` given while `play` holds playback on in quiet hours: the
first setter already pauses, the second adds nothing. -/
theorem command_single_transition_witness :
    (app.paused { newApp newAudioPlayer true 0 with pausedBySchedule := true, forcePlay := true } =
        decisionRule (app.signals
          { newApp newAudioPlayer true 0 with pausedBySchedule := true, forcePlay := true }) ∧
      "pause" ∈ ["pause", "stop", "disable", "play", "start", "enable", "auto"]) ∧
      playerCalls (app.handleCommand
        { newApp newAudioPlayer true 0 with pausedBySchedule := true, forcePlay := true }
        "pause" (Except.error "")).1.trace = [true] ∧
      ∃ suffix, (app.handleCommand
          { newApp newAudioPlayer true 0 with pausedBySchedule := true, forcePlay := true }
          "pause" (Except.error "")).1.trace =
          app.trace { newApp newAudioPlayer true 0 with
            pausedBySchedule := true, forcePlay := true } ++ suffix ∧
        (playerCalls suffix).length ≤ 1 ∧ (notifications suffix).length ≤ 1 :=
  ⟨⟨by decide, by decide⟩, by decide,
    (command_single_transition
      { newApp newAudioPlayer true 0 with pausedBySchedule := true, forcePlay := true }
      "pause" (Except.error "") (by decide) (by decide)).1.elim
      (fun suffix h => ⟨suffix, h.1, h.2.2.1, h.2.2.2.1⟩)⟩

end AudioForNeighbours
